import Mathlib

/-!
Shallow embedding of the `rbmap` red-black-tree package (Go).

The Go code is pointer-based with parent back-references, so the embedding is
a heap model: node addresses are `Nat`, pointers are `Option Nat` (`none` is
Go's `nil`), and the heap is a partial function from addresses to node
records.  Every Go field read or write becomes an explicit heap read or
write, in source order, so aliasing behaves exactly as in Go.  A nil-pointer
dereference (a Go panic) and running off the allocated heap are explicit
`Fault`s; recursive functions take fuel and fault with `noFuel` when it runs
out, so all definitions are structurally recursive and executable.
-/

namespace RBGo

/-- Node color, as in the Go source: `RED = true`. -/
def RED : Bool := true

/-- Node color, as in the Go source: `BLACK = false`. -/
def BLACK : Bool := false

/-- The Go `Node` struct.  `key`/`val` hold Go zero values (`default`) on a
fresh sentinel leaf; `left`, `right`, `parent` are pointers. -/
structure Node (κ ν : Type) where
  key : κ
  val : ν
  left : Option Nat
  right : Option Nat
  parent : Option Nat
  color : Bool

/-- The heap: a partial map from addresses to node records. -/
def Heap (κ ν : Type) := Nat → Option (Node κ ν)

/-- Write the record at address `a`. -/
def hset {κ ν : Type} (h : Heap κ ν) (a : Nat) (n : Node κ ν) : Heap κ ν :=
  fun b => if b = a then some n else h b

/-- The Go `Map` struct, plus an allocation counter `next` (the lowest
address never handed out). -/
structure Map (κ ν : Type) where
  heap : Heap κ ν
  root : Nat
  size : Nat
  compareFunc : κ → κ → Nat
  next : Nat

/-- Failure of a run: a nil-pointer dereference (a Go panic), a read of an
address that was never allocated (impossible in real runs), or fuel
exhaustion. -/
inductive Fault where
  | nilDeref
  | dangling
  | noFuel
deriving DecidableEq

/-- Dereference a pointer, faulting on `nil` exactly where Go would panic. -/
def readP {κ ν : Type} (m : Map κ ν) (p : Option Nat) :
    Except Fault (Nat × Node κ ν) :=
  match p with
  | none => .error .nilDeref
  | some a =>
    match m.heap a with
    | none => .error .dangling
    | some n => .ok (a, n)

/-- Overwrite the record at address `a` in the map's heap. -/
def writeN {κ ν : Type} (m : Map κ ν) (a : Nat) (n : Node κ ν) : Map κ ν :=
  { m with heap := hset m.heap a n }

/-- Allocate a fresh record, returning its address. -/
def alloc {κ ν : Type} (m : Map κ ν) (n : Node κ ν) : Nat × Map κ ν :=
  (m.next, { m with heap := hset m.heap m.next n, next := m.next + 1 })

/-- Go `newLeaf()`: a sentinel — no children, no parent, BLACK, zero-valued
key and value. -/
def newLeafRec {κ ν : Type} [Inhabited κ] [Inhabited ν] : Node κ ν :=
  { key := default, val := default, left := none, right := none,
    parent := none, color := BLACK }

/-- Go `(n *Node) isLeaf()`: both children are nil. -/
def Node.isLeaf {κ ν : Type} (n : Node κ ν) : Bool :=
  n.left.isNone && n.right.isNone

/-- Go `(n *Node) isRoot()`: the parent pointer is nil. -/
def Node.isRoot {κ ν : Type} (n : Node κ ν) : Bool :=
  n.parent.isNone

/-- Go `(n *Node) isRed()`. -/
def Node.isRed {κ ν : Type} (n : Node κ ν) : Bool := n.color

/-- Go `(n *Node) isBlack()`. -/
def Node.isBlack {κ ν : Type} (n : Node κ ν) : Bool := !n.color

/-- Go `node.isRed()` applied through a pointer: dereferences first. -/
def isRedP {κ ν : Type} (m : Map κ ν) (p : Option Nat) : Except Fault Bool := do
  let (_, n) ← readP m p
  pure n.isRed

/-- Go `node.isBlack()` applied through a pointer: dereferences first. -/
def isBlackP {κ ν : Type} (m : Map κ ν) (p : Option Nat) : Except Fault Bool := do
  let (_, n) ← readP m p
  pure n.isBlack

/-- Go `(n *Node) isLeft()`: `n == n.parent.left`; dereferences the parent. -/
def isLeftN {κ ν : Type} (m : Map κ ν) (a : Nat) (n : Node κ ν) :
    Except Fault Bool := do
  let (_, p) ← readP m n.parent
  pure (p.left == some a)

/-- Go `(n *Node) isRight()`: `n == n.parent.right`. -/
def isRightN {κ ν : Type} (m : Map κ ν) (a : Nat) (n : Node κ ν) :
    Except Fault Bool := do
  let (_, p) ← readP m n.parent
  pure (p.right == some a)

/-- Go `(n *Node) getSibling()`: the parent's other child, as a pointer. -/
def getSibling {κ ν : Type} (m : Map κ ν) (a : Nat) (n : Node κ ν) :
    Except Fault (Option Nat) := do
  let (_, p) ← readP m n.parent
  if p.left == some a then pure p.right else pure p.left

/-- Go `(n *Node) getUncle()`: `n.parent.getSibling()`. -/
def getUncle {κ ν : Type} (m : Map κ ν) (n : Node κ ν) :
    Except Fault (Option Nat) := do
  let (pa, pn) ← readP m n.parent
  getSibling m pa pn

/-- Go `(m *Map) findNode(node, key)`: recursive descent guided by
`compareFunc key node.key`; result `1` goes left, `2` goes right, anything
else stops at the current node. -/
def findNode {κ ν : Type} (m : Map κ ν) :
    Nat → Option Nat → κ → Except Fault Nat
  | 0, _, _ => .error .noFuel
  | fuel + 1, p, key => do
    let (a, n) ← readP m p
    if n.isLeaf then pure a
    else
      let c := m.compareFunc key n.key
      if c = 1 then findNode m fuel n.left key
      else if c = 2 then findNode m fuel n.right key
      else pure a

/-- Go `(m *Map) rotateLeft(node)`.  Every field access re-reads the current
heap, in source order.  (Go would panic at the write `rightChild.parent = …`
when the right child is nil; the model faults on that dereference up front,
before the parent re-link — the same runs fault either way.) -/
def rotateLeft {κ ν : Type} (m : Map κ ν) (p : Option Nat) :
    Except Fault (Map κ ν) := do
  let (a, node) ← readP m p
  let (rc, _) ← readP m node.right
  let parentP := node.parent
  let m ← match parentP with
    | none => pure { m with root := rc }
    | some pa => do
        let (_, pn) ← readP m (some pa)
        if pn.left == some a then
          pure (writeN m pa { pn with left := some rc })
        else
          pure (writeN m pa { pn with right := some rc })
  let (_, rcn) ← readP m (some rc)
  let m := writeN m rc { rcn with parent := parentP }
  let (_, node) ← readP m (some a)
  let m := writeN m a { node with parent := some rc }
  let (_, rcn) ← readP m (some rc)
  let (_, node) ← readP m (some a)
  let m := writeN m a { node with right := rcn.left }
  let (nr, nrn) ← readP m rcn.left
  let m := writeN m nr { nrn with parent := some a }
  let (_, rcn) ← readP m (some rc)
  pure (writeN m rc { rcn with left := some a })

/-- Go `(m *Map) rotateRight(node)`, mirror of `rotateLeft`. -/
def rotateRight {κ ν : Type} (m : Map κ ν) (p : Option Nat) :
    Except Fault (Map κ ν) := do
  let (a, node) ← readP m p
  let (lc, _) ← readP m node.left
  let parentP := node.parent
  let m ← match parentP with
    | none => pure { m with root := lc }
    | some pa => do
        let (_, pn) ← readP m (some pa)
        if pn.left == some a then
          pure (writeN m pa { pn with left := some lc })
        else
          pure (writeN m pa { pn with right := some lc })
  let (_, lcn) ← readP m (some lc)
  let m := writeN m lc { lcn with parent := parentP }
  let (_, node) ← readP m (some a)
  let m := writeN m a { node with parent := some lc }
  let (_, lcn) ← readP m (some lc)
  let (_, node) ← readP m (some a)
  let m := writeN m a { node with left := lcn.right }
  let (nl, nln) ← readP m lcn.right
  let m := writeN m nl { nln with parent := some a }
  let (_, lcn) ← readP m (some lc)
  pure (writeN m lc { lcn with right := some a })

/-- Go `(m *Map) insertSort(node)`: the insertion fixup, recursing up to the
grandparent in the red-uncle case. -/
def insertSort {κ ν : Type} (m : Map κ ν) :
    Nat → Nat → Except Fault (Map κ ν)
  | 0, _ => .error .noFuel
  | fuel + 1, a => do
    let (_, node) ← readP m (some a)
    if node.isRoot then
      let m := { m with root := a }
      let (_, node) ← readP m (some a)
      pure (writeN m a { node with color := BLACK })
    else do
      let (pa, pn) ← readP m node.parent
      if pn.isRed then
        let uncleP ← getUncle m node
        if ← isRedP m uncleP then do
          let (ua, un) ← readP m uncleP
          let m := writeN m ua { un with color := BLACK }
          let (_, pn) ← readP m (some pa)
          let m := writeN m pa { pn with color := BLACK }
          let (_, node) ← readP m (some a)
          let gP ← do
            let (_, pn) ← readP m node.parent
            pure pn.parent
          let (ga, gn) ← readP m gP
          let m := writeN m ga { gn with color := RED }
          insertSort m fuel ga
        else do
          let isL ← isLeftN m a node
          let isPL ← isLeftN m pa pn
          let gP := pn.parent
          if isL && isPL then do
            let (_, pn) ← readP m (some pa)
            let m := writeN m pa { pn with color := BLACK }
            let (ga, gn) ← readP m gP
            let m := writeN m ga { gn with color := RED }
            rotateRight m gP
          else if isL && !isPL then do
            let (_, node) ← readP m (some a)
            let m := writeN m a { node with color := BLACK }
            let (ga, gn) ← readP m gP
            let m := writeN m ga { gn with color := RED }
            let (_, node) ← readP m (some a)
            let m ← rotateRight m node.parent
            rotateLeft m gP
          else if !isL && isPL then do
            let (_, node) ← readP m (some a)
            let m := writeN m a { node with color := BLACK }
            let (ga, gn) ← readP m gP
            let m := writeN m ga { gn with color := RED }
            let (_, node) ← readP m (some a)
            let m ← rotateLeft m node.parent
            rotateRight m gP
          else do
            let (_, pn) ← readP m (some pa)
            let m := writeN m pa { pn with color := BLACK }
            let (ga, gn) ← readP m gP
            let m := writeN m ga { gn with color := RED }
            rotateLeft m gP
      else
        pure m

/-- Go `(m *Map) insertNode(node, key, val)`: turn the sentinel at `a` into a
RED live node with two freshly allocated sentinel children, then fix up. -/
def insertNode {κ ν : Type} [Inhabited κ] [Inhabited ν] (m : Map κ ν)
    (fuel : Nat) (a : Nat) (key : κ) (val : ν) : Except Fault (Map κ ν) := do
  let (_, node) ← readP m (some a)
  let m := writeN m a { node with key := key, val := val, color := RED }
  let (la, m) := alloc m newLeafRec
  let (_, node) ← readP m (some a)
  let m := writeN m a { node with left := some la }
  let (ra, m) := alloc m newLeafRec
  let (_, node) ← readP m (some a)
  let m := writeN m a { node with right := some ra }
  let (_, ln) ← readP m (some la)
  let m := writeN m la { ln with parent := some a }
  let (_, rn) ← readP m (some ra)
  let m := writeN m ra { rn with parent := some a }
  insertSort m fuel a

/-- Go loop body of `getLeftMostChild`: walk `right` until a leaf, then
return that leaf's parent pointer. -/
def leftMostLoop {κ ν : Type} (m : Map κ ν) :
    Nat → Option Nat → Except Fault (Option Nat)
  | 0, _ => .error .noFuel
  | fuel + 1, p => do
    let (_, n) ← readP m p
    if n.isLeaf then pure n.parent
    else leftMostLoop m fuel n.right

/-- Go `(m *Map) getLeftMostChild(node)`: the in-order predecessor, as a
pointer. -/
def getLeftMostChild {κ ν : Type} (m : Map κ ν) (fuel : Nat) (a : Nat) :
    Except Fault (Option Nat) := do
  let (_, node) ← readP m (some a)
  leftMostLoop m fuel node.left

/-- Go `(m *Map) eraseSort(node)`: the deletion fixup.  Reads of
`sibling.left` / `sibling.right` dereference the sibling's child pointers
and fault when the sibling is a sentinel (whose children are nil), exactly
as the Go code would panic. -/
def eraseSort {κ ν : Type} (m : Map κ ν) :
    Nat → Nat → Except Fault (Map κ ν)
  | 0, _ => .error .noFuel
  | fuel + 1, a => do
    let (_, node) ← readP m (some a)
    if node.isRoot then
      let m := writeN m a { node with color := BLACK }
      pure { m with root := a }
    else if node.isRed then
      pure (writeN m a { node with color := BLACK })
    else do
      let siblingP ← getSibling m a node
      if ← isRedP m siblingP then do
        let (sa, sn) ← readP m siblingP
        let m := writeN m sa { sn with color := BLACK }
        let (_, node) ← readP m (some a)
        let (pa, pn) ← readP m node.parent
        let m := writeN m pa { pn with color := RED }
        let (_, node) ← readP m (some a)
        let m ← do
          if ← isLeftN m a node then
            let (_, node) ← readP m (some a)
            rotateLeft m node.parent
          else
            let (_, node) ← readP m (some a)
            rotateRight m node.parent
        eraseSort m fuel a
      else do
        let (sa, sn) ← readP m siblingP
        if (← isBlackP m sn.left) && (← isBlackP m sn.right) then do
          let (_, sn) ← readP m (some sa)
          let m := writeN m sa { sn with color := RED }
          let (_, node) ← readP m (some a)
          let (pa, _) ← readP m node.parent
          eraseSort m fuel pa
        else do
          let (siblingP, m) ← do
            let (_, node) ← readP m (some a)
            if (← isLeftN m a node) && (← isBlackP m sn.right) then do
              let m := writeN m sa { sn with color := RED }
              let (_, sn) ← readP m (some sa)
              let (sla, sln) ← readP m sn.left
              let m := writeN m sla { sln with color := BLACK }
              let m ← rotateRight m (some sa)
              let (_, node) ← readP m (some a)
              let siblingP ← getSibling m a node
              pure (siblingP, m)
            else
              pure (siblingP, m)
          let (siblingP, m) ← do
            let (_, node) ← readP m (some a)
            let (sa, sn) ← readP m siblingP
            if (← isRightN m a node) && (← isBlackP m sn.left) then do
              let m := writeN m sa { sn with color := RED }
              let (_, sn) ← readP m (some sa)
              let (sra, srn) ← readP m sn.right
              let m := writeN m sra { srn with color := BLACK }
              let m ← rotateLeft m (some sa)
              let (_, node) ← readP m (some a)
              let siblingP ← getSibling m a node
              pure (siblingP, m)
            else
              pure (siblingP, m)
          let (sa, sn) ← readP m siblingP
          let (_, node) ← readP m (some a)
          let (pa, pn) ← readP m node.parent
          let m := writeN m sa { sn with color := pn.color }
          let (_, pn) ← readP m (some pa)
          let m := writeN m pa { pn with color := BLACK }
          let (_, node) ← readP m (some a)
          if ← isLeftN m a node then do
            let (_, sn) ← readP m (some sa)
            let (sra, srn) ← readP m sn.right
            let m := writeN m sra { srn with color := BLACK }
            let (_, node) ← readP m (some a)
            rotateLeft m node.parent
          else do
            let (_, sn) ← readP m (some sa)
            let (sla, sln) ← readP m sn.left
            let m := writeN m sla { sln with color := BLACK }
            let (_, node) ← readP m (some a)
            rotateRight m node.parent

/-- Go `(m *Map) eraseNode(node)`: splice out a node with at most one
non-sentinel child (fixing up when the spliced node was BLACK), or copy the
in-order predecessor's key/value in and recurse on the predecessor. -/
def eraseNode {κ ν : Type} (m : Map κ ν) :
    Nat → Nat → Except Fault (Map κ ν)
  | 0, _ => .error .noFuel
  | fuel + 1, a => do
    let (_, node) ← readP m (some a)
    let (_, lch) ← readP m node.left
    if lch.isLeaf then do
      let rightChildP := node.right
      let parentP := node.parent
      let (rca, rcn) ← readP m rightChildP
      let m := writeN m rca { rcn with parent := parentP }
      let m ← match parentP with
        | none => pure m
        | some pa => do
            let (_, node) ← readP m (some a)
            if ← isLeftN m a node then do
              let (_, pn) ← readP m (some pa)
              pure (writeN m pa { pn with left := rightChildP })
            else do
              let (_, pn) ← readP m (some pa)
              pure (writeN m pa { pn with right := rightChildP })
      let (_, node) ← readP m (some a)
      if node.isBlack then eraseSort m fuel rca
      else pure m
    else do
      let (_, rch) ← readP m node.right
      if rch.isLeaf then do
        let leftChildP := node.left
        let parentP := node.parent
        let (lca, lcn) ← readP m leftChildP
        let m := writeN m lca { lcn with parent := parentP }
        let m ← match parentP with
          | none => pure m
          | some pa => do
              let (_, node) ← readP m (some a)
              if ← isLeftN m a node then do
                let (_, pn) ← readP m (some pa)
                pure (writeN m pa { pn with left := leftChildP })
              else do
                let (_, pn) ← readP m (some pa)
                pure (writeN m pa { pn with right := leftChildP })
        let (_, node) ← readP m (some a)
        if node.isBlack then eraseSort m fuel lca
        else pure m
      else do
        let lmP ← getLeftMostChild m (fuel + 1) a
        let (lma, lmn) ← readP m lmP
        let (_, node) ← readP m (some a)
        let m := writeN m a { node with key := lmn.key, val := lmn.val }
        eraseNode m fuel lma

/-- Go `(m *Map) ran(node, ch)`: the in-order walk, collected into a list
instead of a channel. -/
def ran {κ ν : Type} (m : Map κ ν) :
    Nat → Option Nat → Except Fault (List (κ × ν))
  | 0, _ => .error .noFuel
  | fuel + 1, p => do
    let (_, n) ← readP m p
    if n.isLeaf then pure []
    else do
      let l ← ran m fuel n.left
      let r ← ran m fuel n.right
      pure (l ++ (n.key, n.val) :: r)

/-- The two Go error values. -/
inductive Err where
  | alreadyExists
  | notExists
deriving DecidableEq

/-- Go `NewMap(compareFunc)`: the root is a freshly allocated sentinel. -/
def NewMap {κ ν : Type} [Inhabited κ] [Inhabited ν]
    (compareFunc : κ → κ → Nat) : Map κ ν :=
  { heap := hset (fun _ => none) 0 newLeafRec, root := 0, size := 0,
    compareFunc := compareFunc, next := 1 }

/-- Go `(m *Map) Len()`. -/
def Len {κ ν : Type} (m : Map κ ν) : Nat := m.size

/-- Go `(m *Map) Range()`, as the finite list the channel would deliver. -/
def RangeList {κ ν : Type} (m : Map κ ν) (fuel : Nat) :
    Except Fault (List (κ × ν)) :=
  ran m fuel (some m.root)

/-- Go `(m *Map) Add(key, val)`: insert, or overwrite the value and report
`ErrNodeAlreadyExists`.  The returned `Option Err` is the Go `error`. -/
def Add {κ ν : Type} [Inhabited κ] [Inhabited ν] (m : Map κ ν) (fuel : Nat)
    (key : κ) (val : ν) : Except Fault (Option Err × Map κ ν) := do
  let a ← findNode m fuel (some m.root) key
  let (_, n) ← readP m (some a)
  if n.isLeaf then do
    let m ← insertNode m fuel a key val
    let m := { m with size := m.size + 1 }
    pure (none, m)
  else
    pure (some .alreadyExists, writeN m a { n with val := val })

/-- Go `(m *Map) Delete(key)`. -/
def Delete {κ ν : Type} (m : Map κ ν) (fuel : Nat) (key : κ) :
    Except Fault (Option Err × Map κ ν) := do
  let a ← findNode m fuel (some m.root) key
  let (_, n) ← readP m (some a)
  if n.isLeaf then pure (some .notExists, m)
  else do
    let m ← eraseNode m fuel a
    pure (none, m)

/-- Go `(m *Map) Set(key, val)`. -/
def Set {κ ν : Type} (m : Map κ ν) (fuel : Nat) (key : κ) (val : ν) :
    Except Fault (Bool × Map κ ν) := do
  let a ← findNode m fuel (some m.root) key
  let (_, n) ← readP m (some a)
  if n.isLeaf then pure (false, m)
  else pure (true, writeN m a { n with val := val })

/-- Go `(m *Map) Get(key)`: `(false, nil)` on absence, `(true, node.val)` on
a hit. -/
def Get {κ ν : Type} [Inhabited ν] (m : Map κ ν) (fuel : Nat) (key : κ) :
    Except Fault (Bool × ν) := do
  let a ← findNode m fuel (some m.root) key
  let (_, n) ← readP m (some a)
  if n.isLeaf then pure (false, default)
  else pure (true, n.val)

/-- The comparator the repository's test constructs for `int` keys:
`0` on equal, `1` on less, `2` on greater. -/
def natCmp (a b : Nat) : Nat :=
  if a < b then 1 else if b < a then 2 else 0


/-! ## Concrete states and the repository's test scenario -/

/-- Keys 1..10 inserted with values i+1 into a fresh map, as in the
repository's test `TestMapAddFunc`. -/
def testAfterAdds : Except Fault (Map Nat Nat) :=
  (List.range 10).foldlM (fun m i => (Add m 64 (i + 1) (i + 2)).map Prod.snd)
    (NewMap natCmp)

/-- The test scenario continued: keys 1..9 deleted. -/
def testAfterDeletes : Except Fault (Map Nat Nat) :=
  testAfterAdds >>= fun m =>
    (List.range 9).foldlM (fun m i => (Delete m 64 (i + 1)).map Prod.snd) m

/-- A one-entry map (key 5 ↦ value 7 at address 0, sentinels at 1 and 2),
used to instantiate hypotheses of the general theorems. -/
def exHeap : Heap Nat Nat :=
  hset (hset (hset (fun _ => none) 0
      { key := 5, val := 7, left := some 1, right := some 2, parent := none,
        color := BLACK })
    1 { key := 0, val := 0, left := none, right := none, parent := some 0,
        color := BLACK })
    2 { key := 0, val := 0, left := none, right := none, parent := some 0,
        color := BLACK }

/-- The one-entry map with the test's comparator. -/
def exMap : Map Nat Nat :=
  { heap := exHeap, root := 0, size := 1, compareFunc := natCmp, next := 3 }

/-- The one-entry map with a comparator that always answers `3` — a value
that is neither 0, 1 nor 2. -/
def cmp3Map : Map Nat Nat :=
  { exMap with compareFunc := fun _ _ => 3 }

/-! ## Simp toolkit for symbolic execution of runs -/

@[simp] theorem ok_bind {α β : Type} (a : α) (f : α → Except Fault β) :
    (Except.ok a >>= f : Except Fault β) = f a := rfl

@[simp] theorem error_bind {α β : Type} (e : Fault) (f : α → Except Fault β) :
    (Except.error e >>= f : Except Fault β) = Except.error e := rfl

@[simp] theorem pure_eq_ok {α : Type} (a : α) :
    (pure a : Except Fault α) = Except.ok a := rfl

@[simp] theorem exmap_ok {α β : Type} (f : α → β) (a : α) :
    Except.map f (Except.ok a : Except Fault α) = Except.ok (f a) := rfl

@[simp] theorem exmap_error {α β : Type} (f : α → β) (e : Fault) :
    Except.map f (Except.error e : Except Fault α) = Except.error e := rfl

@[simp] theorem readP_none {κ ν : Type} (m : Map κ ν) :
    readP m none = .error .nilDeref := rfl

theorem readP_some {κ ν : Type} {m : Map κ ν} {a : Nat} {n : Node κ ν}
    (h : m.heap a = some n) : readP m (some a) = .ok (a, n) := by
  simp [readP, h]

@[simp] theorem writeN_heap_same {κ ν : Type} (m : Map κ ν) (a : Nat)
    (n : Node κ ν) : (writeN m a n).heap a = some n := by
  simp [writeN, hset]

theorem writeN_heap_other {κ ν : Type} {m : Map κ ν} {a b : Nat}
    {n : Node κ ν} (h : b ≠ a) : (writeN m a n).heap b = m.heap b := by
  simp [writeN, hset, h]

@[simp] theorem writeN_root {κ ν : Type} (m : Map κ ν) (a : Nat)
    (n : Node κ ν) : (writeN m a n).root = m.root := rfl

@[simp] theorem writeN_size {κ ν : Type} (m : Map κ ν) (a : Nat)
    (n : Node κ ν) : (writeN m a n).size = m.size := rfl

@[simp] theorem writeN_next {κ ν : Type} (m : Map κ ν) (a : Nat)
    (n : Node κ ν) : (writeN m a n).next = m.next := rfl

@[simp] theorem writeN_compareFunc {κ ν : Type} (m : Map κ ν) (a : Nat)
    (n : Node κ ν) : (writeN m a n).compareFunc = m.compareFunc := rfl

/-! ## Functional trees and the representation predicate

`Rep h p par t A` states that the pointer structure reachable from pointer
`p` in heap `h` is a well-formed tree: it spells out tree `t`, occupies
exactly the addresses in `A` (in in-order sequence, duplicate-free), every
node's `parent` field points back correctly (the root of the region to
`par`), and every sentinel is BLACK.  This is the data model of §3 of the
spec, read off the heap. -/

/-- Functional binary trees with colors: the shape abstraction of the
heap's pointer structure.  `leaf` is a sentinel. -/
inductive Tree (κ ν : Type) where
  | leaf
  | node (color : Bool) (l : Tree κ ν) (key : κ) (val : ν) (r : Tree κ ν)

/-- In-order traversal of a functional tree. -/
def Tree.inorder {κ ν : Type} : Tree κ ν → List (κ × ν)
  | .leaf => []
  | .node _ l k v r => l.inorder ++ (k, v) :: r.inorder

/-- Number of live (internal) nodes. -/
def Tree.size {κ ν : Type} : Tree κ ν → Nat
  | .leaf => 0
  | .node _ l _ _ r => l.size + r.size + 1

/-- The heap region rooted at pointer `p` represents tree `t` on the
in-order address list `A`, with parent back-pointer `par`. -/
inductive Rep {κ ν : Type} (h : Heap κ ν) :
    Option Nat → Option Nat → Tree κ ν → List Nat → Prop where
  | leaf {a : Nat} {par : Option Nat} {n : Node κ ν} :
      h a = some n → n.left = none → n.right = none → n.parent = par →
      n.color = BLACK →
      Rep h (some a) par .leaf [a]
  | node {a : Nat} {par : Option Nat} {n : Node κ ν} {tl tr : Tree κ ν}
      {Al Ar : List Nat} :
      h a = some n → n.parent = par →
      Rep h n.left (some a) tl Al →
      Rep h n.right (some a) tr Ar →
      (Al ++ a :: Ar).Nodup →
      Rep h (some a) par (.node n.color tl n.key n.val tr) (Al ++ a :: Ar)

/-- Every represented address is allocated. -/
theorem Rep.mem_alloc {κ ν : Type} {h : Heap κ ν} {p par : Option Nat}
    {t : Tree κ ν} {A : List Nat} (hr : Rep h p par t A) :
    ∀ b ∈ A, ∃ n, h b = some n := by
  induction hr with
  | leaf ha _ _ _ _ =>
    intro b hb
    simp only [List.mem_singleton] at hb
    exact ⟨_, hb ▸ ha⟩
  | node ha _ _ _ _ ihl ihr =>
    intro b hb
    rcases List.mem_append.1 hb with hb | hb
    · exact ihl b hb
    · rcases List.mem_cons.1 hb with rfl | hb
      · exact ⟨_, ha⟩
      · exact ihr b hb

/-- The root of a represented region is on its address list. -/
theorem Rep.root_mem {κ ν : Type} {h : Heap κ ν} {a : Nat}
    {par : Option Nat} {t : Tree κ ν} {A : List Nat}
    (hr : Rep h (some a) par t A) : a ∈ A := by
  cases hr with
  | leaf => exact List.mem_singleton.2 rfl
  | node => exact List.mem_append.2 (Or.inr (List.mem_cons_self _ _))

/-- Representation only depends on the heap's values on the region. -/
theorem Rep.frame {κ ν : Type} {h h' : Heap κ ν} {p par : Option Nat}
    {t : Tree κ ν} {A : List Nat} (hr : Rep h p par t A)
    (hagree : ∀ b ∈ A, h' b = h b) : Rep h' p par t A := by
  induction hr with
  | leaf ha h1 h2 h3 h4 =>
    exact .leaf ((hagree _ (List.mem_singleton.2 rfl)).trans ha) h1 h2 h3 h4
  | node ha hp _ _ hnd ihl ihr =>
    refine .node ((hagree _ (List.mem_append.2
        (Or.inr (List.mem_cons_self _ _)))).trans ha) hp ?_ ?_ hnd
    · exact ihl fun b hb =>
        hagree b (List.mem_append.2 (Or.inl hb))
    · exact ihr fun b hb =>
        hagree b (List.mem_append.2 (Or.inr (List.mem_cons.2 (Or.inr hb))))

/-- Writing outside the region preserves representation. -/
theorem Rep.frame_set {κ ν : Type} {h : Heap κ ν} {p par : Option Nat}
    {t : Tree κ ν} {A : List Nat} {b : Nat} {n : Node κ ν}
    (hr : Rep h p par t A) (hb : b ∉ A) : Rep (hset h b n) p par t A :=
  hr.frame fun c hc => by
    have : c ≠ b := fun hcb => hb (hcb ▸ hc)
    simp [hset, this]

/-- A non-empty pointer heads every represented region. -/
theorem Rep.p_some {κ ν : Type} {h : Heap κ ν} {p par : Option Nat}
    {t : Tree κ ν} {A : List Nat} (hr : Rep h p par t A) :
    ∃ a, p = some a := by
  cases hr
  · exact ⟨_, rfl⟩
  · exact ⟨_, rfl⟩

/-- A region's root record decides leafness of its tree. -/
theorem Rep.leaf_iff {κ ν : Type} {h : Heap κ ν} {a : Nat}
    {par : Option Nat} {t : Tree κ ν} {A : List Nat} {n : Node κ ν}
    (hr : Rep h (some a) par t A) (hn : h a = some n) :
    (n.isLeaf = true ↔ t = .leaf) := by
  cases hr with
  | leaf ha h1 h2 _ _ =>
    rw [ha] at hn
    cases Option.some.inj hn
    simp [Node.isLeaf, h1, h2]
  | node ha _ hl _ _ =>
    rw [ha] at hn
    cases Option.some.inj hn
    obtain ⟨la, hla⟩ := hl.p_some
    simp [Node.isLeaf, hla]

/-- A represented region is spelled out uniquely by the heap. -/
theorem Rep.unique {κ ν : Type} {h : Heap κ ν} {p : Option Nat}
    {par1 par2 : Option Nat} {t1 t2 : Tree κ ν} {A1 A2 : List Nat}
    (hr1 : Rep h p par1 t1 A1) (hr2 : Rep h p par2 t2 A2) :
    t1 = t2 ∧ A1 = A2 := by
  induction hr1 generalizing par2 t2 A2 with
  | leaf ha h1 h2 h3 h4 =>
    cases hr2 with
    | leaf hb => exact ⟨rfl, rfl⟩
    | node hb hp2 hl2 =>
      rw [ha] at hb
      cases Option.some.inj hb
      obtain ⟨la, hla⟩ := hl2.p_some
      rw [h1] at hla
      cases hla
  | node ha hp hl hrr hnd ihl ihr =>
    cases hr2 with
    | leaf hb h1 h2 h3 h4 =>
      rw [ha] at hb
      cases Option.some.inj hb
      obtain ⟨la, hla⟩ := hl.p_some
      rw [h1] at hla
      cases hla
    | node hb hp2 hl2 hr2 hnd2 =>
      rw [ha] at hb
      cases Option.some.inj hb
      obtain ⟨e1, e2⟩ := ihl hl2
      obtain ⟨e3, e4⟩ := ihr hr2
      subst e1
      subst e2
      subst e3
      subst e4
      exact ⟨rfl, rfl⟩

/-- The in-order walk `ran` on a represented region returns exactly the
tree's in-order key/value sequence, given enough fuel; in particular it
emits nothing for sentinels. -/
theorem ran_rep {κ ν : Type} {m : Map κ ν} {p par : Option Nat}
    {t : Tree κ ν} {A : List Nat} (hr : Rep m.heap p par t A) :
    ∀ fuel, t.size < fuel → ran m fuel p = .ok t.inorder := by
  induction hr with
  | leaf ha h1 h2 _ _ =>
    intro fuel hfuel
    match fuel, hfuel with
    | fuel + 1, _ =>
      simp [ran, readP_some ha, Node.isLeaf, h1, h2, Tree.inorder]
  | @node a par n tl tr Al Ar ha hp hl hrr hnd ihl ihr =>
    intro fuel hfuel
    match fuel, hfuel with
    | fuel + 1, hfuel =>
      obtain ⟨la, hla⟩ := hl.p_some
      have hleaf : n.isLeaf = false := by simp [Node.isLeaf, hla]
      simp only [Tree.size] at hfuel
      have hszl : tl.size < fuel := by omega
      have hszr : tr.size < fuel := by omega
      simp [ran, readP_some ha, hleaf, ihl fuel hszl, ihr fuel hszr,
        Tree.inorder]

/-! ## Rotation infrastructure -/

/-- Splitting a duplicate-free in-order address list. -/
theorem nodup_split {a : Nat} {Al Ar : List Nat}
    (hnd : (Al ++ a :: Ar).Nodup) :
    a ∉ Al ∧ a ∉ Ar ∧ Al.Nodup ∧ Ar.Nodup ∧ ∀ x ∈ Al, x ∉ Ar := by
  rw [List.nodup_append] at hnd
  obtain ⟨h1, h2, h3⟩ := hnd
  rw [List.nodup_cons] at h2
  refine ⟨fun hm => h3 hm (List.mem_cons_self _ _), h2.1, h1, h2.2, ?_⟩
  intro x hx hx2
  exact h3 hx (List.mem_cons.2 (Or.inr hx2))

/-- Changing only the parent field of a region's root re-roots the region
under the new parent. -/
theorem Rep.reparent {κ ν : Type} {h : Heap κ ν} {a : Nat}
    {par o : Option Nat} {t : Tree κ ν} {A : List Nat} {n : Node κ ν}
    (hr : Rep h (some a) par t A) (hn : h a = some n) :
    Rep (hset h a { n with parent := o }) (some a) o t A := by
  cases hr with
  | leaf ha h1 h2 h3 h4 =>
    rw [ha] at hn
    cases Option.some.inj hn
    exact .leaf (n := { n with parent := o }) (by simp [hset]) h1 h2 rfl h4
  | node ha hp hl hrr hnd =>
    rw [ha] at hn
    cases Option.some.inj hn
    obtain ⟨hal, har, -, -, -⟩ := nodup_split hnd
    exact .node (n := { n with parent := o }) (by simp [hset]) rfl
      (hl.frame_set hal) (hrr.frame_set har) hnd

/-- Rebuilding representation after the pointer surgery of a left rotation:
if the new heap has the three re-linked records (rotation point `r`, its old
right child `b`, and `b`'s old left child `rl`) and agrees with the old heap
on the rest of the region, the region now represents the rotated tree on the
same in-order address list. -/
theorem Rep.rotateLeft_rebuild {κ ν : Type} {h h2 : Heap κ ν}
    {r b rl : Nat} {par : Option Nat} {q nb nrl : Node κ ν}
    {tl trl trr : Tree κ ν} {Al Arl Arr : List Nat}
    (hl : Rep h q.left (some r) tl Al)
    (htrl : Rep h (some rl) (some b) trl Arl)
    (htrr : Rep h nb.right (some b) trr Arr)
    (hnrl : h rl = some nrl)
    (hnd : (Al ++ r :: (Arl ++ b :: Arr)).Nodup)
    (h2r : h2 r = some { key := q.key, val := q.val, left := q.left,
                         right := some rl, parent := some b, color := q.color })
    (h2b : h2 b = some { key := nb.key, val := nb.val, left := some r,
                         right := nb.right, parent := par, color := nb.color })
    (h2rl : h2 rl = some { nrl with parent := some r })
    (hagree : ∀ c ∈ Al ++ r :: (Arl ++ b :: Arr),
        c ≠ r → c ≠ b → c ≠ rl → h2 c = h c) :
    Rep h2 (some b) par
      (.node nb.color (.node q.color tl q.key q.val trl) nb.key nb.val trr)
      (Al ++ r :: (Arl ++ b :: Arr)) := by
  obtain ⟨hrAl, hrRest, hndAl, hndRest, hdisjAl⟩ := nodup_split hnd
  obtain ⟨hbArl, hbArr, hndArl, hndArr, hdisjArl⟩ := nodup_split hndRest
  have hrlArl : rl ∈ Arl := htrl.root_mem
  have hbr : b ≠ r := fun e => hrRest (by subst e; simp)
  have hrlr : rl ≠ r := fun e => hrRest (by subst e; simp [hrlArl])
  have hrlb : rl ≠ b := fun e => hbArl (e ▸ hrlArl)
  have hlist : (Al ++ r :: Arl) ++ b :: Arr = Al ++ r :: (Arl ++ b :: Arr) := by
    simp
  have hl2 : Rep h2 q.left (some r) tl Al := by
    refine hl.frame fun c hc => ?_
    have hcr : c ≠ r := fun e => hrAl (e ▸ hc)
    have hcb : c ≠ b := fun e => hdisjAl _ hc (by subst e; simp)
    have hcrl : c ≠ rl := fun e => hdisjAl _ hc (by subst e; simp [hrlArl])
    exact hagree c (by simp [hc]) hcr hcb hcrl
  have htrl2 : Rep h2 (some rl) (some r) trl Arl := by
    have step := htrl.reparent (o := some r) hnrl
    refine step.frame fun c hc => ?_
    by_cases hcrl : c = rl
    · subst hcrl
      rw [h2rl]
      simp [hset]
    · have hcr : c ≠ r := fun e => hrRest (by subst e; simp [hc])
      have hcb : c ≠ b := fun e => hbArl (e ▸ hc)
      have hagr := hagree c (by simp [hc]) hcr hcb hcrl
      rw [hagr]
      simp [hset, hcrl]
  have htrr2 : Rep h2 nb.right (some b) trr Arr := by
    refine htrr.frame fun c hc => ?_
    have hcr : c ≠ r := fun e => hrRest (by subst e; simp [hc])
    have hcb : c ≠ b := fun e => hbArr (e ▸ hc)
    have hcrl : c ≠ rl := fun e => hdisjArl _ hrlArl (e ▸ hc)
    exact hagree c (by simp [hc]) hcr hcb hcrl
  have hndInner : (Al ++ r :: Arl).Nodup := by
    have hsub : (Al ++ r :: Arl).Sublist (Al ++ r :: (Arl ++ b :: Arr)) :=
      List.Sublist.append_left
        (List.Sublist.cons₂ _ (List.sublist_append_left _ _)) _
    exact hnd.sublist hsub
  have hinner : Rep h2 (some r) (some b)
      (.node q.color tl q.key q.val trl) (Al ++ r :: Arl) := by
    have step := Rep.node (a := r)
      (n := { key := q.key, val := q.val, left := q.left, right := some rl,
              parent := some b, color := q.color })
      h2r rfl hl2 htrl2 hndInner
    exact step
  have houter := Rep.node (a := b)
    (n := { key := nb.key, val := nb.val, left := some r, right := nb.right,
            parent := par, color := nb.color })
    h2b rfl hinner htrr2 (by rw [hlist]; exact hnd)
  rw [hlist] at houter
  exact houter

/-- Full effect of `rotateLeft` applied at the root of a represented
region whose right child is live: the rotation succeeds, the region
represents the rotated tree on the same in-order address list with the
same in-order sequence, nothing outside the region changes except the
region root's parent slot (or `m.root` when the region is the whole tree),
and the bookkeeping fields are untouched. -/
theorem rotateLeft_here {κ ν : Type} {m : Map κ ν} {r : Nat}
    {par : Option Nat} {t : Tree κ ν} {A : List Nat}
    (hrep : Rep m.heap (some r) par t A)
    (hpar : (par = none ∧ m.root = r) ∨
      (∃ pa pn, par = some pa ∧ pa ∉ A ∧ m.heap pa = some pn ∧
        (pn.left = some r ∨ pn.right = some r)))
    {b : Nat} {n nb : Node κ ν}
    (hn : m.heap r = some n) (hnr : n.right = some b)
    (hb : m.heap b = some nb) (hbl : nb.isLeaf = false) :
    ∃ m' t',
      rotateLeft m (some r) = .ok m' ∧
      Rep m'.heap (some b) par t' A ∧
      t'.inorder = t.inorder ∧
      (∀ c, c ∉ A → some c ≠ par → m'.heap c = m.heap c) ∧
      (par = none → m'.root = b) ∧
      (∀ pa, par = some pa → m'.root = m.root ∧
        ∀ pn, m.heap pa = some pn →
          m'.heap pa = some (if pn.left == some r
            then { pn with left := some b }
            else { pn with right := some b })) ∧
      m'.size = m.size ∧ m'.next = m.next ∧ m'.compareFunc = m.compareFunc := by
  cases hrep with
  | leaf ha h1 h2 h3 h4 =>
    rw [ha] at hn
    cases Option.some.inj hn
    rw [h2] at hnr
    cases hnr
  | @node _ _ q tl tr Al Ar ha hp hl hrr hnd =>
  rw [ha] at hn
  cases Option.some.inj hn
  rw [hnr] at hrr
  cases hrr with
  | leaf hb2 k1 k2 k3 k4 =>
    rw [hb2] at hb
    cases Option.some.inj hb
    rw [Node.isLeaf, k1, k2] at hbl
    simp at hbl
  | @node _ _ nb2 trl trr Arl Arr hb2 hp2 htrl htrr hnd2 =>
  rw [hb2] at hb
  cases Option.some.inj hb
  obtain ⟨rl, hrl⟩ := htrl.p_some
  rw [hrl] at htrl
  obtain ⟨nrl, hnrl⟩ := htrl.mem_alloc rl htrl.root_mem
  obtain ⟨hrAl, hrRest, hndAl, hndRest, hdisjAl⟩ := nodup_split hnd
  obtain ⟨hbArl, hbArr, hndArl, hndArr, hdisjArl⟩ := nodup_split hndRest
  have hrlArl : rl ∈ Arl := htrl.root_mem
  have hbr : b ≠ r := fun e => hrRest (by subst e; simp)
  have hrb : r ≠ b := fun e => hbr e.symm
  have hrlr : rl ≠ r := fun e => hrRest (by subst e; simp [hrlArl])
  have hrrl : r ≠ rl := fun e => hrlr e.symm
  have hrlb : rl ≠ b := fun e => hbArl (e ▸ hrlArl)
  have hbrl : b ≠ rl := fun e => hrlb e.symm
  have hbA : b ∈ Al ++ r :: (Arl ++ b :: Arr) := by simp
  have hrA : r ∈ Al ++ r :: (Arl ++ b :: Arr) := by simp
  have hrlA : rl ∈ Al ++ r :: (Arl ++ b :: Arr) := by simp [hrlArl]
  rcases hpar with ⟨hpnone, hroot⟩ | ⟨pa, pn, hpsome, hpaA, hpn, hslot⟩
  · -- region is the whole tree: `m.root` is redirected
    subst hpnone
    refine ⟨writeN (writeN (writeN (writeN (writeN { m with root := b } b
        { nb with parent := none }) r
          { key := n.key, val := n.val, left := n.left, right := some b,
            parent := some b, color := n.color }) r
        { key := n.key, val := n.val, left := n.left, right := nb.left,
          parent := some b, color := n.color }) rl
        { nrl with parent := some r }) b
        { key := nb.key, val := nb.val, left := some r, right := nb.right,
          parent := none, color := nb.color },
      .node nb.color (.node n.color tl n.key n.val trl) nb.key nb.val trr,
      ?_, ?_, ?_, ?_, ?_, ?_, rfl, rfl, rfl⟩
    · have e1 : readP m (some r) = .ok (r, n) := readP_some ha
      have e2 : readP m (some b) = .ok (b, nb) := readP_some hb2
      have e3 : readP { m with root := b } (some b) = .ok (b, nb) :=
        readP_some hb2
      have e4 : readP (writeN { m with root := b } b
          { nb with parent := none }) (some r) = .ok (r, n) :=
        readP_some (by rw [writeN_heap_other hrb]; exact ha)
      have e5 : readP (writeN (writeN { m with root := b } b
          { nb with parent := none }) r
          { key := n.key, val := n.val, left := n.left, right := some b,
            parent := some b, color := n.color })
          (some b) = .ok (b, { nb with parent := none }) :=
        readP_some (by rw [writeN_heap_other hbr]; simp)
      have e6 : readP (writeN (writeN { m with root := b } b
          { nb with parent := none }) r
          { key := n.key, val := n.val, left := n.left, right := some b,
            parent := some b, color := n.color })
          (some r) = .ok (r,
            { key := n.key, val := n.val, left := n.left, right := some b,
              parent := some b, color := n.color }) :=
        readP_some (by simp)
      have e7 : readP (writeN (writeN (writeN { m with root := b } b
          { nb with parent := none }) r
          { key := n.key, val := n.val, left := n.left, right := some b,
            parent := some b, color := n.color }) r
          { key := n.key, val := n.val, left := n.left, right := nb.left,
            parent := some b, color := n.color }) nb.left =
          .ok (rl, nrl) := by
        rw [hrl]
        exact readP_some (by
          rw [writeN_heap_other hrlr, writeN_heap_other hrlr,
            writeN_heap_other hrlb]
          exact hnrl)
      have e8 : readP (writeN (writeN (writeN (writeN { m with root := b } b
          { nb with parent := none }) r
          { key := n.key, val := n.val, left := n.left, right := some b,
            parent := some b, color := n.color }) r
          { key := n.key, val := n.val, left := n.left, right := nb.left,
            parent := some b, color := n.color }) rl
          { nrl with parent := some r }) (some b) =
          .ok (b, { nb with parent := none }) :=
        readP_some (by
          rw [writeN_heap_other hbrl, writeN_heap_other hbr,
            writeN_heap_other hbr]
          simp)
      simp only [rotateLeft, e1, ok_bind, pure_eq_ok, hnr, e2, hp, e3, e4,
        e5, e6, e7, e8]
    · refine @Rep.rotateLeft_rebuild κ ν _ _ _ _ _ _ n nb _ _ _ _ _ _ _ hl htrl htrr hnrl hnd
        ?_ ?_ ?_ ?_
      · rw [writeN_heap_other hrb, writeN_heap_other hrrl]
        simp [hrl]
      · simp
      · rw [writeN_heap_other hrlb]
        simp
      · intro c hc hcr hcb hcrl
        rw [writeN_heap_other hcb, writeN_heap_other hcrl,
          writeN_heap_other hcr, writeN_heap_other hcr,
          writeN_heap_other hcb]
    · simp [Tree.inorder]
    · intro c hcA hcpar
      have hcr : c ≠ r := fun e => hcA (e ▸ hrA)
      have hcb : c ≠ b := fun e => hcA (e ▸ hbA)
      have hcrl : c ≠ rl := fun e => hcA (e ▸ hrlA)
      rw [writeN_heap_other hcb, writeN_heap_other hcrl,
        writeN_heap_other hcr, writeN_heap_other hcr,
        writeN_heap_other hcb]
    · intro _
      rfl
    · intro pa hpa
      cases hpa
  · -- region hangs off parent `pa`: its child slot is redirected
    subst hpsome
    have hparent : n.parent = some pa := hp
    have hpab : pa ≠ b := fun e => hpaA (e ▸ hbA)
    have hbpa : b ≠ pa := fun e => hpab e.symm
    have hpar2 : pa ≠ r := fun e => hpaA (e ▸ hrA)
    have hrpa : r ≠ pa := fun e => hpar2 e.symm
    have hparl : pa ≠ rl := fun e => hpaA (e ▸ hrlA)
    have hrlpa : rl ≠ pa := fun e => hparl e.symm
    obtain ⟨pn1, hif, hpn1⟩ : ∃ pn1 : Node κ ν,
        (if (pn.left == some r) = true
         then (pure (writeN m pa { pn with left := some b }) :
            Except Fault (Map κ ν))
         else pure (writeN m pa { pn with right := some b })) =
          pure (writeN m pa pn1) ∧
        pn1 = (if pn.left == some r then { pn with left := some b }
               else { pn with right := some b }) := by
      by_cases hc : (pn.left == some r) = true
      · exact ⟨_, by rw [if_pos hc], by rw [if_pos hc]⟩
      · exact ⟨_, by rw [if_neg hc], by rw [if_neg hc]⟩
    refine ⟨writeN (writeN (writeN (writeN (writeN (writeN m pa pn1) b
        { nb with parent := some pa }) r
          { key := n.key, val := n.val, left := n.left, right := some b,
            parent := some b, color := n.color }) r
        { key := n.key, val := n.val, left := n.left, right := nb.left,
          parent := some b, color := n.color }) rl
        { nrl with parent := some r }) b
        { key := nb.key, val := nb.val, left := some r, right := nb.right,
          parent := some pa, color := nb.color },
      .node nb.color (.node n.color tl n.key n.val trl) nb.key nb.val trr,
      ?_, ?_, ?_, ?_, ?_, ?_, rfl, rfl, rfl⟩
    · have e1 : readP m (some r) = .ok (r, n) := readP_some ha
      have e2 : readP m (some b) = .ok (b, nb) := readP_some hb2
      have e0 : readP m (some pa) = .ok (pa, pn) := readP_some hpn
      have e3 : readP (writeN m pa pn1) (some b) = .ok (b, nb) :=
        readP_some (by rw [writeN_heap_other hbpa]; exact hb2)
      have e4 : readP (writeN (writeN m pa pn1) b
          { nb with parent := some pa }) (some r) = .ok (r, n) :=
        readP_some (by
          rw [writeN_heap_other hrb, writeN_heap_other hrpa]
          exact ha)
      have e5 : readP (writeN (writeN (writeN m pa pn1) b
          { nb with parent := some pa }) r
          { key := n.key, val := n.val, left := n.left, right := some b,
            parent := some b, color := n.color })
          (some b) = .ok (b, { nb with parent := some pa }) :=
        readP_some (by rw [writeN_heap_other hbr]; simp)
      have e6 : readP (writeN (writeN (writeN m pa pn1) b
          { nb with parent := some pa }) r
          { key := n.key, val := n.val, left := n.left, right := some b,
            parent := some b, color := n.color })
          (some r) = .ok (r,
            { key := n.key, val := n.val, left := n.left, right := some b,
              parent := some b, color := n.color }) :=
        readP_some (by simp)
      have e7 : readP (writeN (writeN (writeN (writeN m pa pn1) b
          { nb with parent := some pa }) r
          { key := n.key, val := n.val, left := n.left, right := some b,
            parent := some b, color := n.color }) r
          { key := n.key, val := n.val, left := n.left, right := nb.left,
            parent := some b, color := n.color }) nb.left =
          .ok (rl, nrl) := by
        rw [hrl]
        exact readP_some (by
          rw [writeN_heap_other hrlr, writeN_heap_other hrlr,
            writeN_heap_other hrlb, writeN_heap_other hrlpa]
          exact hnrl)
      have e8 : readP (writeN (writeN (writeN (writeN (writeN m pa pn1) b
          { nb with parent := some pa }) r
          { key := n.key, val := n.val, left := n.left, right := some b,
            parent := some b, color := n.color }) r
          { key := n.key, val := n.val, left := n.left, right := nb.left,
            parent := some b, color := n.color }) rl
          { nrl with parent := some r }) (some b) =
          .ok (b, { nb with parent := some pa }) :=
        readP_some (by
          rw [writeN_heap_other hbrl, writeN_heap_other hbr,
            writeN_heap_other hbr]
          simp)
      simp only [rotateLeft, e1, ok_bind, pure_eq_ok, hnr, e2, hparent, e0]
      by_cases hc : (pn.left == some r) = true
      · rw [if_pos hc]
        have hpn1c : { pn with left := some b } = pn1 := by
          rw [hpn1, if_pos hc]
        rw [hpn1c]
        simp only [ok_bind, pure_eq_ok, hnr, e3, e4, e5, e6, e7, e8]
      · rw [if_neg hc]
        have hpn1c : { pn with right := some b } = pn1 := by
          rw [hpn1, if_neg hc]
        rw [hpn1c]
        simp only [ok_bind, pure_eq_ok, hnr, e3, e4, e5, e6, e7, e8]
    · refine @Rep.rotateLeft_rebuild κ ν _ _ _ _ _ _ n nb _ _ _ _ _ _ _ hl htrl htrr hnrl hnd
        ?_ ?_ ?_ ?_
      · rw [writeN_heap_other hrb, writeN_heap_other hrrl]
        simp [hrl]
      · simp
      · rw [writeN_heap_other hrlb]
        simp
      · intro c hc hcr hcb hcrl
        have hcpa : c ≠ pa := fun e => hpaA (e ▸ hc)
        rw [writeN_heap_other hcb, writeN_heap_other hcrl,
          writeN_heap_other hcr, writeN_heap_other hcr,
          writeN_heap_other hcb, writeN_heap_other hcpa]
    · simp [Tree.inorder]
    · intro c hcA hcpar
      have hcr : c ≠ r := fun e => hcA (e ▸ hrA)
      have hcb : c ≠ b := fun e => hcA (e ▸ hbA)
      have hcrl : c ≠ rl := fun e => hcA (e ▸ hrlA)
      have hcpa : c ≠ pa := fun e => hcpar (by rw [e])
      rw [writeN_heap_other hcb, writeN_heap_other hcrl,
        writeN_heap_other hcr, writeN_heap_other hcr,
        writeN_heap_other hcb, writeN_heap_other hcpa]
    · intro h
      cases h
    · intro pa2 hpa2
      cases Option.some.inj hpa2
      refine ⟨rfl, ?_⟩
      intro pn2 hpn2
      rw [hpn] at hpn2
      cases Option.some.inj hpn2
      rw [writeN_heap_other hpab, writeN_heap_other hparl,
        writeN_heap_other hpar2, writeN_heap_other hpar2,
        writeN_heap_other hpab]
      rw [writeN_heap_same]
      rw [hpn1]

/-- `rotateLeft` applied at any node of a represented region: the region
keeps its address list and its in-order sequence, only the region root's
parent slot (or `m.root`) outside it can change, and the rotation
succeeds. -/
theorem rotateLeft_rep {κ ν : Type} {m : Map κ ν} {p : Option Nat}
    {par : Option Nat} {t : Tree κ ν} {A : List Nat}
    (hrep : Rep m.heap p par t A) :
    ∀ {r : Nat}, p = some r →
    ∀ {a b : Nat} {n nb : Node κ ν},
      ((par = none ∧ m.root = r) ∨
        (∃ pa pn, par = some pa ∧ pa ∉ A ∧ m.heap pa = some pn ∧
          (pn.left = some r ∨ pn.right = some r))) →
      a ∈ A → m.heap a = some n → n.right = some b →
      m.heap b = some nb → nb.isLeaf = false →
      ∃ m' r' t',
        rotateLeft m (some a) = .ok m' ∧
        Rep m'.heap (some r') par t' A ∧
        t'.inorder = t.inorder ∧
        (∀ c, c ∉ A → some c ≠ par → m'.heap c = m.heap c) ∧
        (par = none → m'.root = r') ∧
        (∀ pa, par = some pa → m'.root = m.root ∧
          ∀ pn, m.heap pa = some pn →
            m'.heap pa = some (if pn.left == some r
              then { pn with left := some r' }
              else { pn with right := some r' })) ∧
        m'.size = m.size ∧ m'.next = m.next ∧
        m'.compareFunc = m.compareFunc := by
  induction hrep with
  | @leaf a0 par n0 ha0 h1 h2 h3 h4 =>
    intro r hpr a b n nb hpar ha hn hnr hb hbl
    cases Option.some.inj hpr
    simp only [List.mem_singleton] at ha
    subst ha
    rw [ha0] at hn
    cases Option.some.inj hn
    rw [h2] at hnr
    cases hnr
  | @node a0 par q tl tr Al Ar ha0 hp hl hrr hnd ihl ihr =>
    intro r hpr a b n nb hpar ha hn hnr hb hbl
    cases Option.some.inj hpr
    obtain ⟨ha0Al, ha0Ar, hndAl, hndAr, hdisj⟩ := nodup_split hnd
    rcases List.mem_append.1 ha with haAl | hrest
    · -- rotation point inside the left subtree
      obtain ⟨la, hla⟩ := hl.p_some
      rw [hla] at hl
      have hchildpar : ((some a0 : Option Nat) = none ∧ m.root = la) ∨
          (∃ pa pn, (some a0 : Option Nat) = some pa ∧ pa ∉ Al ∧
            m.heap pa = some pn ∧
            (pn.left = some la ∨ pn.right = some la)) :=
        Or.inr ⟨a0, q, rfl, ha0Al, ha0, Or.inl hla⟩
      obtain ⟨m', r1, tl', heq, hrep', hio, hframe, -, hpa, hsz, hnx, hcm⟩ :=
        ihl hla hchildpar haAl hn hnr hb hbl
      obtain ⟨hroot', hslotf⟩ := hpa a0 rfl
      have hslot := hslotf q ha0
      rw [show (q.left == some la) = true by simp [hla]] at hslot
      rw [if_pos rfl] at hslot
      have hrr' : Rep m'.heap q.right (some a0) tr Ar := by
        refine hrr.frame fun c hc => ?_
        have hcAl : c ∉ Al := fun hc2 => hdisj c hc2 hc
        have hca0 : c ≠ a0 := fun e => ha0Ar (e ▸ hc)
        exact hframe c hcAl (by simp [hca0])
      refine ⟨m', a0, .node q.color tl' q.key q.val tr, heq, ?_, ?_, ?_, ?_,
        ?_, hsz, hnx, hcm⟩
      · exact Rep.node (n := { q with left := some r1 }) hslot hp hrep'
          hrr' hnd
      · simp [Tree.inorder, hio]
      · intro c hcA hcpar
        have hcAl : c ∉ Al := fun hc2 => hcA (by simp [hc2])
        have hca0 : c ≠ a0 := fun e => hcA (by simp [e])
        exact hframe c hcAl (by simp [hca0])
      · intro hpn
        rcases hpar with ⟨-, hroot⟩ | ⟨pa, pn, hps, -, -, -⟩
        · rw [hroot', hroot]
        · rw [hpn] at hps
          cases hps
      · intro pa hps
        rcases hpar with ⟨hpn, -⟩ | ⟨pa2, pn2, hps2, hpaA, hpn2, hslot2⟩
        · rw [hps] at hpn
          cases hpn
        · rw [hps] at hps2
          cases Option.some.inj hps2
          refine ⟨hroot', ?_⟩
          intro pn hpnr
          rw [hpn2] at hpnr
          obtain rfl : pn2 = pn := Option.some.inj hpnr
          have hpaAl : pa ∉ Al := fun hc2 => hpaA (by simp [hc2])
          have hpaa0 : pa ≠ a0 := fun e => hpaA (by simp [e])
          rw [hframe pa hpaAl (by simp [hpaa0]), hpn2]
          by_cases hc : (pn2.left == some a0) = true
          · rw [if_pos hc]
            have hpl : pn2.left = some a0 := by simpa using hc
            rw [← hpl]
          · rw [if_neg hc]
            have hpr2 : pn2.right = some a0 := by
              rcases hslot2 with hsl | hsr
              · exact absurd (by simp [hsl]) hc
              · exact hsr
            rw [← hpr2]
    · rcases List.mem_cons.1 hrest with rfl | haAr
      · -- rotation point is the region root
        exact rotateLeft_here (Rep.node ha0 hp hl hrr hnd) hpar hn hnr hb hbl
          |>.imp fun m' h => ⟨b, h⟩
      · -- rotation point inside the right subtree
        obtain ⟨ra, hra⟩ := hrr.p_some
        rw [hra] at hrr
        obtain ⟨la, hla⟩ := hl.p_some
        have hlmem : la ∈ Al := by
          have hl2 := hl
          rw [hla] at hl2
          exact hl2.root_mem
        have hrmem : ra ∈ Ar := hrr.root_mem
        have hlara : la ≠ ra := fun e => by
          subst e
          exact hdisj la hlmem hrmem
        have hchildpar : ((some a0 : Option Nat) = none ∧ m.root = ra) ∨
            (∃ pa pn, (some a0 : Option Nat) = some pa ∧ pa ∉ Ar ∧
              m.heap pa = some pn ∧
              (pn.left = some ra ∨ pn.right = some ra)) :=
          Or.inr ⟨a0, q, rfl, ha0Ar, ha0, Or.inr hra⟩
        obtain ⟨m', r2, tr', heq, hrep', hio, hframe, -, hpa, hsz, hnx, hcm⟩ :=
          ihr hra hchildpar haAr hn hnr hb hbl
        obtain ⟨hroot', hslotf⟩ := hpa a0 rfl
        have hslot := hslotf q ha0
        rw [show (q.left == some ra) = false by simp [hla, hlara]] at hslot
        rw [if_neg (by simp)] at hslot
        have hl' : Rep m'.heap q.left (some a0) tl Al := by
          refine hl.frame fun c hc => ?_
          have hcAr : c ∉ Ar := fun hc2 => hdisj c hc hc2
          have hca0 : c ≠ a0 := fun e => ha0Al (e ▸ hc)
          exact hframe c hcAr (by simp [hca0])
        refine ⟨m', a0, .node q.color tl q.key q.val tr', heq, ?_, ?_, ?_, ?_,
          ?_, hsz, hnx, hcm⟩
        · exact Rep.node (n := { q with right := some r2 }) hslot hp
            hl' hrep' hnd
        · simp [Tree.inorder, hio]
        · intro c hcA hcpar
          have hcAr : c ∉ Ar := fun hc2 => hcA (by simp [hc2])
          have hca0 : c ≠ a0 := fun e => hcA (by simp [e])
          exact hframe c hcAr (by simp [hca0])
        · intro hpn
          rcases hpar with ⟨-, hroot⟩ | ⟨pa, pn, hps, -, -, -⟩
          · rw [hroot', hroot]
          · rw [hpn] at hps
            cases hps
        · intro pa hps
          rcases hpar with ⟨hpn, -⟩ | ⟨pa2, pn2, hps2, hpaA, hpn2, hslot2⟩
          · rw [hps] at hpn
            cases hpn
          · rw [hps] at hps2
            cases Option.some.inj hps2
            refine ⟨hroot', ?_⟩
            intro pn hpnr
            rw [hpn2] at hpnr
            obtain rfl : pn2 = pn := Option.some.inj hpnr
            have hpaAr : pa ∉ Ar := fun hc2 => hpaA (by simp [hc2])
            have hpaa0 : pa ≠ a0 := fun e => hpaA (by simp [e])
            rw [hframe pa hpaAr (by simp [hpaa0]), hpn2]
            by_cases hc : (pn2.left == some a0) = true
            · rw [if_pos hc]
              have hpl : pn2.left = some a0 := by simpa using hc
              rw [← hpl]
            · rw [if_neg hc]
              have hpr2 : pn2.right = some a0 := by
                rcases hslot2 with hsl | hsr
                · exact absurd (by simp [hsl]) hc
                · exact hsr
              rw [← hpr2]

/-- Mirror of `Rep.rotateLeft_rebuild` for a right rotation. -/
theorem Rep.rotateRight_rebuild {κ ν : Type} {h h2 : Heap κ ν}
    {r b lr : Nat} {par : Option Nat} {q nb nlr : Node κ ν}
    {tll tlr tr : Tree κ ν} {All Alr Ar : List Nat}
    (htll : Rep h nb.left (some b) tll All)
    (htlr : Rep h (some lr) (some b) tlr Alr)
    (hr : Rep h q.right (some r) tr Ar)
    (hnlr : h lr = some nlr)
    (hnd : ((All ++ b :: Alr) ++ r :: Ar).Nodup)
    (h2r : h2 r = some { key := q.key, val := q.val, left := some lr,
                         right := q.right, parent := some b, color := q.color })
    (h2b : h2 b = some { key := nb.key, val := nb.val, left := nb.left,
                         right := some r, parent := par, color := nb.color })
    (h2lr : h2 lr = some { nlr with parent := some r })
    (hagree : ∀ c ∈ (All ++ b :: Alr) ++ r :: Ar,
        c ≠ r → c ≠ b → c ≠ lr → h2 c = h c) :
    Rep h2 (some b) par
      (.node nb.color tll nb.key nb.val (.node q.color tlr q.key q.val tr))
      ((All ++ b :: Alr) ++ r :: Ar) := by
  obtain ⟨hrBl, hrAr, hndBl, hndAr2, hdisjBl⟩ := nodup_split hnd
  obtain ⟨hbAll, hbAlr, hndAll, hndAlr, hdisjAll⟩ := nodup_split hndBl
  have hlrAlr : lr ∈ Alr := htlr.root_mem
  have hbr : b ≠ r := fun e => hrBl (by subst e; simp)
  have hlrr : lr ≠ r := fun e => hrBl (by subst e; simp [hlrAlr])
  have hlrb : lr ≠ b := fun e => hbAlr (e ▸ hlrAlr)
  have hlist : All ++ b :: (Alr ++ r :: Ar) = (All ++ b :: Alr) ++ r :: Ar := by
    simp
  have htll2 : Rep h2 nb.left (some b) tll All := by
    refine htll.frame fun c hc => ?_
    have hcr : c ≠ r := fun e => hrBl (by subst e; simp [hc])
    have hcb : c ≠ b := fun e => hbAll (e ▸ hc)
    have hclr : c ≠ lr := fun e => hdisjAll _ hc (by subst e; simp [hlrAlr])
    exact hagree c (by simp [hc]) hcr hcb hclr
  have htlr2 : Rep h2 (some lr) (some r) tlr Alr := by
    have step := htlr.reparent (o := some r) hnlr
    refine step.frame fun c hc => ?_
    by_cases hclr : c = lr
    · subst hclr
      rw [h2lr]
      simp [hset]
    · have hcr : c ≠ r := fun e => hrBl (by subst e; simp [hc])
      have hcb : c ≠ b := fun e => hbAlr (e ▸ hc)
      have hagr := hagree c (by simp [hc]) hcr hcb hclr
      rw [hagr]
      simp [hset, hclr]
  have hr2 : Rep h2 q.right (some r) tr Ar := by
    refine hr.frame fun c hc => ?_
    have hcr : c ≠ r := fun e => hrAr (e ▸ hc)
    have hcb : c ≠ b := fun e => hdisjBl _ (by simp) (e ▸ hc)
    have hclr : c ≠ lr := fun e => hdisjBl _ (by simp [hlrAlr]) (e ▸ hc)
    exact hagree c (by simp [hc]) hcr hcb hclr
  have hndInner : (Alr ++ r :: Ar).Nodup := by
    have hsub : (Alr ++ r :: Ar).Sublist ((All ++ b :: Alr) ++ r :: Ar) := by
      rw [List.append_assoc]
      exact (List.sublist_cons_self _ _).trans (List.sublist_append_right All _)
    exact hnd.sublist hsub
  have hinner : Rep h2 (some r) (some b)
      (.node q.color tlr q.key q.val tr) (Alr ++ r :: Ar) :=
    Rep.node (a := r)
      (n := { key := q.key, val := q.val, left := some lr, right := q.right,
              parent := some b, color := q.color })
      h2r rfl htlr2 hr2 hndInner
  have houter := Rep.node (a := b)
    (n := { key := nb.key, val := nb.val, left := nb.left, right := some r,
            parent := par, color := nb.color })
    h2b rfl htll2 hinner (by rw [hlist]; exact hnd)
  rw [hlist] at houter
  exact houter

/-- Mirror of `rotateLeft_here`: full effect of `rotateRight` applied at the
root of a represented region whose left child is live. -/
theorem rotateRight_here {κ ν : Type} {m : Map κ ν} {r : Nat}
    {par : Option Nat} {t : Tree κ ν} {A : List Nat}
    (hrep : Rep m.heap (some r) par t A)
    (hpar : (par = none ∧ m.root = r) ∨
      (∃ pa pn, par = some pa ∧ pa ∉ A ∧ m.heap pa = some pn ∧
        (pn.left = some r ∨ pn.right = some r)))
    {b : Nat} {n nb : Node κ ν}
    (hn : m.heap r = some n) (hnl : n.left = some b)
    (hb : m.heap b = some nb) (hbl : nb.isLeaf = false) :
    ∃ m' t',
      rotateRight m (some r) = .ok m' ∧
      Rep m'.heap (some b) par t' A ∧
      t'.inorder = t.inorder ∧
      (∀ c, c ∉ A → some c ≠ par → m'.heap c = m.heap c) ∧
      (par = none → m'.root = b) ∧
      (∀ pa, par = some pa → m'.root = m.root ∧
        ∀ pn, m.heap pa = some pn →
          m'.heap pa = some (if pn.left == some r
            then { pn with left := some b }
            else { pn with right := some b })) ∧
      m'.size = m.size ∧ m'.next = m.next ∧ m'.compareFunc = m.compareFunc := by
  cases hrep with
  | leaf ha h1 h2 h3 h4 =>
    rw [ha] at hn
    cases Option.some.inj hn
    rw [h1] at hnl
    cases hnl
  | @node _ _ q tlb tr Bl Ar ha hp hl hrr hnd =>
  rw [ha] at hn
  cases Option.some.inj hn
  rw [hnl] at hl
  cases hl with
  | leaf hb2 k1 k2 k3 k4 =>
    rw [hb2] at hb
    cases Option.some.inj hb
    rw [Node.isLeaf, k1, k2] at hbl
    simp at hbl
  | @node _ _ nb2 tll tlr All Alr hb2 hp2 htll htlr hnd2 =>
  rw [hb2] at hb
  cases Option.some.inj hb
  obtain ⟨lr, hlr⟩ := htlr.p_some
  rw [hlr] at htlr
  obtain ⟨nlr, hnlr⟩ := htlr.mem_alloc lr htlr.root_mem
  obtain ⟨hrBl, hrAr, hndBl, hndAr2, hdisjBl⟩ := nodup_split hnd
  obtain ⟨hbAll, hbAlr, hndAll, hndAlr, hdisjAll⟩ := nodup_split hndBl
  have hlrAlr : lr ∈ Alr := htlr.root_mem
  have hbr : b ≠ r := fun e => hrBl (by subst e; simp)
  have hrb : r ≠ b := fun e => hbr e.symm
  have hlrr : lr ≠ r := fun e => hrBl (by subst e; simp [hlrAlr])
  have hrlr : r ≠ lr := fun e => hlrr e.symm
  have hlrb : lr ≠ b := fun e => hbAlr (e ▸ hlrAlr)
  have hblr : b ≠ lr := fun e => hlrb e.symm
  have hbA : b ∈ (All ++ b :: Alr) ++ r :: Ar := by simp
  have hrA : r ∈ (All ++ b :: Alr) ++ r :: Ar := by simp
  have hlrA : lr ∈ (All ++ b :: Alr) ++ r :: Ar := by simp [hlrAlr]
  rcases hpar with ⟨hpnone, hroot⟩ | ⟨pa, pn, hpsome, hpaA, hpn, hslot⟩
  · subst hpnone
    refine ⟨writeN (writeN (writeN (writeN (writeN { m with root := b } b
        { nb with parent := none }) r
          { key := n.key, val := n.val, left := some b, right := n.right,
            parent := some b, color := n.color }) r
        { key := n.key, val := n.val, left := nb.right, right := n.right,
          parent := some b, color := n.color }) lr
        { nlr with parent := some r }) b
        { key := nb.key, val := nb.val, left := nb.left, right := some r,
          parent := none, color := nb.color },
      .node nb.color tll nb.key nb.val (.node n.color tlr n.key n.val tr),
      ?_, ?_, ?_, ?_, ?_, ?_, rfl, rfl, rfl⟩
    · have e1 : readP m (some r) = .ok (r, n) := readP_some ha
      have e2 : readP m (some b) = .ok (b, nb) := readP_some hb2
      have e3 : readP { m with root := b } (some b) = .ok (b, nb) :=
        readP_some hb2
      have e4 : readP (writeN { m with root := b } b
          { nb with parent := none }) (some r) = .ok (r, n) :=
        readP_some (by rw [writeN_heap_other hrb]; exact ha)
      have e5 : readP (writeN (writeN { m with root := b } b
          { nb with parent := none }) r
          { key := n.key, val := n.val, left := some b, right := n.right,
            parent := some b, color := n.color })
          (some b) = .ok (b, { nb with parent := none }) :=
        readP_some (by rw [writeN_heap_other hbr]; simp)
      have e6 : readP (writeN (writeN { m with root := b } b
          { nb with parent := none }) r
          { key := n.key, val := n.val, left := some b, right := n.right,
            parent := some b, color := n.color })
          (some r) = .ok (r,
            { key := n.key, val := n.val, left := some b, right := n.right,
              parent := some b, color := n.color }) :=
        readP_some (by simp)
      have e7 : readP (writeN (writeN (writeN { m with root := b } b
          { nb with parent := none }) r
          { key := n.key, val := n.val, left := some b, right := n.right,
            parent := some b, color := n.color }) r
          { key := n.key, val := n.val, left := nb.right, right := n.right,
            parent := some b, color := n.color }) nb.right =
          .ok (lr, nlr) := by
        rw [hlr]
        exact readP_some (by
          rw [writeN_heap_other hlrr, writeN_heap_other hlrr,
            writeN_heap_other hlrb]
          exact hnlr)
      have e8 : readP (writeN (writeN (writeN (writeN { m with root := b } b
          { nb with parent := none }) r
          { key := n.key, val := n.val, left := some b, right := n.right,
            parent := some b, color := n.color }) r
          { key := n.key, val := n.val, left := nb.right, right := n.right,
            parent := some b, color := n.color }) lr
          { nlr with parent := some r }) (some b) =
          .ok (b, { nb with parent := none }) :=
        readP_some (by
          rw [writeN_heap_other hblr, writeN_heap_other hbr,
            writeN_heap_other hbr]
          simp)
      simp only [rotateRight, e1, ok_bind, pure_eq_ok, hnl, e2, hp, e3, e4,
        e5, e6, e7, e8]
    · refine @Rep.rotateRight_rebuild κ ν _ _ _ _ _ _ n nb _ _ _ _ _ _ _ htll htlr hrr hnlr
        hnd ?_ ?_ ?_ ?_
      · rw [writeN_heap_other hrb, writeN_heap_other hrlr]
        simp [hlr]
      · simp
      · rw [writeN_heap_other hlrb]
        simp
      · intro c hc hcr hcb hclr
        rw [writeN_heap_other hcb, writeN_heap_other hclr,
          writeN_heap_other hcr, writeN_heap_other hcr,
          writeN_heap_other hcb]
    · simp [Tree.inorder]
    · intro c hcA hcpar
      have hcr : c ≠ r := fun e => hcA (e ▸ hrA)
      have hcb : c ≠ b := fun e => hcA (e ▸ hbA)
      have hclr : c ≠ lr := fun e => hcA (e ▸ hlrA)
      rw [writeN_heap_other hcb, writeN_heap_other hclr,
        writeN_heap_other hcr, writeN_heap_other hcr,
        writeN_heap_other hcb]
    · intro _
      rfl
    · intro pa hpa
      cases hpa
  · subst hpsome
    have hparent : n.parent = some pa := hp
    have hpab : pa ≠ b := fun e => hpaA (e ▸ hbA)
    have hbpa : b ≠ pa := fun e => hpab e.symm
    have hpar2 : pa ≠ r := fun e => hpaA (e ▸ hrA)
    have hrpa : r ≠ pa := fun e => hpar2 e.symm
    have hparl : pa ≠ lr := fun e => hpaA (e ▸ hlrA)
    have hlrpa : lr ≠ pa := fun e => hparl e.symm
    obtain ⟨pn1, hpn1⟩ : ∃ pn1 : Node κ ν,
        pn1 = (if pn.left == some r then { pn with left := some b }
               else { pn with right := some b }) := ⟨_, rfl⟩
    refine ⟨writeN (writeN (writeN (writeN (writeN (writeN m pa pn1) b
        { nb with parent := some pa }) r
          { key := n.key, val := n.val, left := some b, right := n.right,
            parent := some b, color := n.color }) r
        { key := n.key, val := n.val, left := nb.right, right := n.right,
          parent := some b, color := n.color }) lr
        { nlr with parent := some r }) b
        { key := nb.key, val := nb.val, left := nb.left, right := some r,
          parent := some pa, color := nb.color },
      .node nb.color tll nb.key nb.val (.node n.color tlr n.key n.val tr),
      ?_, ?_, ?_, ?_, ?_, ?_, rfl, rfl, rfl⟩
    · have e1 : readP m (some r) = .ok (r, n) := readP_some ha
      have e2 : readP m (some b) = .ok (b, nb) := readP_some hb2
      have e0 : readP m (some pa) = .ok (pa, pn) := readP_some hpn
      have e3 : readP (writeN m pa pn1) (some b) = .ok (b, nb) :=
        readP_some (by rw [writeN_heap_other hbpa]; exact hb2)
      have e4 : readP (writeN (writeN m pa pn1) b
          { nb with parent := some pa }) (some r) = .ok (r, n) :=
        readP_some (by
          rw [writeN_heap_other hrb, writeN_heap_other hrpa]
          exact ha)
      have e5 : readP (writeN (writeN (writeN m pa pn1) b
          { nb with parent := some pa }) r
          { key := n.key, val := n.val, left := some b, right := n.right,
            parent := some b, color := n.color })
          (some b) = .ok (b, { nb with parent := some pa }) :=
        readP_some (by rw [writeN_heap_other hbr]; simp)
      have e6 : readP (writeN (writeN (writeN m pa pn1) b
          { nb with parent := some pa }) r
          { key := n.key, val := n.val, left := some b, right := n.right,
            parent := some b, color := n.color })
          (some r) = .ok (r,
            { key := n.key, val := n.val, left := some b, right := n.right,
              parent := some b, color := n.color }) :=
        readP_some (by simp)
      have e7 : readP (writeN (writeN (writeN (writeN m pa pn1) b
          { nb with parent := some pa }) r
          { key := n.key, val := n.val, left := some b, right := n.right,
            parent := some b, color := n.color }) r
          { key := n.key, val := n.val, left := nb.right, right := n.right,
            parent := some b, color := n.color }) nb.right =
          .ok (lr, nlr) := by
        rw [hlr]
        exact readP_some (by
          rw [writeN_heap_other hlrr, writeN_heap_other hlrr,
            writeN_heap_other hlrb, writeN_heap_other hlrpa]
          exact hnlr)
      have e8 : readP (writeN (writeN (writeN (writeN (writeN m pa pn1) b
          { nb with parent := some pa }) r
          { key := n.key, val := n.val, left := some b, right := n.right,
            parent := some b, color := n.color }) r
          { key := n.key, val := n.val, left := nb.right, right := n.right,
            parent := some b, color := n.color }) lr
          { nlr with parent := some r }) (some b) =
          .ok (b, { nb with parent := some pa }) :=
        readP_some (by
          rw [writeN_heap_other hblr, writeN_heap_other hbr,
            writeN_heap_other hbr]
          simp)
      simp only [rotateRight, e1, ok_bind, pure_eq_ok, hnl, e2, hparent, e0]
      by_cases hc : (pn.left == some r) = true
      · rw [if_pos hc]
        have hpn1c : { pn with left := some b } = pn1 := by
          rw [hpn1, if_pos hc]
        rw [hpn1c]
        simp only [ok_bind, pure_eq_ok, hnl, e3, e4, e5, e6, e7, e8]
      · rw [if_neg hc]
        have hpn1c : { pn with right := some b } = pn1 := by
          rw [hpn1, if_neg hc]
        rw [hpn1c]
        simp only [ok_bind, pure_eq_ok, hnl, e3, e4, e5, e6, e7, e8]
    · refine @Rep.rotateRight_rebuild κ ν _ _ _ _ _ _ n nb _ _ _ _ _ _ _ htll htlr hrr hnlr
        hnd ?_ ?_ ?_ ?_
      · rw [writeN_heap_other hrb, writeN_heap_other hrlr]
        simp [hlr]
      · simp
      · rw [writeN_heap_other hlrb]
        simp
      · intro c hc hcr hcb hclr
        have hcpa : c ≠ pa := fun e => hpaA (e ▸ hc)
        rw [writeN_heap_other hcb, writeN_heap_other hclr,
          writeN_heap_other hcr, writeN_heap_other hcr,
          writeN_heap_other hcb, writeN_heap_other hcpa]
    · simp [Tree.inorder]
    · intro c hcA hcpar
      have hcr : c ≠ r := fun e => hcA (e ▸ hrA)
      have hcb : c ≠ b := fun e => hcA (e ▸ hbA)
      have hclr : c ≠ lr := fun e => hcA (e ▸ hlrA)
      have hcpa : c ≠ pa := fun e => hcpar (by rw [e])
      rw [writeN_heap_other hcb, writeN_heap_other hclr,
        writeN_heap_other hcr, writeN_heap_other hcr,
        writeN_heap_other hcb, writeN_heap_other hcpa]
    · intro h
      cases h
    · intro pa2 hpa2
      cases Option.some.inj hpa2
      refine ⟨rfl, ?_⟩
      intro pn2 hpn2
      rw [hpn] at hpn2
      obtain rfl : pn = pn2 := Option.some.inj hpn2
      rw [writeN_heap_other hpab, writeN_heap_other hparl,
        writeN_heap_other hpar2, writeN_heap_other hpar2,
        writeN_heap_other hpab]
      rw [writeN_heap_same]
      rw [hpn1]

/-- Mirror of `rotateLeft_rep` for `rotateRight`. -/
theorem rotateRight_rep {κ ν : Type} {m : Map κ ν} {p : Option Nat}
    {par : Option Nat} {t : Tree κ ν} {A : List Nat}
    (hrep : Rep m.heap p par t A) :
    ∀ {r : Nat}, p = some r →
    ∀ {a b : Nat} {n nb : Node κ ν},
      ((par = none ∧ m.root = r) ∨
        (∃ pa pn, par = some pa ∧ pa ∉ A ∧ m.heap pa = some pn ∧
          (pn.left = some r ∨ pn.right = some r))) →
      a ∈ A → m.heap a = some n → n.left = some b →
      m.heap b = some nb → nb.isLeaf = false →
      ∃ m' r' t',
        rotateRight m (some a) = .ok m' ∧
        Rep m'.heap (some r') par t' A ∧
        t'.inorder = t.inorder ∧
        (∀ c, c ∉ A → some c ≠ par → m'.heap c = m.heap c) ∧
        (par = none → m'.root = r') ∧
        (∀ pa, par = some pa → m'.root = m.root ∧
          ∀ pn, m.heap pa = some pn →
            m'.heap pa = some (if pn.left == some r
              then { pn with left := some r' }
              else { pn with right := some r' })) ∧
        m'.size = m.size ∧ m'.next = m.next ∧
        m'.compareFunc = m.compareFunc := by
  induction hrep with
  | @leaf a0 par n0 ha0 h1 h2 h3 h4 =>
    intro r hpr a b n nb hpar ha hn hnl hb hbl
    cases Option.some.inj hpr
    simp only [List.mem_singleton] at ha
    subst ha
    rw [ha0] at hn
    cases Option.some.inj hn
    rw [h1] at hnl
    cases hnl
  | @node a0 par q tl tr Al Ar ha0 hp hl hrr hnd ihl ihr =>
    intro r hpr a b n nb hpar ha hn hnl hb hbl
    cases Option.some.inj hpr
    obtain ⟨ha0Al, ha0Ar, hndAl, hndAr, hdisj⟩ := nodup_split hnd
    rcases List.mem_append.1 ha with haAl | hrest
    · obtain ⟨la, hla⟩ := hl.p_some
      rw [hla] at hl
      have hchildpar : ((some a0 : Option Nat) = none ∧ m.root = la) ∨
          (∃ pa pn, (some a0 : Option Nat) = some pa ∧ pa ∉ Al ∧
            m.heap pa = some pn ∧
            (pn.left = some la ∨ pn.right = some la)) :=
        Or.inr ⟨a0, q, rfl, ha0Al, ha0, Or.inl hla⟩
      obtain ⟨m', r1, tl', heq, hrep', hio, hframe, -, hpa, hsz, hnx, hcm⟩ :=
        ihl hla hchildpar haAl hn hnl hb hbl
      obtain ⟨hroot', hslotf⟩ := hpa a0 rfl
      have hslot := hslotf q ha0
      rw [show (q.left == some la) = true by simp [hla]] at hslot
      rw [if_pos rfl] at hslot
      have hrr' : Rep m'.heap q.right (some a0) tr Ar := by
        refine hrr.frame fun c hc => ?_
        have hcAl : c ∉ Al := fun hc2 => hdisj c hc2 hc
        have hca0 : c ≠ a0 := fun e => ha0Ar (e ▸ hc)
        exact hframe c hcAl (by simp [hca0])
      refine ⟨m', a0, .node q.color tl' q.key q.val tr, heq, ?_, ?_, ?_, ?_,
        ?_, hsz, hnx, hcm⟩
      · exact Rep.node (n := { q with left := some r1 }) hslot hp hrep'
          hrr' hnd
      · simp [Tree.inorder, hio]
      · intro c hcA hcpar
        have hcAl : c ∉ Al := fun hc2 => hcA (by simp [hc2])
        have hca0 : c ≠ a0 := fun e => hcA (by simp [e])
        exact hframe c hcAl (by simp [hca0])
      · intro hpn
        rcases hpar with ⟨-, hroot⟩ | ⟨pa, pn, hps, -, -, -⟩
        · rw [hroot', hroot]
        · rw [hpn] at hps
          cases hps
      · intro pa hps
        rcases hpar with ⟨hpn, -⟩ | ⟨pa2, pn2, hps2, hpaA, hpn2, hslot2⟩
        · rw [hps] at hpn
          cases hpn
        · rw [hps] at hps2
          cases Option.some.inj hps2
          refine ⟨hroot', ?_⟩
          intro pn hpnr
          rw [hpn2] at hpnr
          obtain rfl : pn2 = pn := Option.some.inj hpnr
          have hpaAl : pa ∉ Al := fun hc2 => hpaA (by simp [hc2])
          have hpaa0 : pa ≠ a0 := fun e => hpaA (by simp [e])
          rw [hframe pa hpaAl (by simp [hpaa0]), hpn2]
          by_cases hc : (pn2.left == some a0) = true
          · rw [if_pos hc]
            have hpl : pn2.left = some a0 := by simpa using hc
            rw [← hpl]
          · rw [if_neg hc]
            have hpr2 : pn2.right = some a0 := by
              rcases hslot2 with hsl | hsr
              · exact absurd (by simp [hsl]) hc
              · exact hsr
            rw [← hpr2]
    · rcases List.mem_cons.1 hrest with rfl | haAr
      · exact rotateRight_here (Rep.node ha0 hp hl hrr hnd) hpar hn hnl hb hbl
          |>.imp fun m' h => ⟨b, h⟩
      · obtain ⟨ra, hra⟩ := hrr.p_some
        rw [hra] at hrr
        obtain ⟨la, hla⟩ := hl.p_some
        have hlmem : la ∈ Al := by
          have hl2 := hl
          rw [hla] at hl2
          exact hl2.root_mem
        have hrmem : ra ∈ Ar := hrr.root_mem
        have hlara : la ≠ ra := fun e => by
          subst e
          exact hdisj la hlmem hrmem
        have hchildpar : ((some a0 : Option Nat) = none ∧ m.root = ra) ∨
            (∃ pa pn, (some a0 : Option Nat) = some pa ∧ pa ∉ Ar ∧
              m.heap pa = some pn ∧
              (pn.left = some ra ∨ pn.right = some ra)) :=
          Or.inr ⟨a0, q, rfl, ha0Ar, ha0, Or.inr hra⟩
        obtain ⟨m', r2, tr', heq, hrep', hio, hframe, -, hpa, hsz, hnx, hcm⟩ :=
          ihr hra hchildpar haAr hn hnl hb hbl
        obtain ⟨hroot', hslotf⟩ := hpa a0 rfl
        have hslot := hslotf q ha0
        rw [show (q.left == some ra) = false by simp [hla, hlara]] at hslot
        rw [if_neg (by simp)] at hslot
        have hl' : Rep m'.heap q.left (some a0) tl Al := by
          refine hl.frame fun c hc => ?_
          have hcAr : c ∉ Ar := fun hc2 => hdisj c hc hc2
          have hca0 : c ≠ a0 := fun e => ha0Al (e ▸ hc)
          exact hframe c hcAr (by simp [hca0])
        refine ⟨m', a0, .node q.color tl q.key q.val tr', heq, ?_, ?_, ?_, ?_,
          ?_, hsz, hnx, hcm⟩
        · exact Rep.node (n := { q with right := some r2 }) hslot hp
            hl' hrep' hnd
        · simp [Tree.inorder, hio]
        · intro c hcA hcpar
          have hcAr : c ∉ Ar := fun hc2 => hcA (by simp [hc2])
          have hca0 : c ≠ a0 := fun e => hcA (by simp [e])
          exact hframe c hcAr (by simp [hca0])
        · intro hpn
          rcases hpar with ⟨-, hroot⟩ | ⟨pa, pn, hps, -, -, -⟩
          · rw [hroot', hroot]
          · rw [hpn] at hps
            cases hps
        · intro pa hps
          rcases hpar with ⟨hpn, -⟩ | ⟨pa2, pn2, hps2, hpaA, hpn2, hslot2⟩
          · rw [hps] at hpn
            cases hpn
          · rw [hps] at hps2
            cases Option.some.inj hps2
            refine ⟨hroot', ?_⟩
            intro pn hpnr
            rw [hpn2] at hpnr
            obtain rfl : pn2 = pn := Option.some.inj hpnr
            have hpaAr : pa ∉ Ar := fun hc2 => hpaA (by simp [hc2])
            have hpaa0 : pa ≠ a0 := fun e => hpaA (by simp [e])
            rw [hframe pa hpaAr (by simp [hpaa0]), hpn2]
            by_cases hc : (pn2.left == some a0) = true
            · rw [if_pos hc]
              have hpl : pn2.left = some a0 := by simpa using hc
              rw [← hpl]
            · rw [if_neg hc]
              have hpr2 : pn2.right = some a0 := by
                rcases hslot2 with hsl | hsr
                · exact absurd (by simp [hsl]) hc
                · exact hsr
              rw [← hpr2]

/-- The number of live nodes equals the in-order sequence length. -/
theorem Tree.size_eq_inorder_length {κ ν : Type} :
    ∀ t : Tree κ ν, t.size = t.inorder.length
  | .leaf => rfl
  | .node _ l _ _ r => by
    simp [Tree.size, Tree.inorder, Tree.size_eq_inorder_length l,
      Tree.size_eq_inorder_length r]
    omega

/-- The Go `getLeftMostChild` loop on a represented region: starting from
the region's root pointer it walks `right` links to the last sentinel and
returns that sentinel's parent — the region's in-order-last live node,
whose own right child is a sentinel.  On an empty region it returns the
region's parent pointer. -/
theorem leftMostLoop_rep {κ ν : Type} {m : Map κ ν} {ptr : Option Nat}
    {par : Option Nat} {tl : Tree κ ν} {Al : List Nat}
    (hrep : Rep m.heap ptr par tl Al) :
    ∀ fuel, tl.size < fuel →
    (tl = .leaf → leftMostLoop m fuel ptr = .ok par) ∧
    (tl ≠ .leaf → ∃ p np sl nsl,
      leftMostLoop m fuel ptr = .ok (some p) ∧
      m.heap p = some np ∧ p ∈ Al ∧
      tl.inorder.getLast? = some (np.key, np.val) ∧
      np.right = some sl ∧ m.heap sl = some nsl ∧ nsl.isLeaf = true ∧
      ∃ Alpre, Al = Alpre ++ [p, sl]) := by
  induction hrep with
  | @leaf a par n ha h1 h2 h3 h4 =>
    intro fuel hfuel
    match fuel, hfuel with
    | fuel + 1, _ =>
      refine ⟨fun _ => ?_, fun hne => absurd rfl hne⟩
      have hleaf : n.isLeaf = true := by simp [Node.isLeaf, h1, h2]
      simp [leftMostLoop, readP_some ha, hleaf, h3]
  | @node a par q tl2 tr2 Al2 Ar2 ha hp hl hrr hnd ihl ihr =>
    intro fuel hfuel
    match fuel, hfuel with
    | fuel + 1, hfuel =>
      obtain ⟨lla, hlla⟩ := hl.p_some
      have hleaf : q.isLeaf = false := by simp [Node.isLeaf, hlla]
      simp only [Tree.size] at hfuel
      have hszr : tr2.size < fuel := by omega
      obtain ⟨ra, hra⟩ := hrr.p_some
      have hrr2 := hrr
      rw [hra] at hrr2
      have hstep : leftMostLoop m (fuel + 1) (some a) =
          leftMostLoop m fuel q.right := by
        simp [leftMostLoop, readP_some ha, hleaf]
      refine ⟨fun h => (nomatch h), fun _ => ?_⟩
      cases hrr2 with
      | @leaf _ _ nr0 hb k1 k2 k3 k4 =>
        -- right child is a sentinel: `a` itself is the rightmost live node
        refine ⟨a, q, ra, nr0, ?_, ha, by simp, ?_, hra, hb, ?_, Al2, rfl⟩
        · rw [hstep, hra]
          simp only [Tree.size] at hszr
          match fuel, hszr with
          | fuel + 1, _ =>
            have hleaf2 : nr0.isLeaf = true := by
              simp [Node.isLeaf, k1, k2]
            simp [leftMostLoop, readP_some hb, hleaf2, k3]
        · simp only [Tree.inorder]
          rw [List.getLast?_append_cons]
          rfl
        · simp [Node.isLeaf, k1, k2]
      | @node _ _ nr2 l2t r2t Al3 Ar3 hb hp2 hl2 hr2 hnd2 =>
        -- right child is live: the rightmost node lies inside it
        obtain ⟨-, ihr2⟩ := ihr fuel hszr
        obtain ⟨p, np, sl, nsl, hloop, hnp, hpmem, hlast, hnpr, hsl,
          hsleaf, Alpre2, hAlpre⟩ := ihr2 (by intro h; cases h)
        refine ⟨p, np, sl, nsl, ?_, hnp, by simp [hpmem], ?_, hnpr, hsl,
          hsleaf, Al2 ++ a :: Alpre2, by rw [hAlpre]; simp⟩
        · rw [hstep]
          exact hloop
        · have hlast2 : ((nr2.key, nr2.val) :: r2t.inorder).getLast? =
              some (np.key, np.val) := by
            have hx := hlast
            simp only [Tree.inorder] at hx
            rwa [List.getLast?_append_cons] at hx
          simp only [Tree.inorder]
          rw [List.getLast?_append_cons, ← List.cons_append,
            List.getLast?_append_cons]
          exact hlast2

/-- Height of a tree: the number of edges on the longest path from the
root down to a sentinel (each internal node contributes one step). -/
def Tree.height {κ ν : Type} : Tree κ ν → Nat
  | .leaf => 0
  | .node _ l _ _ r => max l.height r.height + 1

/-- The root of the tree is BLACK (a sentinel counts as BLACK). -/
def Tree.rootBlack {κ ν : Type} : Tree κ ν → Bool
  | .leaf => true
  | .node c _ _ _ _ => !c

/-- The red-black color invariants of §3 of the spec, with the black-height
as an index: every node is RED or BLACK, sentinels are BLACK, a RED node
has BLACK children, and both children of a node carry the same
black-height. -/
inductive IsRB {κ ν : Type} : Tree κ ν → Nat → Prop where
  | leaf : IsRB Tree.leaf 0
  | red {l r : Tree κ ν} {k : κ} {v : ν} {h : Nat} :
      IsRB l h → IsRB r h → l.rootBlack = true → r.rootBlack = true →
      IsRB (.node RED l k v r) h
  | black {l r : Tree κ ν} {k : κ} {v : ν} {h : Nat} :
      IsRB l h → IsRB r h → IsRB (.node BLACK l k v r) (h + 1)

/-- Under the invariants, height is at most twice the black-height (plus
one at a RED root). -/
theorem IsRB.height_le {κ ν : Type} {t : Tree κ ν} {h : Nat}
    (hrb : IsRB t h) :
    t.height ≤ 2 * h + 1 ∧ (t.rootBlack = true → t.height ≤ 2 * h) := by
  induction hrb with
  | leaf => exact ⟨by simp [Tree.height], fun _ => by simp [Tree.height]⟩
  | red hl hr hbl hbr ihl ihr =>
    have h1 := ihl.2 hbl
    have h2 := ihr.2 hbr
    constructor
    · simp only [Tree.height]
      omega
    · intro hb
      rw [Tree.rootBlack, RED] at hb
      simp at hb
  | black hl hr ihl ihr =>
    have h1 := ihl.1
    have h2 := ihr.1
    constructor
    · simp only [Tree.height]
      omega
    · intro _
      simp only [Tree.height]
      omega

/-- Under the invariants, a black-height of `h` forces at least `2^h - 1`
live nodes. -/
theorem IsRB.size_lower {κ ν : Type} {t : Tree κ ν} {h : Nat}
    (hrb : IsRB t h) : 2 ^ h ≤ t.size + 1 := by
  induction hrb with
  | leaf => simp [Tree.size]
  | red hl hr hbl hbr ihl ihr =>
    simp only [Tree.size]
    omega
  | black hl hr ihl ihr =>
    simp only [Tree.size]
    rw [pow_succ]
    omega

/-! ## Structural lemmas on represented regions -/

/-- The live key/value a heap cell contributes to the in-order sequence:
a live node (non-nil left pointer) contributes its pair, a sentinel or an
unallocated cell nothing. -/
def liveKV {κ ν : Type} (h : Heap κ ν) (b : Nat) : Option (κ × ν) :=
  match h b with
  | none => none
  | some nb => if nb.left.isSome then some (nb.key, nb.val) else none

/-- The in-order sequence is the address list filtered through `liveKV`. -/
theorem Rep.inorder_filterMap {κ ν : Type} {h : Heap κ ν}
    {p par : Option Nat} {t : Tree κ ν} {A : List Nat}
    (hrep : Rep h p par t A) : t.inorder = A.filterMap (liveKV h) := by
  induction hrep with
  | leaf ha h1 h2 h3 h4 =>
    simp [Tree.inorder, liveKV, ha, h1]
  | @node a par n tl tr Al Ar ha hp hl hrr hnd ihl ihr =>
    obtain ⟨la, hla⟩ := hl.p_some
    have hlive : n.left.isSome = true := by simp [hla]
    simp [Tree.inorder, List.filterMap_append, ihl, ihr, liveKV, ha, hlive]

/-- Every address of a region is allocated, and is either a sentinel
(BLACK, both children nil) or live (both children non-nil). -/
theorem Rep.mem_shape {κ ν : Type} {h : Heap κ ν} {p par : Option Nat}
    {t : Tree κ ν} {A : List Nat} (hrep : Rep h p par t A) :
    ∀ b ∈ A, ∃ nb, h b = some nb ∧
      ((nb.left = none ∧ nb.right = none ∧ nb.color = BLACK) ∨
       (∃ bl br, nb.left = some bl ∧ nb.right = some br ∧
         bl ∈ A ∧ br ∈ A)) := by
  induction hrep with
  | leaf ha h1 h2 h3 h4 =>
    intro b hb
    simp only [List.mem_singleton] at hb
    subst hb
    exact ⟨_, ha, Or.inl ⟨h1, h2, h4⟩⟩
  | @node a par n tl tr Al Ar ha hp hl hrr hnd ihl ihr =>
    intro b hb
    rcases List.mem_append.1 hb with hbl | hbrest
    · obtain ⟨nb, hnb, hsh⟩ := ihl b hbl
      refine ⟨nb, hnb, ?_⟩
      rcases hsh with h | ⟨bl, br, h1, h2, h3, h4⟩
      · exact Or.inl h
      · exact Or.inr ⟨bl, br, h1, h2, by simp [h3], by simp [h4]⟩
    · rcases List.mem_cons.1 hbrest with rfl | hbr
      · obtain ⟨la, hla⟩ := hl.p_some
        obtain ⟨ra, hra⟩ := hrr.p_some
        have hlm : la ∈ Al := by
          have hl2 := hl
          rw [hla] at hl2
          exact hl2.root_mem
        have hrm : ra ∈ Ar := by
          have hr2 := hrr
          rw [hra] at hr2
          exact hr2.root_mem
        exact ⟨n, ha, Or.inr ⟨la, ra, hla, hra, by simp [hlm],
          by simp [hrm]⟩⟩
      · obtain ⟨nb, hnb, hsh⟩ := ihr b hbr
        refine ⟨nb, hnb, ?_⟩
        rcases hsh with h | ⟨bl, br, h1, h2, h3, h4⟩
        · exact Or.inl h
        · exact Or.inr ⟨bl, br, h1, h2, by simp [h3], by simp [h4]⟩

/-- A region member whose parent pointer is nil is the region root, and the
region parent is nil. -/
theorem Rep.parent_none_root {κ ν : Type} {h : Heap κ ν} {p par : Option Nat}
    {t : Tree κ ν} {A : List Nat} (hrep : Rep h p par t A) :
    ∀ {r : Nat}, p = some r →
    ∀ {a : Nat} {n : Node κ ν}, a ∈ A → h a = some n → n.parent = none →
    a = r ∧ par = none := by
  induction hrep with
  | @leaf a0 par n0 ha0 h1 h2 h3 h4 =>
    intro r hpr a n ha hn hpp
    cases Option.some.inj hpr
    simp only [List.mem_singleton] at ha
    subst ha
    rw [ha0] at hn
    cases Option.some.inj hn
    exact ⟨rfl, by rw [← h3, hpp]⟩
  | @node a0 par q tl tr Al Ar ha0 hp hl hrr hnd ihl ihr =>
    intro r hpr a n ha hn hpp
    cases Option.some.inj hpr
    rcases List.mem_append.1 ha with haAl | hrest
    · obtain ⟨la, hla⟩ := hl.p_some
      obtain ⟨-, hcontra⟩ := ihl hla haAl hn hpp
      cases hcontra
    · rcases List.mem_cons.1 hrest with rfl | haAr
      · rw [ha0] at hn
        cases Option.some.inj hn
        exact ⟨rfl, by rw [← hp, hpp]⟩
      · obtain ⟨ra, hra⟩ := hrr.p_some
        obtain ⟨-, hcontra⟩ := ihr hra haAr hn hpp
        cases hcontra

/-- Parent structure of a region member: either it is the region root and
its parent field is the region parent, or its parent is a live region
member having it as a child, and the parent's two child pointers head
represented subregions inside the region. -/
theorem Rep.parent_struct {κ ν : Type} {h : Heap κ ν} {p par : Option Nat}
    {t : Tree κ ν} {A : List Nat} (hrep : Rep h p par t A) :
    ∀ {r : Nat}, p = some r →
    ∀ {a : Nat} {n : Node κ ν}, a ∈ A → h a = some n →
    (a = r ∧ n.parent = par) ∨
    (∃ pa pnn cl cr tcl tcr Acl Acr, n.parent = some pa ∧ pa ∈ A ∧ pa ≠ a ∧
      h pa = some pnn ∧ pnn.left = some cl ∧ pnn.right = some cr ∧
      Rep h (some cl) (some pa) tcl Acl ∧ Rep h (some cr) (some pa) tcr Acr ∧
      (∀ y ∈ Acl, y ∈ A) ∧ (∀ y ∈ Acr, y ∈ A) ∧
      (Acl ++ pa :: Acr).Nodup ∧
      (cl = a ∨ cr = a)) := by
  induction hrep with
  | @leaf a0 par n0 ha0 h1 h2 h3 h4 =>
    intro r hpr a n ha hn
    cases Option.some.inj hpr
    simp only [List.mem_singleton] at ha
    subst ha
    rw [ha0] at hn
    cases Option.some.inj hn
    exact Or.inl ⟨rfl, h3⟩
  | @node a0 par q tl tr Al Ar ha0 hp hl hrr hnd ihl ihr =>
    intro r hpr a n ha hn
    cases Option.some.inj hpr
    obtain ⟨ha0Al, ha0Ar, hndAl, hndAr, hdisj⟩ := nodup_split hnd
    obtain ⟨la, hla⟩ := hl.p_some
    obtain ⟨ra, hra⟩ := hrr.p_some
    have hl2 := hl
    rw [hla] at hl2
    have hr2 := hrr
    rw [hra] at hr2
    rcases List.mem_append.1 ha with haAl | hrest
    · rcases ihl hla haAl hn with ⟨heq, hpar⟩ | deep
      · -- a is the left child root: its parent is a0
        refine Or.inr ⟨a0, q, la, ra, tl, tr, Al, Ar, hpar, by simp, ?_,
          ha0, hla, hra, hl2, hr2, fun y hy => by simp [hy],
          fun y hy => by simp [hy], hnd, Or.inl heq.symm⟩
        intro e
        exact ha0Al (e ▸ haAl)
      · obtain ⟨pa, pnn, cl, cr, tcl, tcr, Acl, Acr, h1, h2, h3, h4, h5, h6,
          h7, h8, h9, h10, h11, h12⟩ := deep
        exact Or.inr ⟨pa, pnn, cl, cr, tcl, tcr, Acl, Acr, h1, by simp [h2],
          h3, h4, h5, h6, h7, h8, fun y hy => by simp [h9 y hy],
          fun y hy => by simp [h10 y hy], h11, h12⟩
    · rcases List.mem_cons.1 hrest with rfl | haAr
      · rw [ha0] at hn
        cases Option.some.inj hn
        exact Or.inl ⟨rfl, hp⟩
      · rcases ihr hra haAr hn with ⟨heq, hpar⟩ | deep
        · refine Or.inr ⟨a0, q, la, ra, tl, tr, Al, Ar, hpar, by simp, ?_,
            ha0, hla, hra, hl2, hr2, fun y hy => by simp [hy],
            fun y hy => by simp [hy], hnd, Or.inr heq.symm⟩
          intro e
          exact ha0Ar (e ▸ haAr)
        · obtain ⟨pa, pnn, cl, cr, tcl, tcr, Acl, Acr, h1, h2, h3, h4, h5, h6,
            h7, h8, h9, h10, h11, h12⟩ := deep
          exact Or.inr ⟨pa, pnn, cl, cr, tcl, tcr, Acl, Acr, h1, by simp [h2],
            h3, h4, h5, h6, h7, h8, fun y hy => by simp [h9 y hy],
            fun y hy => by simp [h10 y hy], h11, h12⟩

/-- A region's address list is duplicate-free. -/
theorem Rep.nodup {κ ν : Type} {h : Heap κ ν} {p par : Option Nat}
    {t : Tree κ ν} {A : List Nat} (hrep : Rep h p par t A) : A.Nodup := by
  cases hrep with
  | leaf => simp
  | node _ _ _ _ hnd => exact hnd

/-- Recoloring a region member: writing BLACK anywhere, or any color to a
live member, keeps the region on the same addresses with the same in-order
sequence. -/
theorem Rep.recolor {κ ν : Type} {h : Heap κ ν} {p par : Option Nat}
    {t : Tree κ ν} {A : List Nat} (hrep : Rep h p par t A) :
    ∀ {c : Nat} {nc : Node κ ν} {q : Bool}, c ∈ A → h c = some nc →
    (q = BLACK ∨ nc.isLeaf = false) →
    ∃ t', Rep (hset h c { nc with color := q }) p par t' A ∧
      t'.inorder = t.inorder := by
  induction hrep with
  | @leaf a0 par n0 ha0 h1 h2 h3 h4 =>
    intro c nc col hc hnc hcol
    simp only [List.mem_singleton] at hc
    subst hc
    rw [ha0] at hnc
    cases Option.some.inj hnc
    rcases hcol with rfl | hlive
    · exact ⟨.leaf, .leaf (n := { n0 with color := BLACK })
        (by simp [hset]) h1 h2 h3 rfl, rfl⟩
    · rw [Node.isLeaf, h1, h2] at hlive
      simp at hlive
  | @node a0 par q tl tr Al Ar ha0 hp hl hrr hnd ihl ihr =>
    intro c nc col hc hnc hcol
    obtain ⟨ha0Al, ha0Ar, hndAl, hndAr, hdisj⟩ := nodup_split hnd
    rcases List.mem_append.1 hc with hcAl | hrest
    · obtain ⟨tl', hrep', hio⟩ := ihl hcAl hnc hcol
      have hca0 : c ≠ a0 := fun e => ha0Al (e ▸ hcAl)
      have hcAr : c ∉ Ar := hdisj c hcAl
      refine ⟨.node q.color tl' q.key q.val tr,
        Rep.node (by simp [hset, hca0.symm]; exact ha0) hp hrep'
          (hrr.frame_set hcAr) hnd, ?_⟩
      simp [Tree.inorder, hio]
    · rcases List.mem_cons.1 hrest with rfl | hcAr
      · rw [ha0] at hnc
        cases Option.some.inj hnc
        refine ⟨.node col tl q.key q.val tr,
          Rep.node (n := { q with color := col }) (by simp [hset]) hp
            (hl.frame_set ha0Al) (hrr.frame_set ha0Ar) hnd, ?_⟩
        simp [Tree.inorder]
      · obtain ⟨tr', hrep', hio⟩ := ihr hcAr hnc hcol
        have hca0 : c ≠ a0 := fun e => ha0Ar (e ▸ hcAr)
        have hcAl : c ∉ Al := fun h2 => hdisj c h2 hcAr
        refine ⟨.node q.color tl q.key q.val tr',
          Rep.node (by simp [hset, hca0.symm]; exact ha0) hp
            (hl.frame_set hcAl) hrep' hnd, ?_⟩
        simp [Tree.inorder, hio]

/-- Overwriting the key and value of a live region member keeps the region
shape; the in-order sequence changes exactly at that member's position. -/
theorem Rep.setKV {κ ν : Type} {h : Heap κ ν} {p par : Option Nat}
    {t : Tree κ ν} {A : List Nat} (hrep : Rep h p par t A) :
    ∀ {c : Nat} {nc : Node κ ν} {k2 : κ} {v2 : ν}, c ∈ A → h c = some nc →
    nc.isLeaf = false →
    ∃ t', Rep (hset h c { nc with key := k2, val := v2 }) p par t' A := by
  induction hrep with
  | @leaf a0 par n0 ha0 h1 h2 h3 h4 =>
    intro c nc k2 v2 hc hnc hlive
    simp only [List.mem_singleton] at hc
    subst hc
    rw [ha0] at hnc
    cases Option.some.inj hnc
    rw [Node.isLeaf, h1, h2] at hlive
    simp at hlive
  | @node a0 par q tl tr Al Ar ha0 hp hl hrr hnd ihl ihr =>
    intro c nc k2 v2 hc hnc hlive
    obtain ⟨ha0Al, ha0Ar, hndAl, hndAr, hdisj⟩ := nodup_split hnd
    rcases List.mem_append.1 hc with hcAl | hrest
    · obtain ⟨tl', hrep'⟩ := ihl hcAl hnc hlive
      have hca0 : c ≠ a0 := fun e => ha0Al (e ▸ hcAl)
      have hcAr : c ∉ Ar := hdisj c hcAl
      exact ⟨.node q.color tl' q.key q.val tr,
        Rep.node (by simp [hset, hca0.symm]; exact ha0) hp hrep'
          (hrr.frame_set hcAr) hnd⟩
    · rcases List.mem_cons.1 hrest with rfl | hcAr
      · rw [ha0] at hnc
        cases Option.some.inj hnc
        exact ⟨.node q.color tl k2 v2 tr,
          Rep.node (n := { q with key := k2, val := v2 }) (by simp [hset]) hp
            (hl.frame_set ha0Al) (hrr.frame_set ha0Ar) hnd⟩
      · obtain ⟨tr', hrep'⟩ := ihr hcAr hnc hlive
        have hca0 : c ≠ a0 := fun e => ha0Ar (e ▸ hcAr)
        have hcAl : c ∉ Al := fun h2 => hdisj c h2 hcAr
        exact ⟨.node q.color tl q.key q.val tr',
          Rep.node (by simp [hset, hca0.symm]; exact ha0) hp
            (hl.frame_set hcAl) hrep' hnd⟩

theorem nodup_split_unique_aux {x : Nat} :
    ∀ {u1 w1 u2 w2 : List Nat}, (u1 ++ x :: w1).Nodup →
    u1 ++ x :: w1 = u2 ++ x :: w2 → u1 = u2 ∧ w1 = w2 := by
  intro u1
  induction u1 with
  | nil =>
    intro w1 u2 w2 hnd heq
    cases u2 with
    | nil =>
      refine ⟨rfl, ?_⟩
      simpa using heq
    | cons b u2m =>
      simp only [List.nil_append, List.cons_append, List.cons.injEq] at heq
      obtain ⟨rfl, heq2⟩ := heq
      simp only [List.nil_append, List.nodup_cons] at hnd
      exact absurd (heq2 ▸ List.mem_append.2
        (Or.inr (List.mem_cons_self _ _))) hnd.1
  | cons b u1m ih =>
    intro w1 u2 w2 hnd heq
    cases u2 with
    | nil =>
      simp only [List.cons_append, List.nil_append, List.cons.injEq] at heq
      obtain ⟨rfl, heq2⟩ := heq
      simp only [List.cons_append, List.nodup_cons] at hnd
      exact absurd (List.mem_append.2 (Or.inr (List.mem_cons_self _ _))) hnd.1
    | cons c u2m =>
      simp only [List.cons_append, List.cons.injEq] at heq
      obtain ⟨rfl, heq2⟩ := heq
      simp only [List.cons_append, List.nodup_cons] at hnd
      obtain ⟨e1, e2⟩ := ih hnd.2 heq2
      exact ⟨by rw [e1], e2⟩

/-- Splitting a duplicate-free list at a member is unambiguous. -/
theorem nodup_split_unique {A u1 w1 u2 w2 : List Nat} {x : Nat}
    (hnd : A.Nodup) (h1 : A = u1 ++ x :: w1) (h2 : A = u2 ++ x :: w2) :
    u1 = u2 ∧ w1 = w2 := by
  subst h1
  exact nodup_split_unique_aux hnd h2

/-- Replacing the left part of a duplicate-free split list by a sub-list
keeps it duplicate-free. -/
theorem nodup_sub_append {Al Al2 Ar : List Nat} {a0 : Nat}
    (hnd : (Al ++ a0 :: Ar).Nodup) (hsub : ∀ x ∈ Al2, x ∈ Al)
    (hnd2 : Al2.Nodup) : (Al2 ++ a0 :: Ar).Nodup := by
  obtain ⟨h1, h2, h3, h4, h5⟩ := nodup_split hnd
  rw [List.nodup_append]
  refine ⟨hnd2, ?_, ?_⟩
  · rw [List.nodup_cons]
    exact ⟨h2, h4⟩
  · intro x hx hx2
    rcases List.mem_cons.1 hx2 with rfl | hx3
    · exact h1 (hsub _ hx)
    · exact h5 x (hsub _ hx) hx3

/-- Replacing the right part of a duplicate-free split list by a sub-list
keeps it duplicate-free. -/
theorem nodup_sub_append_right {Al Ar Ar2 : List Nat} {a0 : Nat}
    (hnd : (Al ++ a0 :: Ar).Nodup) (hsub : ∀ x ∈ Ar2, x ∈ Ar)
    (hnd2 : Ar2.Nodup) : (Al ++ a0 :: Ar2).Nodup := by
  obtain ⟨h1, h2, h3, h4, h5⟩ := nodup_split hnd
  rw [List.nodup_append]
  refine ⟨h3, ?_, ?_⟩
  · rw [List.nodup_cons]
    exact ⟨fun hm => h2 (hsub _ hm), hnd2⟩
  · intro x hx hx2
    rcases List.mem_cons.1 hx2 with rfl | hx3
    · exact h1 hx
    · exact h5 x hx (hsub _ hx3)

/-- A heap write that keeps a cell's key, value and left-pointer liveness
does not change any cell's contribution to the in-order sequence. -/
theorem liveKV_hset_congr {κ ν : Type} {h : Heap κ ν} {c : Nat}
    {nc nc2 : Node κ ν} (hc : h c = some nc) (hk : nc2.key = nc.key)
    (hv : nc2.val = nc.val) (hl : nc2.left.isSome = nc.left.isSome) :
    ∀ b, liveKV (hset h c nc2) b = liveKV h b := by
  intro b
  by_cases hb : b = c
  · subst hb
    simp [liveKV, hset, hc, hk, hv, hl]
  · simp [liveKV, hset, hb]

/-- Splicing out the region root when its left child is a sentinel and its
parent is nil: after re-parenting the right child to nil, the heap
represents the root's right subtree; the root and its left sentinel drop
off the front of the address list. -/
theorem Rep.spliceLeft_root {κ ν : Type} {h : Heap κ ν} {r : Nat}
    {t : Tree κ ν} {A : List Nat} (hrep : Rep h (some r) none t A) :
    ∀ {ls rca : Nat} {n nls nrc : Node κ ν},
    h r = some n → n.left = some ls → h ls = some nls → nls.isLeaf = true →
    n.right = some rca → h rca = some nrc →
    ∃ t' A',
      Rep (hset h rca { nrc with parent := none }) (some rca) none t' A' ∧
      A = ls :: r :: A' ∧
      t = .node n.color .leaf n.key n.val t' := by
  intro ls rca n nls nrc hn hnl hls hlsleaf hnr hnrc
  cases hrep with
  | leaf ha h1 h2 h3 h4 =>
    rw [ha] at hn
    cases Option.some.inj hn
    rw [h1] at hnl
    cases hnl
  | @node _ _ q tl tr Al Ar ha hp hl hrr hnd =>
    rw [ha] at hn
    cases Option.some.inj hn
    rw [hnl] at hl
    have htl : tl = .leaf := (hl.leaf_iff hls).1 hlsleaf
    subst htl
    cases hl with
    | leaf =>
      rw [hnr] at hrr
      exact ⟨tr, Ar, hrr.reparent hnrc, rfl, rfl⟩

/-- Mirror of `Rep.spliceLeft_root`: the region root's right child is a
sentinel and its left child is promoted. -/
theorem Rep.spliceRight_root {κ ν : Type} {h : Heap κ ν} {r : Nat}
    {t : Tree κ ν} {A : List Nat} (hrep : Rep h (some r) none t A) :
    ∀ {rs lca : Nat} {n nrs nlc : Node κ ν},
    h r = some n → n.right = some rs → h rs = some nrs → nrs.isLeaf = true →
    n.left = some lca → h lca = some nlc →
    ∃ t' A',
      Rep (hset h lca { nlc with parent := none }) (some lca) none t' A' ∧
      A = A' ++ [r, rs] ∧
      t = .node n.color t' n.key n.val .leaf := by
  intro rs lca n nrs nlc hn hnr hrs hrsleaf hnl hnlc
  cases hrep with
  | leaf ha h1 h2 h3 h4 =>
    rw [ha] at hn
    cases Option.some.inj hn
    rw [h1] at hnl
    cases hnl
  | @node _ _ q tl tr Al Ar ha hp hl hrr hnd =>
    rw [ha] at hn
    cases Option.some.inj hn
    rw [hnr] at hrr
    have htr : tr = .leaf := (hrr.leaf_iff hrs).1 hrsleaf
    subst htr
    cases hrr with
    | leaf =>
      rw [hnl] at hl
      exact ⟨tl, Al, hl.reparent hnlc, rfl, rfl⟩

/-- Splicing out a region member whose left child is a sentinel and whose
parent pointer is non-nil: re-parenting the right child to the member's
parent and redirecting that parent's child slot yields a region on the
address list with the member and its sentinel (which sit adjacently)
removed; all other cells keep their records. -/
theorem spliceLeft_rep {κ ν : Type} {h : Heap κ ν} {p par : Option Nat}
    {t : Tree κ ν} {A : List Nat} (hrep : Rep h p par t A) :
    ∀ {r : Nat}, p = some r →
    ∀ {a ls rca pa : Nat} {n nls nrc pnn : Node κ ν} {h2 : Heap κ ν},
    ((par = none) ∨
      (∃ pe pne, par = some pe ∧ pe ∉ A ∧ h pe = some pne ∧
        (pne.left = some r ∨ pne.right = some r))) →
    a ∈ A → h a = some n →
    n.left = some ls → h ls = some nls → nls.isLeaf = true →
    n.right = some rca → h rca = some nrc →
    n.parent = some pa → h pa = some pnn →
    h2 = hset (hset h rca { nrc with parent := some pa }) pa
      (if pnn.left == some a then { pnn with left := some rca }
       else { pnn with right := some rca }) →
    ∃ r' t' A' u w,
      Rep h2 (some r') par t' A' ∧
      A = u ++ ls :: a :: w ∧ A' = u ++ w ∧
      (∀ x ∈ A', x ∈ A) ∧
      (par = none → r' = r) ∧
      (∀ pe pne, par = some pe → h pe = some pne →
        h2 pe = some (if pne.left == some r then { pne with left := some r' }
                      else { pne with right := some r' })) := by
  induction hrep with
  | @leaf a0 par n0 ha0 k1 k2 k3 k4 =>
    intro r hpr a ls rca pa n nls nrc pnn h2 hpar ha hn hnl hls hlsleaf hnr
      hnrc hnp hpnn hh2
    cases Option.some.inj hpr
    simp only [List.mem_singleton] at ha
    subst ha
    rw [ha0] at hn
    cases Option.some.inj hn
    rw [k1] at hnl
    cases hnl
  | @node a0 par q tl tr Al Ar ha0 hp hl hrr hnd ihl ihr =>
    intro r hpr a ls rca pa n nls nrc pnn h2 hpar ha hn hnl hls hlsleaf hnr
      hnrc hnp hpnn hh2
    cases Option.some.inj hpr
    obtain ⟨ha0Al, ha0Ar, hndAl, hndAr, hdisj⟩ := nodup_split hnd
    obtain ⟨la, hla⟩ := hl.p_some
    obtain ⟨ra, hra⟩ := hrr.p_some
    rcases List.mem_append.1 ha with haAl | hrest
    · -- spliced node inside the left subtree
      rw [hla] at hl
      have hlmem : la ∈ Al := hl.root_mem
      -- locate the spliced node's footprint inside the left subtree
      have hrcaAl : rca ∈ Al := by
        obtain ⟨nb, hnb, hsh⟩ := hl.mem_shape a haAl
        rw [hn] at hnb
        cases Option.some.inj hnb
        rcases hsh with ⟨e1, -, -⟩ | ⟨bl, br, e1, e2, e3, e4⟩
        · rw [hnl] at e1
          cases e1
        · rw [hnr] at e2
          cases Option.some.inj e2
          exact e4
      have hpaAla0 : pa ∈ Al ∨ pa = a0 := by
        rcases hl.parent_struct rfl haAl hn with ⟨-, hpp⟩ | hdeep
        · rw [hnp] at hpp
          cases Option.some.inj hpp
          exact Or.inr rfl
        · obtain ⟨pa2, -, -, -, -, -, -, -, hpp, hpamem, -⟩ := hdeep
          rw [hnp] at hpp
          cases Option.some.inj hpp
          exact Or.inl hpamem
      have hchildpar : ((some a0 : Option Nat) = none) ∨
          (∃ pe pne, (some a0 : Option Nat) = some pe ∧ pe ∉ Al ∧
            h pe = some pne ∧ (pne.left = some la ∨ pne.right = some la)) :=
        Or.inr ⟨a0, q, rfl, ha0Al, ha0, Or.inl hla⟩
      obtain ⟨r1, tl', Al', u1, w1, hrep1, hsplit1, hA1, hsub1, -, hpcl1⟩ :=
        ihl hla hchildpar haAl hn hnl hls hlsleaf hnr hnrc hnp hpnn hh2
      have hslot := hpcl1 a0 q rfl ha0
      rw [show (q.left == some la) = true by simp [hla]] at hslot
      rw [if_pos rfl] at hslot
      have hrr2 : Rep h2 q.right (some a0) tr Ar := by
        refine hrr.frame fun c hc => ?_
        have hcrca : c ≠ rca := fun e => hdisj rca hrcaAl (e ▸ hc)
        have hcpa : c ≠ pa := by
          rcases hpaAla0 with hpaAl | rfl
          · exact fun e => hdisj pa hpaAl (e ▸ hc)
          · exact fun e => ha0Ar (e ▸ hc)
        simp [hh2, hset, hcrca, hcpa]
      refine ⟨a0, .node q.color tl' q.key q.val tr, Al' ++ a0 :: Ar,
        u1, w1 ++ a0 :: Ar, ?_, ?_, ?_, ?_, fun _ => rfl, ?_⟩
      · exact Rep.node (n := { q with left := some r1 }) hslot hp hrep1
          hrr2 (nodup_sub_append hnd hsub1 hrep1.nodup)
      · rw [hsplit1]
        simp
      · rw [hA1]
        simp
      · intro x hx
        rcases List.mem_append.1 hx with hx1 | hx2
        · simp [hsub1 x hx1]
        · simp [List.mem_cons.1 hx2]
      · intro pe pne hpe hpne
        rcases hpar with hnone | ⟨pe2, pne2, hpe2, hpeA, hpne2, hslot2⟩
        · rw [hpe] at hnone
          cases hnone
        · rw [hpe] at hpe2
          cases Option.some.inj hpe2
          rw [hpne2] at hpne
          obtain rfl : pne2 = pne := Option.some.inj hpne
          have hperca : pe ≠ rca := fun e => by
            apply hpeA
            rw [e]
            simp [hrcaAl]
          have hpepa : pe ≠ pa := by
            rcases hpaAla0 with hpaAl | rfl
            · intro e
              apply hpeA
              rw [e]
              simp [hpaAl]
            · intro e
              apply hpeA
              rw [e]
              simp
          rw [hh2]
          simp only [hset, if_neg hpepa, if_neg hperca]
          rw [hpne2]
          by_cases hc : (pne2.left == some a0) = true
          · rw [if_pos hc]
            have hpl : pne2.left = some a0 := by simpa using hc
            rw [← hpl]
          · rw [if_neg hc]
            have hpr2 : pne2.right = some a0 := by
              rcases hslot2 with hsl | hsr
              · exact absurd (by simp [hsl]) hc
              · exact hsr
            rw [← hpr2]
    · rcases List.mem_cons.1 hrest with rfl | haAr
      · -- spliced node is the region root: its left subtree is the sentinel
        rw [ha0] at hn
        cases Option.some.inj hn
        rw [hnl] at hl
        have htl : tl = .leaf := (hl.leaf_iff hls).1 hlsleaf
        subst htl
        have hAl : Al = [ls] := by
          cases hl with
          | leaf => rfl
        subst hAl
        rw [hnr] at hrr
        rcases hpar with hnone | ⟨pe, pne, hpe, hpeA, hpne, hslot⟩
        · rw [hp] at hnp
          rw [hnone] at hnp
          cases hnp
        · rw [hp, hpe] at hnp
          cases Option.some.inj hnp
          rw [hpne] at hpnn
          obtain rfl : pne = pnn := Option.some.inj hpnn
          have hrep2 : Rep h2 (some rca) par tr Ar := by
            rw [hh2, hpe]
            refine Rep.frame_set ?_ (fun hm => hpeA (by simp [hm]))
            exact hrr.reparent hnrc
          refine ⟨rca, tr, Ar, [], Ar, ?_, rfl, rfl, fun x hx => by simp [hx],
            ?_, ?_⟩
          · exact hrep2
          · intro e
            rw [hpe] at e
            cases e
          · intro pe2 pne2 hpe2 hpne2
            rw [hpe] at hpe2
            cases Option.some.inj hpe2
            rw [hpne] at hpne2
            obtain rfl : pne = pne2 := Option.some.inj hpne2
            rw [hh2]
            simp [hset]
      · -- spliced node inside the right subtree
        rw [hra] at hrr
        have hrmem : ra ∈ Ar := hrr.root_mem
        have hrcaAr : rca ∈ Ar := by
          obtain ⟨nb, hnb, hsh⟩ := hrr.mem_shape a haAr
          rw [hn] at hnb
          cases Option.some.inj hnb
          rcases hsh with ⟨e1, -, -⟩ | ⟨bl, br, e1, e2, e3, e4⟩
          · rw [hnl] at e1
            cases e1
          · rw [hnr] at e2
            cases Option.some.inj e2
            exact e4
        have hpaAra0 : pa ∈ Ar ∨ pa = a0 := by
          rcases hrr.parent_struct rfl haAr hn with ⟨-, hpp⟩ | hdeep
          · rw [hnp] at hpp
            cases Option.some.inj hpp
            exact Or.inr rfl
          · obtain ⟨pa2, -, -, -, -, -, -, -, hpp, hpamem, -⟩ := hdeep
            rw [hnp] at hpp
            cases Option.some.inj hpp
            exact Or.inl hpamem
        have hchildpar : ((some a0 : Option Nat) = none) ∨
            (∃ pe pne, (some a0 : Option Nat) = some pe ∧ pe ∉ Ar ∧
              h pe = some pne ∧ (pne.left = some ra ∨ pne.right = some ra)) :=
          Or.inr ⟨a0, q, rfl, ha0Ar, ha0, Or.inr hra⟩
        obtain ⟨r1, tr', Ar', u1, w1, hrep1, hsplit1, hA1, hsub1, -, hpcl1⟩ :=
          ihr hra hchildpar haAr hn hnl hls hlsleaf hnr hnrc hnp hpnn hh2
        have hlmem2 : la ∈ Al := by
          have hltmp := hl
          rw [hla] at hltmp
          exact hltmp.root_mem
        have hlara : la ≠ ra := fun e => hdisj la hlmem2 (e ▸ hrmem)
        have hslot := hpcl1 a0 q rfl ha0
        rw [show (q.left == some ra) = false by
          simp only [beq_eq_false_iff_ne, ne_eq, hla]
          intro e
          exact hlara (Option.some.inj e)] at hslot
        rw [if_neg (by simp)] at hslot
        have hl2 : Rep h2 q.left (some a0) tl Al := by
          refine hl.frame fun c hc => ?_
          have hcrca : c ≠ rca := fun e => hdisj c hc (e ▸ hrcaAr)
          have hcpa : c ≠ pa := by
            rcases hpaAra0 with hpaAr | rfl
            · exact fun e => hdisj c hc (e ▸ hpaAr)
            · exact fun e => ha0Al (e ▸ hc)
          simp [hh2, hset, hcrca, hcpa]
        refine ⟨a0, .node q.color tl q.key q.val tr', Al ++ a0 :: Ar',
          Al ++ a0 :: u1, w1, ?_, ?_, ?_, ?_, fun _ => rfl, ?_⟩
        · exact Rep.node (n := { q with right := some r1 }) hslot hp hl2
            hrep1 (nodup_sub_append_right hnd hsub1 hrep1.nodup)
        · rw [hsplit1]
          simp
        · rw [hA1]
          simp
        · intro x hx
          rcases List.mem_append.1 hx with hx1 | hx2
          · simp [hx1]
          · rcases List.mem_cons.1 hx2 with rfl | hx3
            · simp
            · simp [hsub1 x hx3]
        · intro pe pne hpe hpne
          rcases hpar with hnone | ⟨pe2, pne2, hpe2, hpeA, hpne2, hslot2⟩
          · rw [hpe] at hnone
            cases hnone
          · rw [hpe] at hpe2
            cases Option.some.inj hpe2
            rw [hpne2] at hpne
            obtain rfl : pne2 = pne := Option.some.inj hpne
            have hperca : pe ≠ rca := fun e => by
              apply hpeA
              rw [e]
              simp [hrcaAr]
            have hpepa : pe ≠ pa := by
              rcases hpaAra0 with hpaAr | rfl
              · intro e
                apply hpeA
                rw [e]
                simp [hpaAr]
              · intro e
                apply hpeA
                rw [e]
                simp
            rw [hh2]
            simp only [hset, if_neg hpepa, if_neg hperca]
            rw [hpne2]
            by_cases hc : (pne2.left == some a0) = true
            · rw [if_pos hc]
              have hpl : pne2.left = some a0 := by simpa using hc
              rw [← hpl]
            · rw [if_neg hc]
              have hpr2 : pne2.right = some a0 := by
                rcases hslot2 with hsl | hsr
                · exact absurd (by simp [hsl]) hc
                · exact hsr
              rw [← hpr2]

/-- Mirror of `spliceLeft_rep`: splicing out a region member whose right
child is a sentinel, promoting the left child. -/
theorem spliceRight_rep {κ ν : Type} {h : Heap κ ν} {p par : Option Nat}
    {t : Tree κ ν} {A : List Nat} (hrep : Rep h p par t A) :
    ∀ {r : Nat}, p = some r →
    ∀ {a rs lca pa : Nat} {n nrs nlc pnn : Node κ ν} {h2 : Heap κ ν},
    ((par = none) ∨
      (∃ pe pne, par = some pe ∧ pe ∉ A ∧ h pe = some pne ∧
        (pne.left = some r ∨ pne.right = some r))) →
    a ∈ A → h a = some n →
    n.right = some rs → h rs = some nrs → nrs.isLeaf = true →
    n.left = some lca → h lca = some nlc →
    n.parent = some pa → h pa = some pnn →
    h2 = hset (hset h lca { nlc with parent := some pa }) pa
      (if pnn.left == some a then { pnn with left := some lca }
       else { pnn with right := some lca }) →
    ∃ r' t' A' u w,
      Rep h2 (some r') par t' A' ∧
      A = u ++ a :: rs :: w ∧ A' = u ++ w ∧
      (∀ x ∈ A', x ∈ A) ∧
      (par = none → r' = r) ∧
      (∀ pe pne, par = some pe → h pe = some pne →
        h2 pe = some (if pne.left == some r then { pne with left := some r' }
                      else { pne with right := some r' })) := by
  induction hrep with
  | @leaf a0 par n0 ha0 k1 k2 k3 k4 =>
    intro r hpr a rs lca pa n nrs nlc pnn h2 hpar ha hn hnr hrs hrsleaf hnl
      hnlc hnp hpnn hh2
    cases Option.some.inj hpr
    simp only [List.mem_singleton] at ha
    subst ha
    rw [ha0] at hn
    cases Option.some.inj hn
    rw [k1] at hnl
    cases hnl
  | @node a0 par q tl tr Al Ar ha0 hp hl hrr hnd ihl ihr =>
    intro r hpr a rs lca pa n nrs nlc pnn h2 hpar ha hn hnr hrs hrsleaf hnl
      hnlc hnp hpnn hh2
    cases Option.some.inj hpr
    obtain ⟨ha0Al, ha0Ar, hndAl, hndAr, hdisj⟩ := nodup_split hnd
    obtain ⟨la, hla⟩ := hl.p_some
    obtain ⟨ra, hra⟩ := hrr.p_some
    rcases List.mem_append.1 ha with haAl | hrest
    · -- spliced node inside the left subtree
      rw [hla] at hl
      have hlmem : la ∈ Al := hl.root_mem
      have hlcaAl : lca ∈ Al := by
        obtain ⟨nb, hnb, hsh⟩ := hl.mem_shape a haAl
        rw [hn] at hnb
        cases Option.some.inj hnb
        rcases hsh with ⟨e1, -, -⟩ | ⟨bl, br, e1, e2, e3, e4⟩
        · rw [hnl] at e1
          cases e1
        · rw [hnl] at e1
          cases Option.some.inj e1
          exact e3
      have hpaAla0 : pa ∈ Al ∨ pa = a0 := by
        rcases hl.parent_struct rfl haAl hn with ⟨-, hpp⟩ | hdeep
        · rw [hnp] at hpp
          cases Option.some.inj hpp
          exact Or.inr rfl
        · obtain ⟨pa2, -, -, -, -, -, -, -, hpp, hpamem, -⟩ := hdeep
          rw [hnp] at hpp
          cases Option.some.inj hpp
          exact Or.inl hpamem
      have hchildpar : ((some a0 : Option Nat) = none) ∨
          (∃ pe pne, (some a0 : Option Nat) = some pe ∧ pe ∉ Al ∧
            h pe = some pne ∧ (pne.left = some la ∨ pne.right = some la)) :=
        Or.inr ⟨a0, q, rfl, ha0Al, ha0, Or.inl hla⟩
      obtain ⟨r1, tl', Al', u1, w1, hrep1, hsplit1, hA1, hsub1, -, hpcl1⟩ :=
        ihl hla hchildpar haAl hn hnr hrs hrsleaf hnl hnlc hnp hpnn hh2
      have hslot := hpcl1 a0 q rfl ha0
      rw [show (q.left == some la) = true by simp [hla]] at hslot
      rw [if_pos rfl] at hslot
      have hrr2 : Rep h2 q.right (some a0) tr Ar := by
        refine hrr.frame fun c hc => ?_
        have hclca : c ≠ lca := fun e => hdisj lca hlcaAl (e ▸ hc)
        have hcpa : c ≠ pa := by
          rcases hpaAla0 with hpaAl | rfl
          · exact fun e => hdisj pa hpaAl (e ▸ hc)
          · exact fun e => ha0Ar (e ▸ hc)
        simp [hh2, hset, hclca, hcpa]
      refine ⟨a0, .node q.color tl' q.key q.val tr, Al' ++ a0 :: Ar,
        u1, w1 ++ a0 :: Ar, ?_, ?_, ?_, ?_, fun _ => rfl, ?_⟩
      · exact Rep.node (n := { q with left := some r1 }) hslot hp hrep1
          hrr2 (nodup_sub_append hnd hsub1 hrep1.nodup)
      · rw [hsplit1]
        simp
      · rw [hA1]
        simp
      · intro x hx
        rcases List.mem_append.1 hx with hx1 | hx2
        · simp [hsub1 x hx1]
        · simp [List.mem_cons.1 hx2]
      · intro pe pne hpe hpne
        rcases hpar with hnone | ⟨pe2, pne2, hpe2, hpeA, hpne2, hslot2⟩
        · rw [hpe] at hnone
          cases hnone
        · rw [hpe] at hpe2
          cases Option.some.inj hpe2
          rw [hpne2] at hpne
          obtain rfl : pne2 = pne := Option.some.inj hpne
          have hpelca : pe ≠ lca := fun e => by
            apply hpeA
            rw [e]
            simp [hlcaAl]
          have hpepa : pe ≠ pa := by
            rcases hpaAla0 with hpaAl | rfl
            · intro e
              apply hpeA
              rw [e]
              simp [hpaAl]
            · intro e
              apply hpeA
              rw [e]
              simp
          rw [hh2]
          simp only [hset, if_neg hpepa, if_neg hpelca]
          rw [hpne2]
          by_cases hc : (pne2.left == some a0) = true
          · rw [if_pos hc]
            have hpl : pne2.left = some a0 := by simpa using hc
            rw [← hpl]
          · rw [if_neg hc]
            have hpr2 : pne2.right = some a0 := by
              rcases hslot2 with hsl | hsr
              · exact absurd (by simp [hsl]) hc
              · exact hsr
            rw [← hpr2]
    · rcases List.mem_cons.1 hrest with rfl | haAr
      · -- spliced node is the region root: its right subtree is the sentinel
        rw [ha0] at hn
        cases Option.some.inj hn
        rw [hnr] at hrr
        have htr : tr = .leaf := (hrr.leaf_iff hrs).1 hrsleaf
        subst htr
        have hAr : Ar = [rs] := by
          cases hrr with
          | leaf => rfl
        subst hAr
        rw [hnl] at hl
        rcases hpar with hnone | ⟨pe, pne, hpe, hpeA, hpne, hslot⟩
        · rw [hp] at hnp
          rw [hnone] at hnp
          cases hnp
        · rw [hp, hpe] at hnp
          cases Option.some.inj hnp
          rw [hpne] at hpnn
          obtain rfl : pne = pnn := Option.some.inj hpnn
          have hrep2 : Rep h2 (some lca) par tl Al := by
            rw [hh2, hpe]
            refine Rep.frame_set ?_ (fun hm => hpeA (by simp [hm]))
            exact hl.reparent hnlc
          refine ⟨lca, tl, Al, Al, [], ?_, rfl, by simp, fun x hx => by
            simp [hx], ?_, ?_⟩
          · exact hrep2
          · intro e
            rw [hpe] at e
            cases e
          · intro pe2 pne2 hpe2 hpne2
            rw [hpe] at hpe2
            cases Option.some.inj hpe2
            rw [hpne] at hpne2
            obtain rfl : pne = pne2 := Option.some.inj hpne2
            rw [hh2]
            simp [hset]
      · -- spliced node inside the right subtree
        rw [hra] at hrr
        have hrmem : ra ∈ Ar := hrr.root_mem
        have hlcaAr : lca ∈ Ar := by
          obtain ⟨nb, hnb, hsh⟩ := hrr.mem_shape a haAr
          rw [hn] at hnb
          cases Option.some.inj hnb
          rcases hsh with ⟨e1, -, -⟩ | ⟨bl, br, e1, e2, e3, e4⟩
          · rw [hnl] at e1
            cases e1
          · rw [hnl] at e1
            cases Option.some.inj e1
            exact e3
        have hpaAra0 : pa ∈ Ar ∨ pa = a0 := by
          rcases hrr.parent_struct rfl haAr hn with ⟨-, hpp⟩ | hdeep
          · rw [hnp] at hpp
            cases Option.some.inj hpp
            exact Or.inr rfl
          · obtain ⟨pa2, -, -, -, -, -, -, -, hpp, hpamem, -⟩ := hdeep
            rw [hnp] at hpp
            cases Option.some.inj hpp
            exact Or.inl hpamem
        have hchildpar : ((some a0 : Option Nat) = none) ∨
            (∃ pe pne, (some a0 : Option Nat) = some pe ∧ pe ∉ Ar ∧
              h pe = some pne ∧ (pne.left = some ra ∨ pne.right = some ra)) :=
          Or.inr ⟨a0, q, rfl, ha0Ar, ha0, Or.inr hra⟩
        obtain ⟨r1, tr', Ar', u1, w1, hrep1, hsplit1, hA1, hsub1, -, hpcl1⟩ :=
          ihr hra hchildpar haAr hn hnr hrs hrsleaf hnl hnlc hnp hpnn hh2
        have hlmem2 : la ∈ Al := by
          have hltmp := hl
          rw [hla] at hltmp
          exact hltmp.root_mem
        have hlara : la ≠ ra := fun e => hdisj la hlmem2 (e ▸ hrmem)
        have hslot := hpcl1 a0 q rfl ha0
        rw [show (q.left == some ra) = false by
          simp only [beq_eq_false_iff_ne, ne_eq, hla]
          intro e
          exact hlara (Option.some.inj e)] at hslot
        rw [if_neg (by simp)] at hslot
        have hl2 : Rep h2 q.left (some a0) tl Al := by
          refine hl.frame fun c hc => ?_
          have hclca : c ≠ lca := fun e => hdisj c hc (e ▸ hlcaAr)
          have hcpa : c ≠ pa := by
            rcases hpaAra0 with hpaAr | rfl
            · exact fun e => hdisj c hc (e ▸ hpaAr)
            · exact fun e => ha0Al (e ▸ hc)
          simp [hh2, hset, hclca, hcpa]
        refine ⟨a0, .node q.color tl q.key q.val tr', Al ++ a0 :: Ar',
          Al ++ a0 :: u1, w1, ?_, ?_, ?_, ?_, fun _ => rfl, ?_⟩
        · exact Rep.node (n := { q with right := some r1 }) hslot hp hl2
            hrep1 (nodup_sub_append_right hnd hsub1 hrep1.nodup)
        · rw [hsplit1]
          simp
        · rw [hA1]
          simp
        · intro x hx
          rcases List.mem_append.1 hx with hx1 | hx2
          · simp [hx1]
          · rcases List.mem_cons.1 hx2 with rfl | hx3
            · simp
            · simp [hsub1 x hx3]
        · intro pe pne hpe hpne
          rcases hpar with hnone | ⟨pe2, pne2, hpe2, hpeA, hpne2, hslot2⟩
          · rw [hpe] at hnone
            cases hnone
          · rw [hpe] at hpe2
            cases Option.some.inj hpe2
            rw [hpne2] at hpne
            obtain rfl : pne2 = pne := Option.some.inj hpne
            have hpelca : pe ≠ lca := fun e => by
              apply hpeA
              rw [e]
              simp [hlcaAr]
            have hpepa : pe ≠ pa := by
              rcases hpaAra0 with hpaAr | rfl
              · intro e
                apply hpeA
                rw [e]
                simp [hpaAr]
              · intro e
                apply hpeA
                rw [e]
                simp
            rw [hh2]
            simp only [hset, if_neg hpepa, if_neg hpelca]
            rw [hpne2]
            by_cases hc : (pne2.left == some a0) = true
            · rw [if_pos hc]
              have hpl : pne2.left = some a0 := by simpa using hc
              rw [← hpl]
            · rw [if_neg hc]
              have hpr2 : pne2.right = some a0 := by
                rcases hslot2 with hsl | hsr
                · exact absurd (by simp [hsl]) hc
                · exact hsr
              rw [← hpr2]

/-- From a region member with a non-nil parent pointer, extract the
parent's record and the sibling subregion, as `eraseSort`'s `getSibling`
sees them. -/
theorem sibling_setup {κ ν : Type} {m : Map κ ν} {R x : Nat} {t : Tree κ ν}
    {A : List Nat} (hrep : Rep m.heap (some R) none t A) (hx : x ∈ A)
    {nx : Node κ ν} (hnx : m.heap x = some nx)
    {pa0 : Nat} (hnxp : nx.parent = some pa0) :
    ∃ pnn0 ns tsib Asib sa0,
      pa0 ∈ A ∧ pa0 ≠ x ∧ m.heap pa0 = some pnn0 ∧
      Rep m.heap (some sa0) (some pa0) tsib Asib ∧
      (∀ y ∈ Asib, y ∈ A) ∧ x ∉ Asib ∧ pa0 ∉ Asib ∧
      m.heap sa0 = some ns ∧
      ((pnn0.left = some x ∧ pnn0.right = some sa0) ∨
       (pnn0.right = some x ∧ pnn0.left = some sa0 ∧
         pnn0.left ≠ some x)) := by
  rcases hrep.parent_struct rfl hx hnx with ⟨-, hpp⟩ | hdeep
  · rw [hnxp] at hpp
    cases hpp
  · obtain ⟨pa, pnn, cl, cr, tcl, tcr, Acl, Acr, hpp, hpamem, hpax, hpnn,
      hpnl, hpnr, hrepcl, hrepcr, hsubl, hsubr, hndp, hside⟩ := hdeep
    rw [hnxp] at hpp
    cases Option.some.inj hpp
    obtain ⟨hpaAcl, hpaAcr, hndAcl, hndAcr, hdisjp⟩ := nodup_split hndp
    rcases hside with rfl | rfl
    · -- x is the left child; the sibling is the right child
      obtain ⟨ns, hns⟩ := hrepcr.mem_alloc cr hrepcr.root_mem
      refine ⟨pnn, ns, tcr, Acr, cr, hpamem, hpax, hpnn, hrepcr, hsubr,
        ?_, hpaAcr, hns, Or.inl ⟨hpnl, hpnr⟩⟩
      exact fun hm => hdisjp cl hrepcl.root_mem hm
    · -- x is the right child; the sibling is the left child
      obtain ⟨ns, hns⟩ := hrepcl.mem_alloc cl hrepcl.root_mem
      refine ⟨pnn, ns, tcl, Acl, cl, hpamem, hpax, hpnn, hrepcl, hsubl,
        ?_, hpaAcl, hns, Or.inr ⟨hpnr, hpnl, ?_⟩⟩
      · exact fun hm => hdisjp cr hm hrepcr.root_mem
      · rw [hpnl]
        intro e
        exact hdisjp cl (hrepcl.root_mem)
          (Option.some.inj e ▸ hrepcr.root_mem)

theorem rotateLeft_tail_fault {κ ν : Type} {M0 : Map κ ν} {a b : Nat}
    {n nb : Node κ ν} (ha : M0.heap a = some n) (hb : M0.heap b = some nb)
    (hba : b ≠ a) (hbl : nb.left = none) (pp : Option Nat) :
    (do
      let (_, rcn) ← readP M0 (some b)
      let m := writeN M0 b { rcn with parent := pp }
      let (_, node) ← readP m (some a)
      let m := writeN m a { node with parent := some b }
      let (_, rcn) ← readP m (some b)
      let (_, node) ← readP m (some a)
      let m := writeN m a { node with right := rcn.left }
      let (nr, nrn) ← readP m rcn.left
      let m := writeN m nr { nrn with parent := some a }
      let (_, rcn) ← readP m (some b)
      pure (writeN m b { rcn with left := some a }) :
      Except Fault (Map κ ν)) = .error .nilDeref := by
  have c2 : (writeN M0 b { nb with parent := pp }).heap a = some n := by
    rw [writeN_heap_other (Ne.symm hba)]
    exact ha
  have c3 : (writeN (writeN M0 b { nb with parent := pp }) a
      { n with parent := some b }).heap b =
      some { nb with parent := pp } := by
    rw [writeN_heap_other hba]
    exact writeN_heap_same _ _ _
  have c4 : (writeN (writeN M0 b { nb with parent := pp }) a
      { n with parent := some b }).heap a =
      some { n with parent := some b } := writeN_heap_same _ _ _
  simp only [readP_some hb, ok_bind, readP_some c2, readP_some c3,
    readP_some c4]
  rw [hbl]
  simp only [readP_none, error_bind]

/-- `rotateLeft` at a node whose right child is a sentinel dereferences the
sentinel's nil left pointer (Go would panic at `rightChild.left.parent`). -/
theorem rotateLeft_sentinel {κ ν : Type} {m : Map κ ν} {a b : Nat}
    {n nb : Node κ ν}
    (hn : m.heap a = some n) (hnr : n.right = some b)
    (hb : m.heap b = some nb) (hbl : nb.left = none) (hba : b ≠ a)
    (hpar : n.parent = none ∨
      (∃ pa pn2, n.parent = some pa ∧ m.heap pa = some pn2 ∧ pa ≠ a ∧
        pa ≠ b)) :
    rotateLeft m (some a) = .error .nilDeref := by
  rcases hpar with hpn | ⟨pa, pn2, hpn, hpa, hpaa, hpab⟩
  · have hb2 : ({ m with root := b } : Map κ ν).heap b = some nb := hb
    have ha2 : ({ m with root := b } : Map κ ν).heap a = some n := hn
    simp only [rotateLeft, readP_some hn, ok_bind, hnr, readP_some hb, hpn,
      pure_eq_ok]
    exact rotateLeft_tail_fault ha2 hb2 hba hbl none
  · simp only [rotateLeft, readP_some hn, ok_bind, hnr, readP_some hb, hpn,
      readP_some hpa, pure_eq_ok]
    by_cases hc : (pn2.left == some a) = true
    · rw [if_pos hc]
      have hb2 : (writeN m pa { pn2 with left := some b }).heap b =
          some nb := by
        rw [writeN_heap_other (Ne.symm hpab)]
        exact hb
      have ha2 : (writeN m pa { pn2 with left := some b }).heap a =
          some n := by
        rw [writeN_heap_other (Ne.symm hpaa)]
        exact hn
      exact rotateLeft_tail_fault ha2 hb2 hba hbl (some pa)
    · rw [if_neg hc]
      have hb2 : (writeN m pa { pn2 with right := some b }).heap b =
          some nb := by
        rw [writeN_heap_other (Ne.symm hpab)]
        exact hb
      have ha2 : (writeN m pa { pn2 with right := some b }).heap a =
          some n := by
        rw [writeN_heap_other (Ne.symm hpaa)]
        exact hn
      exact rotateLeft_tail_fault ha2 hb2 hba hbl (some pa)

theorem rotateRight_tail_fault {κ ν : Type} {M0 : Map κ ν} {a b : Nat}
    {n nb : Node κ ν} (ha : M0.heap a = some n) (hb : M0.heap b = some nb)
    (hba : b ≠ a) (hbr : nb.right = none) (pp : Option Nat) :
    (do
      let (_, lcn) ← readP M0 (some b)
      let m := writeN M0 b { lcn with parent := pp }
      let (_, node) ← readP m (some a)
      let m := writeN m a { node with parent := some b }
      let (_, lcn) ← readP m (some b)
      let (_, node) ← readP m (some a)
      let m := writeN m a { node with left := lcn.right }
      let (nl, nln) ← readP m lcn.right
      let m := writeN m nl { nln with parent := some a }
      let (_, lcn) ← readP m (some b)
      pure (writeN m b { lcn with right := some a }) :
      Except Fault (Map κ ν)) = .error .nilDeref := by
  have c2 : (writeN M0 b { nb with parent := pp }).heap a = some n := by
    rw [writeN_heap_other (Ne.symm hba)]
    exact ha
  have c3 : (writeN (writeN M0 b { nb with parent := pp }) a
      { n with parent := some b }).heap b =
      some { nb with parent := pp } := by
    rw [writeN_heap_other hba]
    exact writeN_heap_same _ _ _
  have c4 : (writeN (writeN M0 b { nb with parent := pp }) a
      { n with parent := some b }).heap a =
      some { n with parent := some b } := writeN_heap_same _ _ _
  simp only [readP_some hb, ok_bind, readP_some c2, readP_some c3,
    readP_some c4]
  rw [hbr]
  simp only [readP_none, error_bind]

/-- Mirror of `rotateLeft_sentinel` for `rotateRight`. -/
theorem rotateRight_sentinel {κ ν : Type} {m : Map κ ν} {a b : Nat}
    {n nb : Node κ ν}
    (hn : m.heap a = some n) (hnl : n.left = some b)
    (hb : m.heap b = some nb) (hbr : nb.right = none) (hba : b ≠ a)
    (hpar : n.parent = none ∨
      (∃ pa pn2, n.parent = some pa ∧ m.heap pa = some pn2 ∧ pa ≠ a ∧
        pa ≠ b)) :
    rotateRight m (some a) = .error .nilDeref := by
  rcases hpar with hpn | ⟨pa, pn2, hpn, hpa, hpaa, hpab⟩
  · have hb2 : ({ m with root := b } : Map κ ν).heap b = some nb := hb
    have ha2 : ({ m with root := b } : Map κ ν).heap a = some n := hn
    simp only [rotateRight, readP_some hn, ok_bind, hnl, readP_some hb, hpn,
      pure_eq_ok]
    exact rotateRight_tail_fault ha2 hb2 hba hbr none
  · simp only [rotateRight, readP_some hn, ok_bind, hnl, readP_some hb, hpn,
      readP_some hpa, pure_eq_ok]
    by_cases hc : (pn2.left == some a) = true
    · rw [if_pos hc]
      have hb2 : (writeN m pa { pn2 with left := some b }).heap b =
          some nb := by
        rw [writeN_heap_other (Ne.symm hpab)]
        exact hb
      have ha2 : (writeN m pa { pn2 with left := some b }).heap a =
          some n := by
        rw [writeN_heap_other (Ne.symm hpaa)]
        exact hn
      exact rotateRight_tail_fault ha2 hb2 hba hbr (some pa)
    · rw [if_neg hc]
      have hb2 : (writeN m pa { pn2 with right := some b }).heap b =
          some nb := by
        rw [writeN_heap_other (Ne.symm hpab)]
        exact hb
      have ha2 : (writeN m pa { pn2 with right := some b }).heap a =
          some n := by
        rw [writeN_heap_other (Ne.symm hpaa)]
        exact hn
      exact rotateRight_tail_fault ha2 hb2 hba hbr (some pa)

/-- The terminal segment of the deletion fixup: recolor the sibling to the
parent's color, blacken the parent and the sibling's outer child, and
rotate at the parent.  Conditioned on returning without a fault, the region
keeps its address list and its in-order sequence. -/
theorem eraseSort_final {κ ν : Type} {m : Map κ ν} {x R sa0 pa0 : Nat}
    {t tsib : Tree κ ν} {A Asib : List Nat}
    {nx pnn0 ns : Node κ ν} {m2 : Map κ ν}
    (hrep : Rep m.heap (some R) none t A) (hrootR : m.root = R)
    (hx : x ∈ A) (hnx : m.heap x = some nx) (hnxp : nx.parent = some pa0)
    (hpa : pa0 ∈ A) (hpax : pa0 ≠ x) (hpnn : m.heap pa0 = some pnn0)
    (hsib : Rep m.heap (some sa0) (some pa0) tsib Asib)
    (hsub : ∀ y ∈ Asib, y ∈ A) (hxs : x ∉ Asib) (hpas : pa0 ∉ Asib)
    (hnsa : m.heap sa0 = some ns)
    (hside : (pnn0.left = some x ∧ pnn0.right = some sa0) ∨
             (pnn0.right = some x ∧ pnn0.left = some sa0 ∧
               pnn0.left ≠ some x))
    (heq : (do
        let (sa, sn) ← readP m (some sa0)
        let (_, node) ← readP m (some x)
        let (pa2, pn) ← readP m node.parent
        let m := writeN m sa { sn with color := pn.color }
        let (_, pn) ← readP m (some pa2)
        let m := writeN m pa2 { pn with color := BLACK }
        let (_, node) ← readP m (some x)
        if ← isLeftN m x node then do
          let (_, sn) ← readP m (some sa)
          let (sra, srn) ← readP m sn.right
          let m := writeN m sra { srn with color := BLACK }
          let (_, node) ← readP m (some x)
          rotateLeft m node.parent
        else do
          let (_, sn) ← readP m (some sa)
          let (sla, sln) ← readP m sn.left
          let m := writeN m sla { sln with color := BLACK }
          let (_, node) ← readP m (some x)
          rotateRight m node.parent : Except Fault (Map κ ν)) = .ok m2) :
    ∃ t2, Rep m2.heap (some m2.root) none t2 A ∧ t2.inorder = t.inorder ∧
      (∀ c, c ∉ A → m2.heap c = m.heap c) ∧ m2.size = m.size ∧
      m2.next = m.next ∧ m2.compareFunc = m.compareFunc := by
  have hsamem : sa0 ∈ Asib := hsib.root_mem
  have hsax : sa0 ≠ x := fun e => hxs (e ▸ hsamem)
  have hsapa : sa0 ≠ pa0 := fun e => hpas (e ▸ hsamem)
  have hsaA : sa0 ∈ A := hsub sa0 hsamem
  have e1 : (writeN m sa0 { ns with color := pnn0.color }).heap pa0 =
      some pnn0 := by
    rw [writeN_heap_other (Ne.symm hsapa)]
    exact hpnn
  have e2 : (writeN (writeN m sa0 { ns with color := pnn0.color }) pa0
      { pnn0 with color := BLACK }).heap x = some nx := by
    rw [writeN_heap_other (Ne.symm hpax), writeN_heap_other (Ne.symm hsax)]
    exact hnx
  have e3 : (writeN (writeN m sa0 { ns with color := pnn0.color }) pa0
      { pnn0 with color := BLACK }).heap pa0 =
      some { pnn0 with color := BLACK } := writeN_heap_same _ _ _
  have e4 : (writeN (writeN m sa0 { ns with color := pnn0.color }) pa0
      { pnn0 with color := BLACK }).heap sa0 =
      some { ns with color := pnn0.color } := by
    rw [writeN_heap_other hsapa]
    exact writeN_heap_same _ _ _
  have p1 : ({ pnn0 with color := BLACK } : Node κ ν).left = pnn0.left := rfl
  have p3 : ({ ns with color := pnn0.color } : Node κ ν).right =
    ns.right := rfl
  have p4 : ({ ns with color := pnn0.color } : Node κ ν).left = ns.left := rfl
  cases hsib with
  | @leaf _ _ nn hb k1 k2 k3 k4 =>
    -- sentinel sibling: reading either of its children faults, so a
    -- successful run never reaches this state
    have hid : nn = ns := Option.some.inj (hb.symm.trans hnsa)
    rw [hid] at k1 k2
    have er : readP (writeN (writeN m sa0
        { ns with color := pnn0.color }) pa0
        { pnn0 with color := BLACK }) ns.right =
        (.error .nilDeref : Except Fault (Nat × Node κ ν)) := by
      rw [k2]
      rfl
    have el : readP (writeN (writeN m sa0
        { ns with color := pnn0.color }) pa0
        { pnn0 with color := BLACK }) ns.left =
        (.error .nilDeref : Except Fault (Nat × Node κ ν)) := by
      rw [k1]
      rfl
    by_cases hc : (pnn0.left == some x) = true
    · have hbad : (Except.error Fault.nilDeref : Except Fault (Map κ ν)) =
          .ok m2 := by
        rw [← heq]
        simp only [readP_some hnsa, ok_bind, readP_some hnx, hnxp,
          readP_some hpnn, pure_eq_ok, readP_some e1, readP_some e2,
          isLeftN, readP_some e3, p1, hc, if_true, readP_some e4, p3, er,
          error_bind]
      cases hbad
    · have hbad : (Except.error Fault.nilDeref : Except Fault (Map κ ν)) =
          .ok m2 := by
        rw [← heq]
        simp only [readP_some hnsa, ok_bind, readP_some hnx, hnxp,
          readP_some hpnn, pure_eq_ok, readP_some e1, readP_some e2,
          isLeftN, readP_some e3, p1, hc, Bool.false_eq_true, if_false,
          readP_some e4, p4, el, error_bind]
      cases hbad
  | @node _ _ ns2 tls trs Als Ars hb hp2 hl2 hrr2 hnd2 =>
    have hid : ns2 = ns := Option.some.inj (hb.symm.trans hnsa)
    rw [hid] at hl2 hrr2
    obtain ⟨hsaAls, hsaArs, hndAls, hndArs, hdisjs⟩ := nodup_split hnd2
    obtain ⟨sla, hsla⟩ := hl2.p_some
    obtain ⟨sra, hsra⟩ := hrr2.p_some
    have hlive : ns.isLeaf = false := by simp [Node.isLeaf, hsla]
    obtain ⟨t1, hrep1, hio1⟩ := hrep.recolor (q := pnn0.color) hsaA hnsa
      (Or.inr hlive)
    have hrep1h : Rep (writeN m sa0 { ns with color := pnn0.color }).heap
        (some R) none t1 A := hrep1
    obtain ⟨t2x, hrep2, hio2⟩ := hrep1h.recolor (q := BLACK) hpa e1
      (Or.inl rfl)
    have hrep2h : Rep (writeN (writeN m sa0
        { ns with color := pnn0.color }) pa0
        { pnn0 with color := BLACK }).heap (some R) none t2x A := hrep2
    have hl2m := hl2
    rw [hsla] at hl2m
    have hrr2m := hrr2
    rw [hsra] at hrr2m
    rcases hside with ⟨hL, hRr⟩ | ⟨hRx, hLs, hLne⟩
    · -- x is the left child: blacken the sibling's right child, rotate left
      have hbt : (pnn0.left == some x) = true := by simp [hL]
      have hsraArs : sra ∈ Ars := hrr2m.root_mem
      have hsraAsib : sra ∈ Als ++ sa0 :: Ars := by simp [hsraArs]
      have hsrasa : sra ≠ sa0 := fun e => hsaArs (e ▸ hsraArs)
      have hsrax : sra ≠ x := fun e => hxs (e ▸ hsraAsib)
      have hsrapa : sra ≠ pa0 := fun e => hpas (e ▸ hsraAsib)
      obtain ⟨srn, hsrn⟩ := hrr2m.mem_alloc sra hsraArs
      have e5 : (writeN (writeN m sa0 { ns with color := pnn0.color }) pa0
          { pnn0 with color := BLACK }).heap sra = some srn := by
        rw [writeN_heap_other hsrapa, writeN_heap_other hsrasa]
        exact hsrn
      have e6 : (writeN (writeN (writeN m sa0
          { ns with color := pnn0.color }) pa0
          { pnn0 with color := BLACK }) sra
          { srn with color := BLACK }).heap x = some nx := by
        rw [writeN_heap_other (Ne.symm hsrax)]
        exact e2
      have e5r : readP (writeN (writeN m sa0
          { ns with color := pnn0.color }) pa0
          { pnn0 with color := BLACK }) ns.right = .ok (sra, srn) := by
        have h0 := readP_some e5
        rw [← hsra] at h0
        exact h0
      obtain ⟨t3, hrep3, hio3⟩ := hrep2h.recolor (q := BLACK)
        (hsub sra hsraAsib) e5 (Or.inl rfl)
      have hrep3h : Rep (writeN (writeN (writeN m sa0
          { ns with color := pnn0.color }) pa0
          { pnn0 with color := BLACK }) sra
          { srn with color := BLACK }).heap (some R) none t3 A := hrep3
      have e7 : (writeN (writeN (writeN m sa0
          { ns with color := pnn0.color }) pa0
          { pnn0 with color := BLACK }) sra
          { srn with color := BLACK }).heap pa0 =
          some { pnn0 with color := BLACK } := by
        rw [writeN_heap_other (Ne.symm hsrapa)]
        exact e3
      have e8 : (writeN (writeN (writeN m sa0
          { ns with color := pnn0.color }) pa0
          { pnn0 with color := BLACK }) sra
          { srn with color := BLACK }).heap sa0 =
          some { ns with color := pnn0.color } := by
        rw [writeN_heap_other (Ne.symm hsrasa)]
        exact e4
      obtain ⟨m4, r4, t4, heqrot, hrep4, hio4, hframe4, hroot4, -, hsz4,
          hnx4, hcm4⟩ :=
        rotateLeft_rep hrep3h rfl (Or.inl ⟨rfl, hrootR⟩) hpa e7
          (show ({ pnn0 with color := BLACK } : Node κ ν).right = some sa0
            from hRr) e8
          (by simp [Node.isLeaf, p4, hsla])
      have hm4 : (Except.ok m4 : Except Fault (Map κ ν)) = .ok m2 := by
        rw [← heq]
        simp only [readP_some hnsa, ok_bind, readP_some hnx, hnxp,
          readP_some hpnn, pure_eq_ok, readP_some e1, readP_some e2,
          isLeftN, readP_some e3, p1, hbt, if_true, readP_some e4, p3,
          e5r, readP_some e6, heqrot]
      obtain rfl : m4 = m2 := Except.ok.inj hm4
      refine ⟨t4, ?_, ?_, ?_, ?_, ?_, ?_⟩
      · rw [hroot4 rfl]
        exact hrep4
      · rw [hio4, hio3, hio2, hio1]
      · intro c hc
        have hc1 : c ≠ sa0 := fun e => hc (e ▸ hsaA)
        have hc2 : c ≠ pa0 := fun e => hc (e ▸ hpa)
        have hc3 : c ≠ sra := fun e => hc (e ▸ hsub sra hsraAsib)
        rw [hframe4 c hc (by simp), writeN_heap_other hc3,
          writeN_heap_other hc2, writeN_heap_other hc1]
      · rw [hsz4]
        rfl
      · rw [hnx4]
        rfl
      · rw [hcm4]
        rfl
    · -- x is the right child: blacken the sibling's left child, rotate right
      have hbfn : (pnn0.left == some x) = false := by simp [hLne]
      have hslaAls : sla ∈ Als := hl2m.root_mem
      have hslaAsib : sla ∈ Als ++ sa0 :: Ars := by simp [hslaAls]
      have hslasa : sla ≠ sa0 := fun e => hsaAls (e ▸ hslaAls)
      have hslax : sla ≠ x := fun e => hxs (e ▸ hslaAsib)
      have hslapa : sla ≠ pa0 := fun e => hpas (e ▸ hslaAsib)
      obtain ⟨sln, hsln⟩ := hl2m.mem_alloc sla hslaAls
      have e5 : (writeN (writeN m sa0 { ns with color := pnn0.color }) pa0
          { pnn0 with color := BLACK }).heap sla = some sln := by
        rw [writeN_heap_other hslapa, writeN_heap_other hslasa]
        exact hsln
      have e6 : (writeN (writeN (writeN m sa0
          { ns with color := pnn0.color }) pa0
          { pnn0 with color := BLACK }) sla
          { sln with color := BLACK }).heap x = some nx := by
        rw [writeN_heap_other (Ne.symm hslax)]
        exact e2
      have e5r : readP (writeN (writeN m sa0
          { ns with color := pnn0.color }) pa0
          { pnn0 with color := BLACK }) ns.left = .ok (sla, sln) := by
        have h0 := readP_some e5
        rw [← hsla] at h0
        exact h0
      obtain ⟨t3, hrep3, hio3⟩ := hrep2h.recolor (q := BLACK)
        (hsub sla hslaAsib) e5 (Or.inl rfl)
      have hrep3h : Rep (writeN (writeN (writeN m sa0
          { ns with color := pnn0.color }) pa0
          { pnn0 with color := BLACK }) sla
          { sln with color := BLACK }).heap (some R) none t3 A := hrep3
      have e7 : (writeN (writeN (writeN m sa0
          { ns with color := pnn0.color }) pa0
          { pnn0 with color := BLACK }) sla
          { sln with color := BLACK }).heap pa0 =
          some { pnn0 with color := BLACK } := by
        rw [writeN_heap_other (Ne.symm hslapa)]
        exact e3
      have e8 : (writeN (writeN (writeN m sa0
          { ns with color := pnn0.color }) pa0
          { pnn0 with color := BLACK }) sla
          { sln with color := BLACK }).heap sa0 =
          some { ns with color := pnn0.color } := by
        rw [writeN_heap_other (Ne.symm hslasa)]
        exact e4
      obtain ⟨m4, r4, t4, heqrot, hrep4, hio4, hframe4, hroot4, -, hsz4,
          hnx4, hcm4⟩ :=
        rotateRight_rep hrep3h rfl (Or.inl ⟨rfl, hrootR⟩) hpa e7
          (show ({ pnn0 with color := BLACK } : Node κ ν).left = some sa0
            from hLs) e8
          (by simp [Node.isLeaf, p3, hsra])
      have hm4 : (Except.ok m4 : Except Fault (Map κ ν)) = .ok m2 := by
        rw [← heq]
        simp only [readP_some hnsa, ok_bind, readP_some hnx, hnxp,
          readP_some hpnn, pure_eq_ok, readP_some e1, readP_some e2,
          isLeftN, readP_some e3, p1, hbfn, Bool.false_eq_true, if_false,
          readP_some e4, p4, e5r, readP_some e6, heqrot]
      obtain rfl : m4 = m2 := Except.ok.inj hm4
      refine ⟨t4, ?_, ?_, ?_, ?_, ?_, ?_⟩
      · rw [hroot4 rfl]
        exact hrep4
      · rw [hio4, hio3, hio2, hio1]
      · intro c hc
        have hc1 : c ≠ sa0 := fun e => hc (e ▸ hsaA)
        have hc2 : c ≠ pa0 := fun e => hc (e ▸ hpa)
        have hc3 : c ≠ sla := fun e => hc (e ▸ hsub sla hslaAsib)
        rw [hframe4 c hc (by simp), writeN_heap_other hc3,
          writeN_heap_other hc2, writeN_heap_other hc1]
      · rw [hsz4]
        rfl
      · rw [hnx4]
        rfl
      · rw [hcm4]
        rfl

/-- The deletion fixup from its second conditional block on: if the node is
a right child and the sibling's left child is black, pre-rotate at the
sibling; then run the terminal segment.  Conditioned on returning without a
fault, the region keeps its address list and its in-order sequence. -/
theorem eraseSort_tail2 {κ ν : Type} {m : Map κ ν} {x R sa0 pa0 : Nat}
    {t tsib : Tree κ ν} {A Asib : List Nat}
    {nx pnn0 ns : Node κ ν} {m2 : Map κ ν}
    (hrep : Rep m.heap (some R) none t A) (hrootR : m.root = R)
    (hx : x ∈ A) (hnx : m.heap x = some nx) (hnxp : nx.parent = some pa0)
    (hpa : pa0 ∈ A) (hpax : pa0 ≠ x) (hpnn : m.heap pa0 = some pnn0)
    (hsib : Rep m.heap (some sa0) (some pa0) tsib Asib)
    (hsub : ∀ y ∈ Asib, y ∈ A) (hxs : x ∉ Asib) (hpas : pa0 ∉ Asib)
    (hnsa : m.heap sa0 = some ns)
    (hside : (pnn0.left = some x ∧ pnn0.right = some sa0) ∨
             (pnn0.right = some x ∧ pnn0.left = some sa0 ∧
               pnn0.left ≠ some x))
    (heq : (do
        let (siblingP, m) ← do
          let (_, node) ← readP m (some x)
          let (sa, sn) ← readP m (some sa0)
          if (← isRightN m x node) && (← isBlackP m sn.left) then do
            let m := writeN m sa { sn with color := RED }
            let (_, sn) ← readP m (some sa)
            let (sra, srn) ← readP m sn.right
            let m := writeN m sra { srn with color := BLACK }
            let m ← rotateLeft m (some sa)
            let (_, node) ← readP m (some x)
            let siblingP ← getSibling m x node
            pure (siblingP, m)
          else
            pure ((some sa0 : Option Nat), m)
        let (sa, sn) ← readP m siblingP
        let (_, node) ← readP m (some x)
        let (pa2, pn) ← readP m node.parent
        let m := writeN m sa { sn with color := pn.color }
        let (_, pn) ← readP m (some pa2)
        let m := writeN m pa2 { pn with color := BLACK }
        let (_, node) ← readP m (some x)
        if ← isLeftN m x node then do
          let (_, sn) ← readP m (some sa)
          let (sra, srn) ← readP m sn.right
          let m := writeN m sra { srn with color := BLACK }
          let (_, node) ← readP m (some x)
          rotateLeft m node.parent
        else do
          let (_, sn) ← readP m (some sa)
          let (sla, sln) ← readP m sn.left
          let m := writeN m sla { sln with color := BLACK }
          let (_, node) ← readP m (some x)
          rotateRight m node.parent : Except Fault (Map κ ν)) = .ok m2) :
    ∃ t2, Rep m2.heap (some m2.root) none t2 A ∧ t2.inorder = t.inorder ∧
      (∀ c, c ∉ A → m2.heap c = m.heap c) ∧ m2.size = m.size ∧
      m2.next = m.next ∧ m2.compareFunc = m.compareFunc := by
  have hsamem : sa0 ∈ Asib := hsib.root_mem
  have hsax : sa0 ≠ x := fun e => hxs (e ▸ hsamem)
  have hsapa : sa0 ≠ pa0 := fun e => hpas (e ▸ hsamem)
  have hsaA : sa0 ∈ A := hsub sa0 hsamem
  have hcondR : isRightN m x nx = .ok (pnn0.right == some x) := by
    simp [isRightN, hnxp, readP_some hpnn]
  cases hsib with
  | @leaf _ _ nn hb k1 k2 k3 k4 =>
    have hid : nn = ns := Option.some.inj (hb.symm.trans hnsa)
    rw [hid] at k1 k2
    have hcondB : isBlackP m ns.left =
        (.error .nilDeref : Except Fault Bool) := by
      simp [isBlackP, k1]
    have hbad : (Except.error Fault.nilDeref : Except Fault (Map κ ν)) =
        .ok m2 := by
      rw [← heq]
      simp only [readP_some hnx, ok_bind, readP_some hnsa, hcondR,
        hcondB, error_bind]
    cases hbad
  | @node _ _ ns2 tls trs Als Ars hb hp2 hl2 hrr2 hnd2 =>
    have hid : ns2 = ns := Option.some.inj (hb.symm.trans hnsa)
    rw [hid] at hp2 hl2 hrr2
    obtain ⟨hsaAls, hsaArs, hndAls, hndArs, hdisjs⟩ := nodup_split hnd2
    obtain ⟨sla, hsla⟩ := hl2.p_some
    obtain ⟨sra, hsra⟩ := hrr2.p_some
    have hl2m := hl2
    rw [hsla] at hl2m
    have hrr2m := hrr2
    rw [hsra] at hrr2m
    obtain ⟨sln0, hsln0⟩ := hl2m.mem_alloc sla hl2m.root_mem
    have hcondB : isBlackP m ns.left = .ok sln0.isBlack := by
      rw [hsla]
      simp [isBlackP, readP_some hsln0]
    rcases hside with ⟨hL, hRr⟩ | ⟨hRx, hLs, hLne⟩
    · -- the node is a left child: the pre-rotation does not fire
      have hb1 : (pnn0.right == some x) = false := by
        rw [hRr]
        simp [hsax]
      refine eraseSort_final hrep hrootR hx hnx hnxp hpa hpax hpnn
        (Rep.node hnsa hp2 hl2 hrr2 hnd2) hsub hxs hpas hnsa
        (Or.inl ⟨hL, hRr⟩) ?_
      rw [← heq]
      simp only [readP_some hnx, ok_bind, readP_some hnsa, hcondR, hcondB,
        hb1, Bool.false_and, Bool.false_eq_true, if_false, pure_eq_ok]
    · -- the node is a right child
      have hb1 : (pnn0.right == some x) = true := by
        rw [hRx]
        simp
      by_cases hblk : sln0.isBlack = true
      · -- pre-rotation fires: recolor, then rotate left at the sibling
        have f1 : (writeN m sa0 { ns with color := RED }).heap sa0 =
            some { ns with color := RED } := writeN_heap_same _ _ _
        obtain ⟨srn0, hsrn0⟩ := hrr2m.mem_alloc sra hrr2m.root_mem
        have hsraArs : sra ∈ Ars := hrr2m.root_mem
        have hsraAsib : sra ∈ Als ++ sa0 :: Ars := by simp [hsraArs]
        have hsrasa : sra ≠ sa0 := fun e => hsaArs (e ▸ hsraArs)
        have hsrax : sra ≠ x := fun e => hxs (e ▸ hsraAsib)
        have hsrapa : sra ≠ pa0 := fun e => hpas (e ▸ hsraAsib)
        have f2 : (writeN m sa0 { ns with color := RED }).heap sra =
            some srn0 := by
          rw [writeN_heap_other hsrasa]
          exact hsrn0
        have p5 : ({ ns with color := RED } : Node κ ν).right =
            ns.right := rfl
        have f2r : readP (writeN m sa0 { ns with color := RED }) ns.right =
            .ok (sra, srn0) := by
          have h0 := readP_some f2
          rw [← hsra] at h0
          exact h0
        have g1 : (writeN (writeN m sa0 { ns with color := RED }) sra
            { srn0 with color := BLACK }).heap sa0 =
            some { ns with color := RED } := by
          rw [writeN_heap_other (Ne.symm hsrasa)]
          exact f1
        have g2 : (writeN (writeN m sa0 { ns with color := RED }) sra
            { srn0 with color := BLACK }).heap sra =
            some { srn0 with color := BLACK } := writeN_heap_same _ _ _
        have g3 : (writeN (writeN m sa0 { ns with color := RED }) sra
            { srn0 with color := BLACK }).heap pa0 = some pnn0 := by
          rw [writeN_heap_other (Ne.symm hsrapa),
            writeN_heap_other (Ne.symm hsapa)]
          exact hpnn
        cases hrr2m with
        | @leaf _ _ nn0 hbs ks1 ks2 ks3 ks4 =>
          -- the promoted child is a sentinel: the rotation faults
          have hid2 : nn0 = srn0 := Option.some.inj (hbs.symm.trans hsrn0)
          rw [hid2] at ks1 ks2
          have hrot : rotateLeft (writeN (writeN m sa0
              { ns with color := RED }) sra
              { srn0 with color := BLACK }) (some sa0) =
              .error .nilDeref :=
            rotateLeft_sentinel g1
              (show ({ ns with color := RED } : Node κ ν).right = some sra
                from hsra) g2
              (show ({ srn0 with color := BLACK } : Node κ ν).left = none
                from ks1) hsrasa
              (Or.inr ⟨pa0, pnn0,
                show ({ ns with color := RED } : Node κ ν).parent =
                  some pa0 from hp2, g3, Ne.symm hsapa, Ne.symm hsrapa⟩)
          have hbad : (Except.error Fault.nilDeref :
              Except Fault (Map κ ν)) = .ok m2 := by
            rw [← heq]
            simp only [readP_some hnx, ok_bind, readP_some hnsa, hcondR,
              hcondB, hb1, Bool.true_and, hblk, if_true, readP_some f1,
              p5, f2r, hrot, error_bind]
          cases hbad
        | @node _ _ nn0 tls2 trs2 Als2 Ars2 hbs hps2 hls2 hrs2 hnds2 =>
          have hid2 : nn0 = srn0 := Option.some.inj (hbs.symm.trans hsrn0)
          rw [hid2] at hls2
          obtain ⟨sla2, hsla2⟩ := hls2.p_some
          have hnslive : ns.isLeaf = false := by simp [Node.isLeaf, hsla]
          obtain ⟨t1, hrep1, hio1⟩ := hrep.recolor (q := RED) hsaA hnsa
            (Or.inr hnslive)
          have hrep1h : Rep (writeN m sa0
              { ns with color := RED }).heap (some R) none t1 A := hrep1
          obtain ⟨t2c, hrep2c, hio2c⟩ := hrep1h.recolor (q := BLACK)
            (hsub sra hsraAsib) f2 (Or.inl rfl)
          have hrep2h : Rep (writeN (writeN m sa0
              { ns with color := RED }) sra
              { srn0 with color := BLACK }).heap (some R) none t2c A :=
            hrep2c
          obtain ⟨m3, r3, t3, heqrot, hrep3, hio3, hframe3, hroot3, -,
              hsz3, hnxt3, hcm3⟩ :=
            rotateLeft_rep hrep2h rfl (Or.inl ⟨rfl, hrootR⟩) hsaA g1
              (show ({ ns with color := RED } : Node κ ν).right = some sra
                from hsra) g2
              (by simp [Node.isLeaf, hsla2])
          obtain ⟨nx3, hnx3⟩ := hrep3.mem_alloc x hx
          cases hpp3 : nx3.parent with
          | none =>
            have hgs : getSibling m3 x nx3 =
                (.error .nilDeref : Except Fault (Option Nat)) := by
              simp [getSibling, hpp3]
            have hbad : (Except.error Fault.nilDeref :
                Except Fault (Map κ ν)) = .ok m2 := by
              rw [← heq]
              simp only [readP_some hnx, ok_bind, readP_some hnsa, hcondR,
                hcondB, hb1, Bool.true_and, hblk, if_true, readP_some f1,
                p5, f2r, heqrot, readP_some hnx3, hgs, error_bind]
            cases hbad
          | some pa3 =>
            obtain ⟨pnn3, ns3, tsib3, Asib3, sa3, hpa3, hpax3, hpnn3,
              hsib3, hsub3, hxs3, hpas3, hnsa3, hside3⟩ :=
              sibling_setup hrep3 hx hnx3 hpp3
            have hsax3 : sa3 ≠ x := fun e => hxs3 (e ▸ hsib3.root_mem)
            have hgs : getSibling m3 x nx3 = .ok (some sa3) := by
              rcases hside3 with ⟨hL3, hR3⟩ | ⟨hR3, hL3, hLne3⟩
              · simp [getSibling, hpp3, readP_some hpnn3, hL3, hR3]
              · simp [getSibling, hpp3, readP_some hpnn3, hL3, hsax3]
            have hrootR3 : m3.root = r3 := hroot3 rfl
            have hfin := eraseSort_final hrep3 hrootR3 hx hnx3 hpp3 hpa3
              hpax3 hpnn3 hsib3 hsub3 hxs3 hpas3 hnsa3 hside3 (by
                rw [← heq]
                simp only [readP_some hnx, ok_bind, readP_some hnsa,
                  hcondR, hcondB, hb1, Bool.true_and, hblk, if_true,
                  readP_some f1, p5, f2r, heqrot, readP_some hnx3, hgs,
                  pure_eq_ok])
            obtain ⟨t4, hrep4, hio4, hframe4, hsz4, hnxt4, hcm4⟩ := hfin
            refine ⟨t4, hrep4, ?_, ?_, ?_, ?_, ?_⟩
            · rw [hio4, hio3, hio2c, hio1]
            · intro c hc
              have hc1 : c ≠ sa0 := fun e => hc (e ▸ hsaA)
              have hc2 : c ≠ sra := fun e => hc (e ▸ hsub sra hsraAsib)
              rw [hframe4 c hc, hframe3 c hc (by simp),
                writeN_heap_other hc2, writeN_heap_other hc1]
            · rw [hsz4, hsz3]
              rfl
            · rw [hnxt4, hnxt3]
              rfl
            · rw [hcm4, hcm3]
              rfl
      · -- pre-rotation does not fire
        have hblkf : sln0.isBlack = false := by
          cases h2 : sln0.isBlack
          · rfl
          · exact absurd h2 hblk
        refine eraseSort_final hrep hrootR hx hnx hnxp hpa hpax hpnn
          (Rep.node hnsa hp2 hl2 hrr2 hnd2) hsub hxs hpas hnsa
          (Or.inr ⟨hRx, hLs, hLne⟩) ?_
        rw [← heq]
        simp only [readP_some hnx, ok_bind, readP_some hnsa, hcondR,
          hcondB, hb1, Bool.true_and, hblkf, Bool.false_eq_true, if_false,
          pure_eq_ok]

/-- The deletion fixup from its first conditional block on: if the node is
a left child and the sibling's right child is black, pre-rotate at the
sibling; then run the rest of the fixup.  Conditioned on returning without
a fault, the region keeps its address list and its in-order sequence. -/
theorem eraseSort_tail1 {κ ν : Type} {m : Map κ ν} {x R sa0 pa0 : Nat}
    {t tsib : Tree κ ν} {A Asib : List Nat}
    {nx pnn0 ns : Node κ ν} {m2 : Map κ ν}
    (hrep : Rep m.heap (some R) none t A) (hrootR : m.root = R)
    (hx : x ∈ A) (hnx : m.heap x = some nx) (hnxp : nx.parent = some pa0)
    (hpa : pa0 ∈ A) (hpax : pa0 ≠ x) (hpnn : m.heap pa0 = some pnn0)
    (hsib : Rep m.heap (some sa0) (some pa0) tsib Asib)
    (hsub : ∀ y ∈ Asib, y ∈ A) (hxs : x ∉ Asib) (hpas : pa0 ∉ Asib)
    (hnsa : m.heap sa0 = some ns)
    (hside : (pnn0.left = some x ∧ pnn0.right = some sa0) ∨
             (pnn0.right = some x ∧ pnn0.left = some sa0 ∧
               pnn0.left ≠ some x))
    (heq : (do
        let (siblingP, m) ← do
          let (_, node) ← readP m (some x)
          if (← isLeftN m x node) && (← isBlackP m ns.right) then do
            let m := writeN m sa0 { ns with color := RED }
            let (_, sn) ← readP m (some sa0)
            let (sla, sln) ← readP m sn.left
            let m := writeN m sla { sln with color := BLACK }
            let m ← rotateRight m (some sa0)
            let (_, node) ← readP m (some x)
            let siblingP ← getSibling m x node
            pure (siblingP, m)
          else
            pure ((some sa0 : Option Nat), m)
        let (siblingP, m) ← do
          let (_, node) ← readP m (some x)
          let (sa, sn) ← readP m siblingP
          if (← isRightN m x node) && (← isBlackP m sn.left) then do
            let m := writeN m sa { sn with color := RED }
            let (_, sn) ← readP m (some sa)
            let (sra, srn) ← readP m sn.right
            let m := writeN m sra { srn with color := BLACK }
            let m ← rotateLeft m (some sa)
            let (_, node) ← readP m (some x)
            let siblingP ← getSibling m x node
            pure (siblingP, m)
          else
            pure (siblingP, m)
        let (sa, sn) ← readP m siblingP
        let (_, node) ← readP m (some x)
        let (pa2, pn) ← readP m node.parent
        let m := writeN m sa { sn with color := pn.color }
        let (_, pn) ← readP m (some pa2)
        let m := writeN m pa2 { pn with color := BLACK }
        let (_, node) ← readP m (some x)
        if ← isLeftN m x node then do
          let (_, sn) ← readP m (some sa)
          let (sra, srn) ← readP m sn.right
          let m := writeN m sra { srn with color := BLACK }
          let (_, node) ← readP m (some x)
          rotateLeft m node.parent
        else do
          let (_, sn) ← readP m (some sa)
          let (sla, sln) ← readP m sn.left
          let m := writeN m sla { sln with color := BLACK }
          let (_, node) ← readP m (some x)
          rotateRight m node.parent : Except Fault (Map κ ν)) = .ok m2) :
    ∃ t2, Rep m2.heap (some m2.root) none t2 A ∧ t2.inorder = t.inorder ∧
      (∀ c, c ∉ A → m2.heap c = m.heap c) ∧ m2.size = m.size ∧
      m2.next = m.next ∧ m2.compareFunc = m.compareFunc := by
  have hsamem : sa0 ∈ Asib := hsib.root_mem
  have hsax : sa0 ≠ x := fun e => hxs (e ▸ hsamem)
  have hsapa : sa0 ≠ pa0 := fun e => hpas (e ▸ hsamem)
  have hsaA : sa0 ∈ A := hsub sa0 hsamem
  have hcondL : isLeftN m x nx = .ok (pnn0.left == some x) := by
    simp [isLeftN, hnxp, readP_some hpnn]
  cases hsib with
  | @leaf _ _ nn hb k1 k2 k3 k4 =>
    have hid : nn = ns := Option.some.inj (hb.symm.trans hnsa)
    rw [hid] at k1 k2
    have hcondBR : isBlackP m ns.right =
        (.error .nilDeref : Except Fault Bool) := by
      simp [isBlackP, k2]
    have hbad : (Except.error Fault.nilDeref : Except Fault (Map κ ν)) =
        .ok m2 := by
      rw [← heq]
      simp only [readP_some hnx, ok_bind, hcondL, hcondBR, error_bind]
    cases hbad
  | @node _ _ ns2 tls trs Als Ars hb hp2 hl2 hrr2 hnd2 =>
    have hid : ns2 = ns := Option.some.inj (hb.symm.trans hnsa)
    rw [hid] at hp2 hl2 hrr2
    obtain ⟨hsaAls, hsaArs, hndAls, hndArs, hdisjs⟩ := nodup_split hnd2
    obtain ⟨sla, hsla⟩ := hl2.p_some
    obtain ⟨sra, hsra⟩ := hrr2.p_some
    have hl2m := hl2
    rw [hsla] at hl2m
    have hrr2m := hrr2
    rw [hsra] at hrr2m
    obtain ⟨srn0, hsrn0⟩ := hrr2m.mem_alloc sra hrr2m.root_mem
    have hcondBR : isBlackP m ns.right = .ok srn0.isBlack := by
      rw [hsra]
      simp [isBlackP, readP_some hsrn0]
    rcases hside with ⟨hL, hRr⟩ | ⟨hRx, hLs, hLne⟩
    · -- the node is a left child
      have hb1 : (pnn0.left == some x) = true := by
        rw [hL]
        simp
      by_cases hblk : srn0.isBlack = true
      · -- pre-rotation fires: recolor, then rotate right at the sibling
        have f1 : (writeN m sa0 { ns with color := RED }).heap sa0 =
            some { ns with color := RED } := writeN_heap_same _ _ _
        obtain ⟨sln0, hsln0⟩ := hl2m.mem_alloc sla hl2m.root_mem
        have hslaAls : sla ∈ Als := hl2m.root_mem
        have hslaAsib : sla ∈ Als ++ sa0 :: Ars := by simp [hslaAls]
        have hslasa : sla ≠ sa0 := fun e => hsaAls (e ▸ hslaAls)
        have hslax : sla ≠ x := fun e => hxs (e ▸ hslaAsib)
        have hslapa : sla ≠ pa0 := fun e => hpas (e ▸ hslaAsib)
        have f2 : (writeN m sa0 { ns with color := RED }).heap sla =
            some sln0 := by
          rw [writeN_heap_other hslasa]
          exact hsln0
        have p5 : ({ ns with color := RED } : Node κ ν).left =
            ns.left := rfl
        have f2l : readP (writeN m sa0 { ns with color := RED }) ns.left =
            .ok (sla, sln0) := by
          have h0 := readP_some f2
          rw [← hsla] at h0
          exact h0
        have g1 : (writeN (writeN m sa0 { ns with color := RED }) sla
            { sln0 with color := BLACK }).heap sa0 =
            some { ns with color := RED } := by
          rw [writeN_heap_other (Ne.symm hslasa)]
          exact f1
        have g2 : (writeN (writeN m sa0 { ns with color := RED }) sla
            { sln0 with color := BLACK }).heap sla =
            some { sln0 with color := BLACK } := writeN_heap_same _ _ _
        have g3 : (writeN (writeN m sa0 { ns with color := RED }) sla
            { sln0 with color := BLACK }).heap pa0 = some pnn0 := by
          rw [writeN_heap_other (Ne.symm hslapa),
            writeN_heap_other (Ne.symm hsapa)]
          exact hpnn
        cases hl2m with
        | @leaf _ _ nn0 hbs ks1 ks2 ks3 ks4 =>
          -- the promoted child is a sentinel: the rotation faults
          have hid2 : nn0 = sln0 := Option.some.inj (hbs.symm.trans hsln0)
          rw [hid2] at ks1 ks2
          have hrot : rotateRight (writeN (writeN m sa0
              { ns with color := RED }) sla
              { sln0 with color := BLACK }) (some sa0) =
              .error .nilDeref :=
            rotateRight_sentinel g1
              (show ({ ns with color := RED } : Node κ ν).left = some sla
                from hsla) g2
              (show ({ sln0 with color := BLACK } : Node κ ν).right = none
                from ks2) hslasa
              (Or.inr ⟨pa0, pnn0,
                show ({ ns with color := RED } : Node κ ν).parent =
                  some pa0 from hp2, g3, Ne.symm hsapa, Ne.symm hslapa⟩)
          have hbad : (Except.error Fault.nilDeref :
              Except Fault (Map κ ν)) = .ok m2 := by
            rw [← heq]
            simp only [readP_some hnx, ok_bind, hcondL, hcondBR, hb1,
              Bool.true_and, hblk, if_true, readP_some f1, p5, f2l,
              hrot, error_bind]
          cases hbad
        | @node _ _ nn0 tls2 trs2 Als2 Ars2 hbs hps2 hls2 hrs2 hnds2 =>
          have hid2 : nn0 = sln0 := Option.some.inj (hbs.symm.trans hsln0)
          rw [hid2] at hls2
          obtain ⟨sll, hsll⟩ := hls2.p_some
          have hnslive : ns.isLeaf = false := by simp [Node.isLeaf, hsla]
          obtain ⟨t1, hrep1, hio1⟩ := hrep.recolor (q := RED) hsaA hnsa
            (Or.inr hnslive)
          have hrep1h : Rep (writeN m sa0
              { ns with color := RED }).heap (some R) none t1 A := hrep1
          obtain ⟨t2c, hrep2c, hio2c⟩ := hrep1h.recolor (q := BLACK)
            (hsub sla hslaAsib) f2 (Or.inl rfl)
          have hrep2h : Rep (writeN (writeN m sa0
              { ns with color := RED }) sla
              { sln0 with color := BLACK }).heap (some R) none t2c A :=
            hrep2c
          obtain ⟨m3, r3, t3, heqrot, hrep3, hio3, hframe3, hroot3, -,
              hsz3, hnxt3, hcm3⟩ :=
            rotateRight_rep hrep2h rfl (Or.inl ⟨rfl, hrootR⟩) hsaA g1
              (show ({ ns with color := RED } : Node κ ν).left = some sla
                from hsla) g2
              (by simp [Node.isLeaf, hsll])
          obtain ⟨nx3, hnx3⟩ := hrep3.mem_alloc x hx
          cases hpp3 : nx3.parent with
          | none =>
            have hgs : getSibling m3 x nx3 =
                (.error .nilDeref : Except Fault (Option Nat)) := by
              simp [getSibling, hpp3]
            have hbad : (Except.error Fault.nilDeref :
                Except Fault (Map κ ν)) = .ok m2 := by
              rw [← heq]
              simp only [readP_some hnx, ok_bind, hcondL, hcondBR, hb1,
                Bool.true_and, hblk, if_true, readP_some f1, p5, f2l,
                heqrot, readP_some hnx3, hgs, error_bind]
            cases hbad
          | some pa3 =>
            obtain ⟨pnn3, ns3, tsib3, Asib3, sa3, hpa3, hpax3, hpnn3,
              hsib3, hsub3, hxs3, hpas3, hnsa3, hside3⟩ :=
              sibling_setup hrep3 hx hnx3 hpp3
            have hsax3 : sa3 ≠ x := fun e => hxs3 (e ▸ hsib3.root_mem)
            have hgs : getSibling m3 x nx3 = .ok (some sa3) := by
              rcases hside3 with ⟨hL3, hR3⟩ | ⟨hR3, hL3, hLne3⟩
              · simp [getSibling, hpp3, readP_some hpnn3, hL3, hR3]
              · simp [getSibling, hpp3, readP_some hpnn3, hL3, hsax3]
            have hrootR3 : m3.root = r3 := hroot3 rfl
            have hfin := eraseSort_tail2 hrep3 hrootR3 hx hnx3 hpp3 hpa3
              hpax3 hpnn3 hsib3 hsub3 hxs3 hpas3 hnsa3 hside3 (by
                rw [← heq]
                simp only [readP_some hnx, ok_bind, hcondL, hcondBR, hb1,
                  Bool.true_and, hblk, if_true, readP_some f1, p5, f2l,
                  heqrot, readP_some hnx3, hgs, pure_eq_ok])
            obtain ⟨t4, hrep4, hio4, hframe4, hsz4, hnxt4, hcm4⟩ := hfin
            refine ⟨t4, hrep4, ?_, ?_, ?_, ?_, ?_⟩
            · rw [hio4, hio3, hio2c, hio1]
            · intro c hc
              have hc1 : c ≠ sa0 := fun e => hc (e ▸ hsaA)
              have hc2 : c ≠ sla := fun e => hc (e ▸ hsub sla hslaAsib)
              rw [hframe4 c hc, hframe3 c hc (by simp),
                writeN_heap_other hc2, writeN_heap_other hc1]
            · rw [hsz4, hsz3]
              rfl
            · rw [hnxt4, hnxt3]
              rfl
            · rw [hcm4, hcm3]
              rfl
      · -- pre-rotation does not fire
        have hblkf : srn0.isBlack = false := by
          cases h2 : srn0.isBlack
          · rfl
          · exact absurd h2 hblk
        refine eraseSort_tail2 hrep hrootR hx hnx hnxp hpa hpax hpnn
          (Rep.node hnsa hp2 hl2 hrr2 hnd2) hsub hxs hpas hnsa
          (Or.inl ⟨hL, hRr⟩) ?_
        rw [← heq]
        simp only [readP_some hnx, ok_bind, hcondL, hcondBR, hb1,
          Bool.true_and, hblkf, Bool.false_eq_true, if_false, pure_eq_ok]
    · -- the node is a right child: the first pre-rotation cannot fire
      have hbf : (pnn0.left == some x) = false := by
        rw [hLs]
        simp [hsax]
      refine eraseSort_tail2 hrep hrootR hx hnx hnxp hpa hpax hpnn
        (Rep.node hnsa hp2 hl2 hrr2 hnd2) hsub hxs hpas hnsa
        (Or.inr ⟨hRx, hLs, hLne⟩) ?_
      rw [← heq]
      simp only [readP_some hnx, ok_bind, hcondL, hcondBR, hbf,
        Bool.false_and, Bool.false_eq_true, if_false, pure_eq_ok]

/-- The record at the region root carries the region's parent pointer. -/
theorem Rep.root_parent {κ ν : Type} {h : Heap κ ν} {p par : Option Nat}
    {t : Tree κ ν} {A : List Nat} (hrep : Rep h p par t A) :
    ∀ {r : Nat} {n : Node κ ν}, p = some r → h r = some n →
      n.parent = par := by
  cases hrep with
  | @leaf a0 par0 n0 ha0 h1 h2 h3 h4 =>
    intro r n hpr hn
    cases Option.some.inj hpr
    rw [ha0] at hn
    cases Option.some.inj hn
    exact h3
  | @node a0 par0 n0 tl tr Al Ar ha0 hp hl hrr hnd =>
    intro r n hpr hn
    cases Option.some.inj hpr
    rw [ha0] at hn
    cases Option.some.inj hn
    exact hp

/-- Go `(m *Map) eraseSort(node)`: the deletion fixup keeps the represented
region's address list and its in-order sequence, touches no address outside
the region, and leaves the map's root pointing at the region's root.
Conditioned on the call returning without a fault. -/
theorem eraseSort_rep {κ ν : Type} :
    ∀ (fuel : Nat) (m : Map κ ν) (x R : Nat) (t : Tree κ ν)
      (A : List Nat) (m2 : Map κ ν),
      Rep m.heap (some R) none t A → x ∈ A → (m.root = R ∨ x = R) →
      eraseSort m fuel x = .ok m2 →
      ∃ t2, Rep m2.heap (some m2.root) none t2 A ∧
        t2.inorder = t.inorder ∧
        (∀ c, c ∉ A → m2.heap c = m.heap c) ∧
        m2.size = m.size ∧ m2.next = m.next ∧
        m2.compareFunc = m.compareFunc := by
  intro fuel
  induction fuel with
  | zero =>
    intro m x R t A m2 hrep hx hroot heq
    simp [eraseSort] at heq
  | succ fuel ih =>
    intro m x R t A m2 hrep hx hroot heq
    obtain ⟨nx, hnx⟩ := hrep.mem_alloc x hx
    by_cases hisroot : nx.isRoot = true
    · -- the node is the tree root: blacken it and point the root at it
      have hpn : nx.parent = none := by
        simpa [Node.isRoot, Option.isNone_iff_eq_none] using hisroot
      obtain ⟨hxR, -⟩ := hrep.parent_none_root rfl hx hnx hpn
      obtain ⟨t1, hrep1, hio1⟩ := hrep.recolor (q := BLACK) hx hnx
        (Or.inl rfl)
      have h0 : (Except.ok ({ writeN m x { nx with color := BLACK } with
          root := x } : Map κ ν) : Except Fault (Map κ ν)) = .ok m2 := by
        rw [← heq]
        simp only [eraseSort, readP_some hnx, ok_bind, hisroot, if_true,
          pure_eq_ok]
      obtain rfl : ({ writeN m x { nx with color := BLACK } with
          root := x } : Map κ ν) = m2 := Except.ok.inj h0
      refine ⟨t1, ?_, hio1, ?_, rfl, rfl, rfl⟩
      · have hrep1m := hrep1
        rw [← hxR] at hrep1m
        exact hrep1m
      · intro c hc
        exact writeN_heap_other (fun e => hc (e ▸ hx))
    · -- not the root
      have hisrootf : nx.isRoot = false := by
        cases h2 : nx.isRoot
        · rfl
        · exact absurd h2 hisroot
      obtain ⟨pa0, hnxp⟩ : ∃ pa0, nx.parent = some pa0 := by
        cases hp2 : nx.parent with
        | none =>
          exfalso
          have htrue : nx.isRoot = true := by simp [Node.isRoot, hp2]
          rw [htrue] at hisrootf
          exact Bool.noConfusion hisrootf
        | some pa0 => exact ⟨pa0, rfl⟩
      have hrootR : m.root = R := by
        rcases hroot with h | h
        · exact h
        · exfalso
          have hpp := hrep.root_parent rfl (h ▸ hnx)
          rw [hnxp] at hpp
          cases hpp
      by_cases hred : nx.isRed = true
      · -- a red node: just blacken it
        obtain ⟨t1, hrep1, hio1⟩ := hrep.recolor (q := BLACK) hx hnx
          (Or.inl rfl)
        have h0 : (Except.ok (writeN m x { nx with color := BLACK }) :
            Except Fault (Map κ ν)) = .ok m2 := by
          rw [← heq]
          simp only [eraseSort, readP_some hnx, ok_bind, hisrootf,
            Bool.false_eq_true, if_false, hred, if_true, pure_eq_ok]
        obtain rfl : writeN m x { nx with color := BLACK } = m2 :=
          Except.ok.inj h0
        refine ⟨t1, ?_, hio1, ?_, rfl, rfl, rfl⟩
        · have hrep1m := hrep1
          rw [← hrootR] at hrep1m
          exact hrep1m
        · intro c hc
          exact writeN_heap_other (fun e => hc (e ▸ hx))
      · -- a black non-root node: look at the sibling
        have hredf : nx.isRed = false := by
          cases h2 : nx.isRed
          · rfl
          · exact absurd h2 hred
        obtain ⟨pnn0, ns, tsib, Asib, sa0, hpa, hpax, hpnn, hsib, hsub,
          hxs, hpas, hnsa, hside⟩ := sibling_setup hrep hx hnx hnxp
        have hsamem : sa0 ∈ Asib := hsib.root_mem
        have hsax : sa0 ≠ x := fun e => hxs (e ▸ hsamem)
        have hsapa : sa0 ≠ pa0 := fun e => hpas (e ▸ hsamem)
        have hsaA : sa0 ∈ A := hsub sa0 hsamem
        have hgs0 : getSibling m x nx = .ok (some sa0) := by
          rcases hside with ⟨hL, hR⟩ | ⟨hR, hL, hLne⟩
          · simp [getSibling, hnxp, readP_some hpnn, hL, hR]
          · simp [getSibling, hnxp, readP_some hpnn, hL, hsax]
        have hisredP : isRedP m (some sa0) = .ok ns.isRed := by
          simp [isRedP, readP_some hnsa]
        by_cases hsred : ns.isRed = true
        · -- red sibling: recolor, rotate at the parent, recurse on x
          cases hsib with
          | @leaf _ _ nn hb k1 k2 k3 k4 =>
            have hid : nn = ns := Option.some.inj (hb.symm.trans hnsa)
            rw [hid] at k4
            rw [Node.isRed, k4] at hsred
            simp [BLACK] at hsred
          | @node _ _ ns2 tls trs Als Ars hb hp2 hl2 hrr2 hnd2 =>
            have hid : ns2 = ns := Option.some.inj (hb.symm.trans hnsa)
            rw [hid] at hp2 hl2 hrr2
            obtain ⟨sla, hsla⟩ := hl2.p_some
            have e1 : (writeN m sa0 { ns with color := BLACK }).heap x =
                some nx := by
              rw [writeN_heap_other (Ne.symm hsax)]
              exact hnx
            have e2 : (writeN m sa0 { ns with color := BLACK }).heap pa0 =
                some pnn0 := by
              rw [writeN_heap_other (Ne.symm hsapa)]
              exact hpnn
            have e3 : (writeN (writeN m sa0 { ns with color := BLACK })
                pa0 { pnn0 with color := RED }).heap x = some nx := by
              rw [writeN_heap_other (Ne.symm hpax)]
              exact e1
            have e4 : (writeN (writeN m sa0 { ns with color := BLACK })
                pa0 { pnn0 with color := RED }).heap pa0 =
                some { pnn0 with color := RED } := writeN_heap_same _ _ _
            have e5 : (writeN (writeN m sa0 { ns with color := BLACK })
                pa0 { pnn0 with color := RED }).heap sa0 =
                some { ns with color := BLACK } := by
              rw [writeN_heap_other hsapa]
              exact writeN_heap_same _ _ _
            have hisl : isLeftN (writeN (writeN m sa0
                { ns with color := BLACK }) pa0
                { pnn0 with color := RED }) x nx =
                .ok (pnn0.left == some x) := by
              simp [isLeftN, hnxp, readP_some e4]
            obtain ⟨t1, hrep1, hio1⟩ := hrep.recolor (q := BLACK) hsaA
              hnsa (Or.inl rfl)
            have hrep1h : Rep (writeN m sa0
                { ns with color := BLACK }).heap (some R) none t1 A :=
              hrep1
            rcases hside with ⟨hL, hR⟩ | ⟨hR, hL, hLne⟩
            · have hpnlive : pnn0.isLeaf = false := by
                simp [Node.isLeaf, hL]
              obtain ⟨t2c, hrep2c, hio2c⟩ := hrep1h.recolor (q := RED)
                hpa e2 (Or.inr hpnlive)
              have hrep2h : Rep (writeN (writeN m sa0
                  { ns with color := BLACK }) pa0
                  { pnn0 with color := RED }).heap (some R) none t2c A :=
                hrep2c
              have hbt : (pnn0.left == some x) = true := by
                rw [hL]
                simp
              obtain ⟨m3, r3, t3, heqrot, hrep3, hio3, hframe3, hroot3, -,
                  hsz3, hnxt3, hcm3⟩ :=
                rotateLeft_rep hrep2h rfl (Or.inl ⟨rfl, hrootR⟩) hpa e4
                  (show ({ pnn0 with color := RED } : Node κ ν).right =
                    some sa0 from hR)
                  e5 (by simp [Node.isLeaf, hsla])
              have heq3 : eraseSort m3 fuel x = .ok m2 := by
                rw [← heq]
                simp only [eraseSort, readP_some hnx, ok_bind, hisrootf,
                  Bool.false_eq_true, if_false, hredf, hgs0, hisredP,
                  hsred, if_true, readP_some hnsa, readP_some e1, hnxp,
                  readP_some e2, readP_some e3, hisl, hbt, heqrot,
                  pure_eq_ok]
              obtain ⟨t4, hrep4, hio4, hframe4, hsz4, hnxt4, hcm4⟩ :=
                ih m3 x r3 t3 A m2 hrep3 hx (Or.inl (hroot3 rfl)) heq3
              refine ⟨t4, hrep4, ?_, ?_, ?_, ?_, ?_⟩
              · rw [hio4, hio3, hio2c, hio1]
              · intro c hc
                have hc1 : c ≠ sa0 := fun e => hc (e ▸ hsaA)
                have hc2 : c ≠ pa0 := fun e => hc (e ▸ hpa)
                rw [hframe4 c hc, hframe3 c hc (by simp),
                  writeN_heap_other hc2, writeN_heap_other hc1]
              · rw [hsz4, hsz3]
                rfl
              · rw [hnxt4, hnxt3]
                rfl
              · rw [hcm4, hcm3]
                rfl
            · have hpnlive : pnn0.isLeaf = false := by
                simp [Node.isLeaf, hL]
              obtain ⟨t2c, hrep2c, hio2c⟩ := hrep1h.recolor (q := RED)
                hpa e2 (Or.inr hpnlive)
              have hrep2h : Rep (writeN (writeN m sa0
                  { ns with color := BLACK }) pa0
                  { pnn0 with color := RED }).heap (some R) none t2c A :=
                hrep2c
              have hbf : (pnn0.left == some x) = false := by
                rw [hL]
                simp [hsax]
              obtain ⟨m3, r3, t3, heqrot, hrep3, hio3, hframe3, hroot3, -,
                  hsz3, hnxt3, hcm3⟩ :=
                rotateRight_rep hrep2h rfl (Or.inl ⟨rfl, hrootR⟩) hpa e4
                  (show ({ pnn0 with color := RED } : Node κ ν).left =
                    some sa0 from hL)
                  e5 (by simp [Node.isLeaf, hsla])
              have heq3 : eraseSort m3 fuel x = .ok m2 := by
                rw [← heq]
                simp only [eraseSort, readP_some hnx, ok_bind, hisrootf,
                  Bool.false_eq_true, if_false, hredf, hgs0, hisredP,
                  hsred, if_true, readP_some hnsa, readP_some e1, hnxp,
                  readP_some e2, readP_some e3, hisl, hbf, if_false,
                  heqrot, pure_eq_ok]
              obtain ⟨t4, hrep4, hio4, hframe4, hsz4, hnxt4, hcm4⟩ :=
                ih m3 x r3 t3 A m2 hrep3 hx (Or.inl (hroot3 rfl)) heq3
              refine ⟨t4, hrep4, ?_, ?_, ?_, ?_, ?_⟩
              · rw [hio4, hio3, hio2c, hio1]
              · intro c hc
                have hc1 : c ≠ sa0 := fun e => hc (e ▸ hsaA)
                have hc2 : c ≠ pa0 := fun e => hc (e ▸ hpa)
                rw [hframe4 c hc, hframe3 c hc (by simp),
                  writeN_heap_other hc2, writeN_heap_other hc1]
              · rw [hsz4, hsz3]
                rfl
              · rw [hnxt4, hnxt3]
                rfl
              · rw [hcm4, hcm3]
                rfl
        · -- black sibling
          have hsredf : ns.isRed = false := by
            cases h2 : ns.isRed
            · rfl
            · exact absurd h2 hsred
          cases hsib with
          | @leaf _ _ nn hb k1 k2 k3 k4 =>
            -- sentinel sibling: dereferencing its children faults
            have hid : nn = ns := Option.some.inj (hb.symm.trans hnsa)
            rw [hid] at k1 k2
            have hcondBL : isBlackP m ns.left =
                (.error .nilDeref : Except Fault Bool) := by
              simp [isBlackP, k1]
            have hbad : (Except.error Fault.nilDeref :
                Except Fault (Map κ ν)) = .ok m2 := by
              rw [← heq]
              simp only [eraseSort, readP_some hnx, ok_bind, hisrootf,
                Bool.false_eq_true, if_false, hredf, hgs0, hisredP,
                hsredf, readP_some hnsa, hcondBL, error_bind]
            cases hbad
          | @node _ _ ns2 tls trs Als Ars hb hp2 hl2 hrr2 hnd2 =>
            have hid : ns2 = ns := Option.some.inj (hb.symm.trans hnsa)
            rw [hid] at hp2 hl2 hrr2
            obtain ⟨sla, hsla⟩ := hl2.p_some
            obtain ⟨sra, hsra⟩ := hrr2.p_some
            have hl2m := hl2
            rw [hsla] at hl2m
            have hrr2m := hrr2
            rw [hsra] at hrr2m
            obtain ⟨nsl0, hnsl0⟩ := hl2m.mem_alloc sla hl2m.root_mem
            obtain ⟨nsr0, hnsr0⟩ := hrr2m.mem_alloc sra hrr2m.root_mem
            have hcondBL : isBlackP m ns.left = .ok nsl0.isBlack := by
              rw [hsla]
              simp [isBlackP, readP_some hnsl0]
            have hcondBRR : isBlackP m ns.right = .ok nsr0.isBlack := by
              rw [hsra]
              simp [isBlackP, readP_some hnsr0]
            by_cases hbb : (nsl0.isBlack && nsr0.isBlack) = true
            · -- both nephews black: redden the sibling, recurse on parent
              have hnslive : ns.isLeaf = false := by
                simp [Node.isLeaf, hsla]
              obtain ⟨t1, hrep1, hio1⟩ := hrep.recolor (q := RED) hsaA
                hnsa (Or.inr hnslive)
              have hrep1h : Rep (writeN m sa0
                  { ns with color := RED }).heap (some R) none t1 A :=
                hrep1
              have e1 : (writeN m sa0 { ns with color := RED }).heap x =
                  some nx := by
                rw [writeN_heap_other (Ne.symm hsax)]
                exact hnx
              have e2 : (writeN m sa0 { ns with color := RED }).heap pa0 =
                  some pnn0 := by
                rw [writeN_heap_other (Ne.symm hsapa)]
                exact hpnn
              have heq3 : eraseSort (writeN m sa0
                  { ns with color := RED }) fuel pa0 = .ok m2 := by
                rw [← heq]
                simp only [eraseSort, readP_some hnx, ok_bind, hisrootf,
                  Bool.false_eq_true, if_false, hredf, hgs0, hisredP,
                  hsredf, readP_some hnsa, hcondBL, hcondBRR, hbb,
                  if_true, readP_some e1, hnxp, readP_some e2,
                  pure_eq_ok]
              obtain ⟨t4, hrep4, hio4, hframe4, hsz4, hnxt4, hcm4⟩ :=
                ih (writeN m sa0 { ns with color := RED }) pa0 R t1 A m2
                  hrep1h hpa (Or.inl hrootR) heq3
              refine ⟨t4, hrep4, ?_, ?_, ?_, ?_, ?_⟩
              · rw [hio4, hio1]
              · intro c hc
                have hc1 : c ≠ sa0 := fun e => hc (e ▸ hsaA)
                rw [hframe4 c hc, writeN_heap_other hc1]
              · rw [hsz4]
                rfl
              · rw [hnxt4]
                rfl
              · rw [hcm4]
                rfl
            · -- some nephew red: hand off to the pre-rotation blocks
              have hbbf : (nsl0.isBlack && nsr0.isBlack) = false := by
                cases h2 : (nsl0.isBlack && nsr0.isBlack)
                · rfl
                · exact absurd h2 hbb
              refine eraseSort_tail1 hrep hrootR hx hnx hnxp hpa hpax
                hpnn (Rep.node hnsa hp2 hl2 hrr2 hnd2) hsub hxs hpas
                hnsa hside ?_
              rw [← heq]
              simp only [eraseSort, readP_some hnx, ok_bind, hisrootf,
                Bool.false_eq_true, if_false, hredf, hgs0, hisredP,
                hsredf, readP_some hnsa, hcondBL, hcondBRR, hbbf,
                pure_eq_ok]

/-- Every region member roots a represented subtree whose address list sits
contiguously inside the region's address list. -/
theorem Rep.subtree_at {κ ν : Type} {h : Heap κ ν} {p par : Option Nat}
    {t : Tree κ ν} {A : List Nat} (hrep : Rep h p par t A) :
    ∀ a ∈ A, ∃ pp ta Aa U V, Rep h (some a) pp ta Aa ∧
      A = U ++ Aa ++ V := by
  induction hrep with
  | @leaf a0 par n ha h1 h2 h3 h4 =>
    intro a ha2
    simp only [List.mem_singleton] at ha2
    subst ha2
    exact ⟨par, .leaf, [a], [], [], Rep.leaf ha h1 h2 h3 h4, by simp⟩
  | @node a0 par q tl tr Al Ar ha hp hl hrr hnd ihl ihr =>
    intro a ha2
    rcases List.mem_append.1 ha2 with hAl | hrest
    · obtain ⟨pp, ta, Aa, U, V, hr, hAeq⟩ := ihl a hAl
      exact ⟨pp, ta, Aa, U, V ++ a0 :: Ar, hr, by rw [hAeq]; simp⟩
    · rcases List.mem_cons.1 hrest with rfl | hAr
      · exact ⟨par, _, _, [], [], Rep.node ha hp hl hrr hnd, by simp⟩
      · obtain ⟨pp, ta, Aa, U, V, hr, hAeq⟩ := ihr a hAr
        exact ⟨pp, ta, Aa, Al ++ a0 :: U, V, hr, by rw [hAeq]; simp⟩

/-- Whenever the rightmost-node loop returns without a fault on a
represented region, it returns the region's parent pointer on a sentinel,
and otherwise the last live member of the region, whose right child is the
region's final sentinel. -/
theorem leftMostLoop_ok {κ ν : Type} {m : Map κ ν} {ptr : Option Nat}
    {par : Option Nat} {tl : Tree κ ν} {Al : List Nat}
    (hrep : Rep m.heap ptr par tl Al) :
    ∀ fuel v, leftMostLoop m fuel ptr = .ok v →
    (tl = .leaf → v = par) ∧
    (tl ≠ .leaf → ∃ p np sl nsl,
      v = some p ∧
      m.heap p = some np ∧ p ∈ Al ∧
      np.right = some sl ∧ m.heap sl = some nsl ∧ nsl.isLeaf = true ∧
      ∃ Alpre, Al = Alpre ++ [p, sl]) := by
  induction hrep with
  | @leaf a par n ha h1 h2 h3 h4 =>
    intro fuel v heq
    match fuel with
    | 0 => simp [leftMostLoop] at heq
    | fuel + 1 =>
      have hleaf : n.isLeaf = true := by simp [Node.isLeaf, h1, h2]
      simp [leftMostLoop, readP_some ha, hleaf, h3] at heq
      exact ⟨fun _ => heq.symm, fun hne => absurd rfl hne⟩
  | @node a par q tl2 tr2 Al2 Ar2 ha hp hl hrr hnd ihl ihr =>
    intro fuel v heq
    match fuel with
    | 0 => simp [leftMostLoop] at heq
    | fuel + 1 =>
      obtain ⟨lla, hlla⟩ := hl.p_some
      have hleaf : q.isLeaf = false := by simp [Node.isLeaf, hlla]
      rw [show leftMostLoop m (fuel + 1) (some a) =
          leftMostLoop m fuel q.right from by
        simp [leftMostLoop, readP_some ha, hleaf]] at heq
      obtain ⟨ra, hra⟩ := hrr.p_some
      have hrr2 := hrr
      rw [hra] at hrr2
      refine ⟨fun h => (nomatch h), fun _ => ?_⟩
      cases hrr2 with
      | @leaf _ _ nr0 hb k1 k2 k3 k4 =>
        -- the right child is a sentinel: `a` is the rightmost live node
        rw [hra] at heq
        match fuel with
        | 0 => simp [leftMostLoop] at heq
        | fuel + 1 =>
          have hleaf2 : nr0.isLeaf = true := by simp [Node.isLeaf, k1, k2]
          simp [leftMostLoop, readP_some hb, hleaf2, k3] at heq
          refine ⟨a, q, ra, nr0, heq.symm, ha, by simp, hra, hb, ?_,
            Al2, rfl⟩
          simp [Node.isLeaf, k1, k2]
      | @node _ _ nr2 l2t r2t Al3 Ar3 hb hp2 hl2 hr2 hnd2 =>
        obtain ⟨-, ihr2⟩ := ihr fuel v heq
        obtain ⟨p, np, sl, nsl, hv, hnp, hpmem, hnpr, hsl, hsleaf,
          Alpre2, hAlpre⟩ := ihr2 (by intro h; cases h)
        exact ⟨p, np, sl, nsl, hv, hnp, by simp [hpmem], hnpr, hsl,
          hsleaf, Al2 ++ a :: Alpre2, by rw [hAlpre]; simp⟩

/-- `filterMap` only looks at the function's values on the list. -/
theorem filterMap_ext_mem {α β : Type} {f g : α → Option β} :
    ∀ {l : List α}, (∀ a ∈ l, f a = g a) →
      l.filterMap f = l.filterMap g := by
  intro l
  induction l with
  | nil => intro _; rfl
  | cons x xs ih =>
    intro hfg
    simp only [List.filterMap_cons]
    rw [hfg x (by simp), ih (fun b hb => hfg b (by simp [hb]))]

/-- Go `(m *Map) eraseNode(node)`: deleting a live member removes exactly
its entry from the in-order sequence (at the member's position) and keeps
the rest of the region intact; no address outside the region is touched,
and the map's root ends at the region's root.  Conditioned on returning
without a fault; the region root must be BLACK, as the red-black invariants
guarantee. -/
theorem eraseNode_rep {κ ν : Type} :
    ∀ (fuel : Nat) (m : Map κ ν) (a R : Nat) (t : Tree κ ν)
      (A : List Nat) (na : Node κ ν) (m2 : Map κ ν),
      Rep m.heap (some R) none t A → m.root = R →
      (∀ nR, m.heap R = some nR → nR.color = BLACK) →
      a ∈ A → m.heap a = some na → na.isLeaf = false →
      eraseNode m fuel a = .ok m2 →
      ∃ t2 A2,
        Rep m2.heap (some m2.root) none t2 A2 ∧
        (∀ y ∈ A2, y ∈ A) ∧
        (∀ c, c ∉ A → m2.heap c = m.heap c) ∧
        m2.size = m.size ∧ m2.next = m.next ∧
        m2.compareFunc = m.compareFunc ∧
        (∀ Au Aw, A = Au ++ a :: Aw →
          t2.inorder = Au.filterMap (liveKV m.heap) ++
            Aw.filterMap (liveKV m.heap)) := by
  intro fuel
  induction fuel with
  | zero =>
    intro m a R t A na m2 hrep hrootR hRB haA hna hlive heq
    simp [eraseNode] at heq
  | succ fuel ih =>
    intro m a R t A na m2 hrep hrootR hRB haA hna hlive heq
    obtain ⟨pp, ta, Aa, U, V, hrepa, hAaeq⟩ := hrep.subtree_at a haA
    cases hrepa with
    | @leaf _ _ nn hb k1 k2 k3 k4 =>
      have hid : nn = na := Option.some.inj (hb.symm.trans hna)
      rw [hid] at k1 k2
      have hleafT : na.isLeaf = true := by simp [Node.isLeaf, k1, k2]
      rw [hleafT] at hlive
      exact Bool.noConfusion hlive
    | @node _ _ q tla tra Ala Ara hb hpsub hlsub hrrsub hndsub =>
      have hid : q = na := Option.some.inj (hb.symm.trans hna)
      rw [hid] at hpsub hlsub hrrsub
      obtain ⟨la, hal⟩ := hlsub.p_some
      obtain ⟨ra, har⟩ := hrrsub.p_some
      have hlsub2 := hlsub
      rw [hal] at hlsub2
      have hrrsub2 := hrrsub
      rw [har] at hrrsub2
      obtain ⟨nla, hnla⟩ := hlsub2.mem_alloc la hlsub2.root_mem
      obtain ⟨nra, hnra⟩ := hrrsub2.mem_alloc ra hrrsub2.root_mem
      have hlaAla : la ∈ Ala := hlsub2.root_mem
      have hraAra : ra ∈ Ara := hrrsub2.root_mem
      obtain ⟨haAla, haAra, hndAla, hndAra, hdisjlr⟩ := nodup_split hndsub
      have hraa : ra ≠ a := fun e => haAra (e ▸ hraAra)
      have hlaa : la ≠ a := fun e => haAla (e ▸ hlaAla)
      have hraA : ra ∈ A := by
        rw [hAaeq]
        simp [hraAra]
      have hlaA : la ∈ A := by
        rw [hAaeq]
        simp [hlaAla]
      by_cases hlleaf : nla.isLeaf = true
      · -- the left child is a sentinel: splice, promoting the right child
        have htla : tla = .leaf := (hlsub2.leaf_iff hnla).1 hlleaf
        subst htla
        cases hlsub2 with
        | @leaf _ _ nls0 hbls kl1 kl2 kl3 kl4 =>
          have hidls : nls0 = nla := Option.some.inj (hbls.symm.trans hnla)
          rw [hidls] at kl1 kl2
          have hlanone : liveKV m.heap la = none := by
            simp [liveKV, hnla, kl1]
          have hrala : ra ≠ la := fun e =>
            (hdisjlr la (by simp)) (e ▸ hraAra)
          cases hnp2 : na.parent with
          | none =>
            -- splicing at the region root
            obtain ⟨haR, -⟩ := hrep.parent_none_root rfl haA hna hnp2
            subst haR
            obtain ⟨t', A', hrepA', hAeq, hteq⟩ :=
              hrep.spliceLeft_root hna hal hnla hlleaf har hnra
            have hrepW1 : Rep (writeN m ra
                { nra with parent := none }).heap (some ra) none t' A' :=
              hrepA'
            have e1 : (writeN m ra { nra with parent := none }).heap a =
                some na := by
              rw [writeN_heap_other (Ne.symm hraa)]
              exact hna
            have hnaB : na.color = BLACK := hRB na hna
            have hblkT : na.isBlack = true := by
              simp [Node.isBlack, hnaB, BLACK]
            have heq3 : eraseSort (writeN m ra
                { nra with parent := none }) fuel ra = .ok m2 := by
              rw [← heq]
              simp only [eraseNode, readP_some hna, ok_bind, hal,
                readP_some hnla, hlleaf, if_true, har, readP_some hnra,
                hnp2, pure_eq_ok, readP_some e1, hblkT]
            obtain ⟨t2, hrep2, hio2, hframe2, hsz2, hnxt2, hcm2⟩ :=
              eraseSort_rep fuel _ ra ra t' A' m2 hrepW1 hrepW1.root_mem
                (Or.inr rfl) heq3
            have hcg : ∀ b, liveKV (hset m.heap ra
                { nra with parent := none }) b = liveKV m.heap b :=
              liveKV_hset_congr hnra rfl rfl rfl
            refine ⟨t2, A', hrep2, ?_, ?_, ?_, ?_, ?_, ?_⟩
            · intro y hy
              rw [hAeq]
              simp [hy]
            · intro c hc
              have hcA2 : c ∉ A' := fun e => hc (by rw [hAeq]; simp [e])
              have hcra : c ≠ ra := fun e => hc (e ▸ hraA)
              rw [hframe2 c hcA2, writeN_heap_other hcra]
            · rw [hsz2]
              rfl
            · rw [hnxt2]
              rfl
            · rw [hcm2]
              rfl
            · intro Au Aw hsplit2
              have hcan : A = [la] ++ a :: A' := by
                rw [hAeq]
                rfl
              obtain ⟨rfl, rfl⟩ :=
                nodup_split_unique hrep.nodup hsplit2 hcan
              rw [hio2, hrepA'.inorder_filterMap,
                filterMap_ext_mem (fun b _ => hcg b)]
              simp [List.filterMap_cons, hlanone]
          | some pa =>
            -- splicing a deeper member
            rcases hrep.parent_struct rfl haA hna with ⟨-, hpp⟩ | hdeep
            · rw [hnp2] at hpp
              cases hpp
            · obtain ⟨pa2, pnn, cl, cr, tcl, tcr, Acl, Acr, hpp, hpamem,
                hpax, hpnn, hpnl, hpnr, hrepcl, hrepcr, hsubcl, hsubcr,
                hndp, hclcr⟩ := hdeep
              rw [hnp2] at hpp
              obtain rfl : pa = pa2 := Option.some.inj hpp
              have hrepaa : Rep m.heap (some a) (some pa)
                  (.node na.color .leaf na.key na.val tra)
                  ([la] ++ a :: Ara) :=
                Rep.node hna hnp2 hlsub hrrsub hndsub
              have hpaAas : pa ∉ [la] ++ a :: Ara := by
                rcases hclcr with rfl | rfl
                · obtain ⟨-, hAeq2⟩ := Rep.unique hrepcl hrepaa
                  obtain ⟨h1, -, -, -, -⟩ := nodup_split hndp
                  rw [← hAeq2]
                  exact h1
                · obtain ⟨-, hAeq2⟩ := Rep.unique hrepcr hrepaa
                  obtain ⟨-, h2, -, -, -⟩ := nodup_split hndp
                  rw [← hAeq2]
                  exact h2
              have hpara : pa ≠ ra := fun e =>
                hpaAas (by rw [e]; simp [hraAra])
              have e1 : (writeN m ra
                  { nra with parent := some pa }).heap a = some na := by
                rw [writeN_heap_other (Ne.symm hraa)]
                exact hna
              have e2 : (writeN m ra
                  { nra with parent := some pa }).heap pa = some pnn := by
                rw [writeN_heap_other hpara]
                exact hpnn
              have hisl : isLeftN (writeN m ra
                  { nra with parent := some pa }) a na =
                  .ok (pnn.left == some a) := by
                simp [isLeftN, hnp2, readP_some e2]
              by_cases hcL : (pnn.left == some a) = true
              · -- the member hangs on the parent's left slot
                have hh2 : (writeN (writeN m ra
                    { nra with parent := some pa }) pa
                    { pnn with left := some ra }).heap =
                    hset (hset m.heap ra { nra with parent := some pa })
                      pa (if pnn.left == some a
                          then { pnn with left := some ra }
                          else { pnn with right := some ra }) := by
                  simp [writeN, hcL]
                obtain ⟨r', t', A', u, w, hrepA', hAsplit, hA2eq,
                    hsubA', hrR, -⟩ :=
                  spliceLeft_rep hrep rfl (Or.inl rfl) haA hna hal hnla
                    hlleaf har hnra hnp2 hpnn hh2
                have hrR2 : r' = R := hrR rfl
                rw [hrR2] at hrepA'
                have e3 : (writeN (writeN m ra
                    { nra with parent := some pa }) pa
                    { pnn with left := some ra }).heap a = some na := by
                  rw [writeN_heap_other (Ne.symm hpax)]
                  exact e1
                have hraA2 : ra ∈ A' := by
                  have hmem := hraA
                  rw [hAsplit] at hmem
                  simp only [List.mem_append, List.mem_cons] at hmem
                  rw [hA2eq]
                  simp only [List.mem_append]
                  rcases hmem with h | h | h | h
                  · exact Or.inl h
                  · exact absurd h hrala
                  · exact absurd h hraa
                  · exact Or.inr h
                have hplval : pnn.left = some a := by simpa using hcL
                have hcg1 : ∀ b, liveKV (hset m.heap ra
                    { nra with parent := some pa }) b =
                    liveKV m.heap b :=
                  liveKV_hset_congr hnra rfl rfl rfl
                have e2h : hset m.heap ra
                    { nra with parent := some pa } pa = some pnn := by
                  simp [hset, hpara, hpnn]
                have hcg2 : ∀ b, liveKV (hset (hset m.heap ra
                    { nra with parent := some pa }) pa
                    { pnn with left := some ra }) b =
                    liveKV (hset m.heap ra
                      { nra with parent := some pa }) b :=
                  liveKV_hset_congr e2h rfl rfl (by simp [hplval])
                have hcgAll : ∀ b, liveKV (writeN (writeN m ra
                    { nra with parent := some pa }) pa
                    { pnn with left := some ra }).heap b =
                    liveKV m.heap b := fun b => (hcg2 b).trans (hcg1 b)
                have hioA' : t'.inorder =
                    u.filterMap (liveKV m.heap) ++
                    w.filterMap (liveKV m.heap) := by
                  have hx := hrepA'.inorder_filterMap
                  rw [hA2eq] at hx
                  rw [hx, filterMap_ext_mem (fun b _ => hcgAll b)]
                  simp [List.filterMap_append]
                have hcanA : A = (u ++ [la]) ++ a :: w := by
                  rw [hAsplit]
                  simp
                by_cases hblk : na.isBlack = true
                · have heq3 : eraseSort (writeN (writeN m ra
                      { nra with parent := some pa }) pa
                      { pnn with left := some ra }) fuel ra = .ok m2 := by
                    rw [← heq]
                    simp only [eraseNode, readP_some hna, ok_bind, hal,
                      readP_some hnla, hlleaf, if_true, har,
                      readP_some hnra, hnp2, readP_some e1, hisl, hcL,
                      readP_some e2, pure_eq_ok, readP_some e3, hblk]
                  obtain ⟨t2, hrep2, hio2, hframe2, hsz2, hnxt2, hcm2⟩ :=
                    eraseSort_rep fuel _ ra R t' A' m2 hrepA' hraA2
                      (Or.inl hrootR) heq3
                  refine ⟨t2, A', hrep2, hsubA', ?_, ?_, ?_, ?_, ?_⟩
                  · intro c hc
                    have hcA2 : c ∉ A' := fun e => hc (hsubA' c e)
                    have hcra : c ≠ ra := fun e => hc (e ▸ hraA)
                    have hcpa : c ≠ pa := fun e => hc (e ▸ hpamem)
                    rw [hframe2 c hcA2, writeN_heap_other hcpa,
                      writeN_heap_other hcra]
                  · rw [hsz2]
                    rfl
                  · rw [hnxt2]
                    rfl
                  · rw [hcm2]
                    rfl
                  · intro Au Aw hsplit2
                    obtain ⟨rfl, rfl⟩ :=
                      nodup_split_unique hrep.nodup hsplit2 hcanA
                    rw [hio2, hioA']
                    simp [List.filterMap_append, List.filterMap_cons,
                      hlanone]
                · have hblkF : na.isBlack = false := by
                    cases h2 : na.isBlack
                    · rfl
                    · exact absurd h2 hblk
                  have h0 : (Except.ok (writeN (writeN m ra
                      { nra with parent := some pa }) pa
                      { pnn with left := some ra }) :
                      Except Fault (Map κ ν)) = .ok m2 := by
                    rw [← heq]
                    simp only [eraseNode, readP_some hna, ok_bind, hal,
                      readP_some hnla, hlleaf, if_true, har,
                      readP_some hnra, hnp2, readP_some e1, hisl, hcL,
                      readP_some e2, pure_eq_ok, readP_some e3, hblkF,
                      Bool.false_eq_true, if_false]
                  obtain rfl := Except.ok.inj h0
                  refine ⟨t', A', ?_, hsubA', ?_, rfl, rfl, rfl, ?_⟩
                  · have hx : Rep (writeN (writeN m ra
                        { nra with parent := some pa }) pa
                        { pnn with left := some ra }).heap
                        (some m.root) none t' A' := by
                      rw [hrootR]
                      exact hrepA'
                    exact hx
                  · intro c hc
                    have hcra : c ≠ ra := fun e => hc (e ▸ hraA)
                    have hcpa : c ≠ pa := fun e => hc (e ▸ hpamem)
                    rw [show (writeN (writeN m ra
                        { nra with parent := some pa }) pa
                        { pnn with left := some ra }).heap c =
                        m.heap c from by
                      rw [writeN_heap_other hcpa,
                        writeN_heap_other hcra]]
                  · intro Au Aw hsplit2
                    obtain ⟨rfl, rfl⟩ :=
                      nodup_split_unique hrep.nodup hsplit2 hcanA
                    rw [hioA']
                    simp [List.filterMap_append, List.filterMap_cons,
                      hlanone]
              · -- the member hangs on the parent's right slot
                have hcLf : (pnn.left == some a) = false := by
                  cases h2 : (pnn.left == some a)
                  · rfl
                  · exact absurd h2 hcL
                have hh2 : (writeN (writeN m ra
                    { nra with parent := some pa }) pa
                    { pnn with right := some ra }).heap =
                    hset (hset m.heap ra { nra with parent := some pa })
                      pa (if pnn.left == some a
                          then { pnn with left := some ra }
                          else { pnn with right := some ra }) := by
                  simp [writeN, hcLf]
                obtain ⟨r', t', A', u, w, hrepA', hAsplit, hA2eq,
                    hsubA', hrR, -⟩ :=
                  spliceLeft_rep hrep rfl (Or.inl rfl) haA hna hal hnla
                    hlleaf har hnra hnp2 hpnn hh2
                have hrR2 : r' = R := hrR rfl
                rw [hrR2] at hrepA'
                have e3 : (writeN (writeN m ra
                    { nra with parent := some pa }) pa
                    { pnn with right := some ra }).heap a = some na := by
                  rw [writeN_heap_other (Ne.symm hpax)]
                  exact e1
                have hraA2 : ra ∈ A' := by
                  have hmem := hraA
                  rw [hAsplit] at hmem
                  simp only [List.mem_append, List.mem_cons] at hmem
                  rw [hA2eq]
                  simp only [List.mem_append]
                  rcases hmem with h | h | h | h
                  · exact Or.inl h
                  · exact absurd h hrala
                  · exact absurd h hraa
                  · exact Or.inr h
                have hcg1 : ∀ b, liveKV (hset m.heap ra
                    { nra with parent := some pa }) b =
                    liveKV m.heap b :=
                  liveKV_hset_congr hnra rfl rfl rfl
                have e2h : hset m.heap ra
                    { nra with parent := some pa } pa = some pnn := by
                  simp [hset, hpara, hpnn]
                have hcg2 : ∀ b, liveKV (hset (hset m.heap ra
                    { nra with parent := some pa }) pa
                    { pnn with right := some ra }) b =
                    liveKV (hset m.heap ra
                      { nra with parent := some pa }) b :=
                  liveKV_hset_congr e2h rfl rfl rfl
                have hcgAll : ∀ b, liveKV (writeN (writeN m ra
                    { nra with parent := some pa }) pa
                    { pnn with right := some ra }).heap b =
                    liveKV m.heap b := fun b => (hcg2 b).trans (hcg1 b)
                have hioA' : t'.inorder =
                    u.filterMap (liveKV m.heap) ++
                    w.filterMap (liveKV m.heap) := by
                  have hx := hrepA'.inorder_filterMap
                  rw [hA2eq] at hx
                  rw [hx, filterMap_ext_mem (fun b _ => hcgAll b)]
                  simp [List.filterMap_append]
                have hcanA : A = (u ++ [la]) ++ a :: w := by
                  rw [hAsplit]
                  simp
                by_cases hblk : na.isBlack = true
                · have heq3 : eraseSort (writeN (writeN m ra
                      { nra with parent := some pa }) pa
                      { pnn with right := some ra }) fuel ra =
                      .ok m2 := by
                    rw [← heq]
                    simp only [eraseNode, readP_some hna, ok_bind, hal,
                      readP_some hnla, hlleaf, if_true, har,
                      readP_some hnra, hnp2, readP_some e1, hisl, hcLf,
                      Bool.false_eq_true, if_false, readP_some e2,
                      pure_eq_ok, readP_some e3, hblk, if_true]
                  obtain ⟨t2, hrep2, hio2, hframe2, hsz2, hnxt2, hcm2⟩ :=
                    eraseSort_rep fuel _ ra R t' A' m2 hrepA' hraA2
                      (Or.inl hrootR) heq3
                  refine ⟨t2, A', hrep2, hsubA', ?_, ?_, ?_, ?_, ?_⟩
                  · intro c hc
                    have hcA2 : c ∉ A' := fun e => hc (hsubA' c e)
                    have hcra : c ≠ ra := fun e => hc (e ▸ hraA)
                    have hcpa : c ≠ pa := fun e => hc (e ▸ hpamem)
                    rw [hframe2 c hcA2, writeN_heap_other hcpa,
                      writeN_heap_other hcra]
                  · rw [hsz2]
                    rfl
                  · rw [hnxt2]
                    rfl
                  · rw [hcm2]
                    rfl
                  · intro Au Aw hsplit2
                    obtain ⟨rfl, rfl⟩ :=
                      nodup_split_unique hrep.nodup hsplit2 hcanA
                    rw [hio2, hioA']
                    simp [List.filterMap_append, List.filterMap_cons,
                      hlanone]
                · have hblkF : na.isBlack = false := by
                    cases h2 : na.isBlack
                    · rfl
                    · exact absurd h2 hblk
                  have h0 : (Except.ok (writeN (writeN m ra
                      { nra with parent := some pa }) pa
                      { pnn with right := some ra }) :
                      Except Fault (Map κ ν)) = .ok m2 := by
                    rw [← heq]
                    simp only [eraseNode, readP_some hna, ok_bind, hal,
                      readP_some hnla, hlleaf, if_true, har,
                      readP_some hnra, hnp2, readP_some e1, hisl, hcLf,
                      Bool.false_eq_true, if_false, readP_some e2,
                      pure_eq_ok, readP_some e3, hblkF]
                  obtain rfl := Except.ok.inj h0
                  refine ⟨t', A', ?_, hsubA', ?_, rfl, rfl, rfl, ?_⟩
                  · have hx : Rep (writeN (writeN m ra
                        { nra with parent := some pa }) pa
                        { pnn with right := some ra }).heap
                        (some m.root) none t' A' := by
                      rw [hrootR]
                      exact hrepA'
                    exact hx
                  · intro c hc
                    have hcra : c ≠ ra := fun e => hc (e ▸ hraA)
                    have hcpa : c ≠ pa := fun e => hc (e ▸ hpamem)
                    rw [show (writeN (writeN m ra
                        { nra with parent := some pa }) pa
                        { pnn with right := some ra }).heap c =
                        m.heap c from by
                      rw [writeN_heap_other hcpa,
                        writeN_heap_other hcra]]
                  · intro Au Aw hsplit2
                    obtain ⟨rfl, rfl⟩ :=
                      nodup_split_unique hrep.nodup hsplit2 hcanA
                    rw [hioA']
                    simp [List.filterMap_append, List.filterMap_cons,
                      hlanone]
      · -- the left child is live
        have hlleafF : nla.isLeaf = false := by
          cases h2 : nla.isLeaf
          · rfl
          · exact absurd h2 hlleaf
        by_cases hrleaf : nra.isLeaf = true
        · -- the right child is a sentinel: splice, promoting the left
          have htra : tra = .leaf := (hrrsub2.leaf_iff hnra).1 hrleaf
          subst htra
          cases hrrsub2 with
          | @leaf _ _ nrs0 hbrs kr1 kr2 kr3 kr4 =>
            have hidrs : nrs0 = nra :=
              Option.some.inj (hbrs.symm.trans hnra)
            rw [hidrs] at kr1 kr2
            have hranone : liveKV m.heap ra = none := by
              simp [liveKV, hnra, kr1]
            have hlara : la ≠ ra := fun e =>
              (hdisjlr la hlaAla) (e ▸ hraAra)
            cases hnp2 : na.parent with
            | none =>
              obtain ⟨haR, -⟩ := hrep.parent_none_root rfl haA hna hnp2
              subst haR
              obtain ⟨t', A', hrepA', hAeq, hteq⟩ :=
                hrep.spliceRight_root hna har hnra hrleaf hal hnla
              have hrepW1 : Rep (writeN m la
                  { nla with parent := none }).heap (some la) none t'
                  A' := hrepA'
              have e1 : (writeN m la { nla with parent := none }).heap a =
                  some na := by
                rw [writeN_heap_other (Ne.symm hlaa)]
                exact hna
              have hnaB : na.color = BLACK := hRB na hna
              have hblkT : na.isBlack = true := by
                simp [Node.isBlack, hnaB, BLACK]
              have heq3 : eraseSort (writeN m la
                  { nla with parent := none }) fuel la = .ok m2 := by
                rw [← heq]
                simp only [eraseNode, readP_some hna, ok_bind, hal,
                  readP_some hnla, hlleafF, Bool.false_eq_true, if_false,
                  har, readP_some hnra, hrleaf, if_true, hnp2,
                  pure_eq_ok, readP_some e1, hblkT]
              obtain ⟨t2, hrep2, hio2, hframe2, hsz2, hnxt2, hcm2⟩ :=
                eraseSort_rep fuel _ la la t' A' m2 hrepW1
                  hrepW1.root_mem (Or.inr rfl) heq3
              have hcg : ∀ b, liveKV (hset m.heap la
                  { nla with parent := none }) b = liveKV m.heap b :=
                liveKV_hset_congr hnla rfl rfl rfl
              refine ⟨t2, A', hrep2, ?_, ?_, ?_, ?_, ?_, ?_⟩
              · intro y hy
                rw [hAeq]
                simp [hy]
              · intro c hc
                have hcA2 : c ∉ A' := fun e =>
                  hc (by rw [hAeq]; simp [e])
                have hcla : c ≠ la := fun e => hc (e ▸ hlaA)
                rw [hframe2 c hcA2, writeN_heap_other hcla]
              · rw [hsz2]
                rfl
              · rw [hnxt2]
                rfl
              · rw [hcm2]
                rfl
              · intro Au Aw hsplit2
                have hcan : A = A' ++ a :: [ra] := by
                  rw [hAeq]
                obtain ⟨rfl, rfl⟩ :=
                  nodup_split_unique hrep.nodup hsplit2 hcan
                rw [hio2, hrepA'.inorder_filterMap,
                  filterMap_ext_mem (fun b _ => hcg b)]
                simp [List.filterMap_cons, hranone]
            | some pa =>
              rcases hrep.parent_struct rfl haA hna with ⟨-, hpp⟩ | hdeep
              · rw [hnp2] at hpp
                cases hpp
              · obtain ⟨pa2, pnn, cl, cr, tcl, tcr, Acl, Acr, hpp,
                  hpamem, hpax, hpnn, hpnl, hpnr, hrepcl, hrepcr, hsubcl,
                  hsubcr, hndp, hclcr⟩ := hdeep
                rw [hnp2] at hpp
                obtain rfl : pa = pa2 := Option.some.inj hpp
                have hrepaa : Rep m.heap (some a) (some pa)
                    (.node na.color tla na.key na.val .leaf)
                    (Ala ++ a :: [ra]) :=
                  Rep.node hna hnp2 hlsub hrrsub hndsub
                have hpaAas : pa ∉ Ala ++ a :: [ra] := by
                  rcases hclcr with rfl | rfl
                  · obtain ⟨-, hAeq2⟩ := Rep.unique hrepcl hrepaa
                    obtain ⟨h1, -, -, -, -⟩ := nodup_split hndp
                    rw [← hAeq2]
                    exact h1
                  · obtain ⟨-, hAeq2⟩ := Rep.unique hrepcr hrepaa
                    obtain ⟨-, h2, -, -, -⟩ := nodup_split hndp
                    rw [← hAeq2]
                    exact h2
                have hpala : pa ≠ la := fun e =>
                  hpaAas (by rw [e]; simp [hlaAla])
                have e1 : (writeN m la
                    { nla with parent := some pa }).heap a =
                    some na := by
                  rw [writeN_heap_other (Ne.symm hlaa)]
                  exact hna
                have e2 : (writeN m la
                    { nla with parent := some pa }).heap pa =
                    some pnn := by
                  rw [writeN_heap_other hpala]
                  exact hpnn
                have hisl : isLeftN (writeN m la
                    { nla with parent := some pa }) a na =
                    .ok (pnn.left == some a) := by
                  simp [isLeftN, hnp2, readP_some e2]
                by_cases hcL : (pnn.left == some a) = true
                · have hh2 : (writeN (writeN m la
                      { nla with parent := some pa }) pa
                      { pnn with left := some la }).heap =
                      hset (hset m.heap la
                        { nla with parent := some pa })
                        pa (if pnn.left == some a
                            then { pnn with left := some la }
                            else { pnn with right := some la }) := by
                    simp [writeN, hcL]
                  obtain ⟨r', t', A', u, w, hrepA', hAsplit, hA2eq,
                      hsubA', hrR, -⟩ :=
                    spliceRight_rep hrep rfl (Or.inl rfl) haA hna har
                      hnra hrleaf hal hnla hnp2 hpnn hh2
                  have hrR2 : r' = R := hrR rfl
                  rw [hrR2] at hrepA'
                  have e3 : (writeN (writeN m la
                      { nla with parent := some pa }) pa
                      { pnn with left := some la }).heap a =
                      some na := by
                    rw [writeN_heap_other (Ne.symm hpax)]
                    exact e1
                  have hlaA2 : la ∈ A' := by
                    have hmem := hlaA
                    rw [hAsplit] at hmem
                    simp only [List.mem_append, List.mem_cons] at hmem
                    rw [hA2eq]
                    simp only [List.mem_append]
                    rcases hmem with h | h | h | h
                    · exact Or.inl h
                    · exact absurd h hlaa
                    · exact absurd h hlara
                    · exact Or.inr h
                  have hplval : pnn.left = some a := by simpa using hcL
                  have hcg1 : ∀ b, liveKV (hset m.heap la
                      { nla with parent := some pa }) b =
                      liveKV m.heap b :=
                    liveKV_hset_congr hnla rfl rfl rfl
                  have e2h : hset m.heap la
                      { nla with parent := some pa } pa = some pnn := by
                    simp [hset, hpala, hpnn]
                  have hcg2 : ∀ b, liveKV (hset (hset m.heap la
                      { nla with parent := some pa }) pa
                      { pnn with left := some la }) b =
                      liveKV (hset m.heap la
                        { nla with parent := some pa }) b :=
                    liveKV_hset_congr e2h rfl rfl (by simp [hplval])
                  have hcgAll : ∀ b, liveKV (writeN (writeN m la
                      { nla with parent := some pa }) pa
                      { pnn with left := some la }).heap b =
                      liveKV m.heap b := fun b =>
                    (hcg2 b).trans (hcg1 b)
                  have hioA' : t'.inorder =
                      u.filterMap (liveKV m.heap) ++
                      w.filterMap (liveKV m.heap) := by
                    have hx := hrepA'.inorder_filterMap
                    rw [hA2eq] at hx
                    rw [hx, filterMap_ext_mem (fun b _ => hcgAll b)]
                    simp [List.filterMap_append]
                  have hcanA : A = u ++ a :: (ra :: w) := by
                    rw [hAsplit]
                  by_cases hblk : na.isBlack = true
                  · have heq3 : eraseSort (writeN (writeN m la
                        { nla with parent := some pa }) pa
                        { pnn with left := some la }) fuel la =
                        .ok m2 := by
                      rw [← heq]
                      simp only [eraseNode, readP_some hna, ok_bind, hal,
                        readP_some hnla, hlleafF, Bool.false_eq_true,
                        if_false, har, readP_some hnra, hrleaf, if_true,
                        hnp2, readP_some e1, hisl, hcL, readP_some e2,
                        pure_eq_ok, readP_some e3, hblk]
                    obtain ⟨t2, hrep2, hio2, hframe2, hsz2, hnxt2,
                        hcm2⟩ :=
                      eraseSort_rep fuel _ la R t' A' m2 hrepA' hlaA2
                        (Or.inl hrootR) heq3
                    refine ⟨t2, A', hrep2, hsubA', ?_, ?_, ?_, ?_, ?_⟩
                    · intro c hc
                      have hcA2 : c ∉ A' := fun e => hc (hsubA' c e)
                      have hcla : c ≠ la := fun e => hc (e ▸ hlaA)
                      have hcpa : c ≠ pa := fun e => hc (e ▸ hpamem)
                      rw [hframe2 c hcA2, writeN_heap_other hcpa,
                        writeN_heap_other hcla]
                    · rw [hsz2]
                      rfl
                    · rw [hnxt2]
                      rfl
                    · rw [hcm2]
                      rfl
                    · intro Au Aw hsplit2
                      obtain ⟨rfl, rfl⟩ :=
                        nodup_split_unique hrep.nodup hsplit2 hcanA
                      rw [hio2, hioA']
                      simp [List.filterMap_append, List.filterMap_cons,
                        hranone]
                  · have hblkF : na.isBlack = false := by
                      cases h2 : na.isBlack
                      · rfl
                      · exact absurd h2 hblk
                    have h0 : (Except.ok (writeN (writeN m la
                        { nla with parent := some pa }) pa
                        { pnn with left := some la }) :
                        Except Fault (Map κ ν)) = .ok m2 := by
                      rw [← heq]
                      simp only [eraseNode, readP_some hna, ok_bind, hal,
                        readP_some hnla, hlleafF, Bool.false_eq_true,
                        if_false, har, readP_some hnra, hrleaf, if_true,
                        hnp2, readP_some e1, hisl, hcL, readP_some e2,
                        pure_eq_ok, readP_some e3, hblkF]
                    obtain rfl := Except.ok.inj h0
                    refine ⟨t', A', ?_, hsubA', ?_, rfl, rfl, rfl, ?_⟩
                    · have hx : Rep (writeN (writeN m la
                          { nla with parent := some pa }) pa
                          { pnn with left := some la }).heap
                          (some m.root) none t' A' := by
                        rw [hrootR]
                        exact hrepA'
                      exact hx
                    · intro c hc
                      have hcla : c ≠ la := fun e => hc (e ▸ hlaA)
                      have hcpa : c ≠ pa := fun e => hc (e ▸ hpamem)
                      rw [show (writeN (writeN m la
                          { nla with parent := some pa }) pa
                          { pnn with left := some la }).heap c =
                          m.heap c from by
                        rw [writeN_heap_other hcpa,
                          writeN_heap_other hcla]]
                    · intro Au Aw hsplit2
                      obtain ⟨rfl, rfl⟩ :=
                        nodup_split_unique hrep.nodup hsplit2 hcanA
                      rw [hioA']
                      simp [List.filterMap_append, List.filterMap_cons,
                        hranone]
                · have hcLf : (pnn.left == some a) = false := by
                    cases h2 : (pnn.left == some a)
                    · rfl
                    · exact absurd h2 hcL
                  have hh2 : (writeN (writeN m la
                      { nla with parent := some pa }) pa
                      { pnn with right := some la }).heap =
                      hset (hset m.heap la
                        { nla with parent := some pa })
                        pa (if pnn.left == some a
                            then { pnn with left := some la }
                            else { pnn with right := some la }) := by
                    simp [writeN, hcLf]
                  obtain ⟨r', t', A', u, w, hrepA', hAsplit, hA2eq,
                      hsubA', hrR, -⟩ :=
                    spliceRight_rep hrep rfl (Or.inl rfl) haA hna har
                      hnra hrleaf hal hnla hnp2 hpnn hh2
                  have hrR2 : r' = R := hrR rfl
                  rw [hrR2] at hrepA'
                  have e3 : (writeN (writeN m la
                      { nla with parent := some pa }) pa
                      { pnn with right := some la }).heap a =
                      some na := by
                    rw [writeN_heap_other (Ne.symm hpax)]
                    exact e1
                  have hlaA2 : la ∈ A' := by
                    have hmem := hlaA
                    rw [hAsplit] at hmem
                    simp only [List.mem_append, List.mem_cons] at hmem
                    rw [hA2eq]
                    simp only [List.mem_append]
                    rcases hmem with h | h | h | h
                    · exact Or.inl h
                    · exact absurd h hlaa
                    · exact absurd h hlara
                    · exact Or.inr h
                  have hcg1 : ∀ b, liveKV (hset m.heap la
                      { nla with parent := some pa }) b =
                      liveKV m.heap b :=
                    liveKV_hset_congr hnla rfl rfl rfl
                  have e2h : hset m.heap la
                      { nla with parent := some pa } pa = some pnn := by
                    simp [hset, hpala, hpnn]
                  have hcg2 : ∀ b, liveKV (hset (hset m.heap la
                      { nla with parent := some pa }) pa
                      { pnn with right := some la }) b =
                      liveKV (hset m.heap la
                        { nla with parent := some pa }) b :=
                    liveKV_hset_congr e2h rfl rfl rfl
                  have hcgAll : ∀ b, liveKV (writeN (writeN m la
                      { nla with parent := some pa }) pa
                      { pnn with right := some la }).heap b =
                      liveKV m.heap b := fun b =>
                    (hcg2 b).trans (hcg1 b)
                  have hioA' : t'.inorder =
                      u.filterMap (liveKV m.heap) ++
                      w.filterMap (liveKV m.heap) := by
                    have hx := hrepA'.inorder_filterMap
                    rw [hA2eq] at hx
                    rw [hx, filterMap_ext_mem (fun b _ => hcgAll b)]
                    simp [List.filterMap_append]
                  have hcanA : A = u ++ a :: (ra :: w) := by
                    rw [hAsplit]
                  by_cases hblk : na.isBlack = true
                  · have heq3 : eraseSort (writeN (writeN m la
                        { nla with parent := some pa }) pa
                        { pnn with right := some la }) fuel la =
                        .ok m2 := by
                      rw [← heq]
                      simp only [eraseNode, readP_some hna, ok_bind, hal,
                        readP_some hnla, hlleafF, Bool.false_eq_true,
                        if_false, har, readP_some hnra, hrleaf, if_true,
                        hnp2, readP_some e1, hisl, hcLf, readP_some e2,
                        pure_eq_ok, readP_some e3, hblk]
                    obtain ⟨t2, hrep2, hio2, hframe2, hsz2, hnxt2,
                        hcm2⟩ :=
                      eraseSort_rep fuel _ la R t' A' m2 hrepA' hlaA2
                        (Or.inl hrootR) heq3
                    refine ⟨t2, A', hrep2, hsubA', ?_, ?_, ?_, ?_, ?_⟩
                    · intro c hc
                      have hcA2 : c ∉ A' := fun e => hc (hsubA' c e)
                      have hcla : c ≠ la := fun e => hc (e ▸ hlaA)
                      have hcpa : c ≠ pa := fun e => hc (e ▸ hpamem)
                      rw [hframe2 c hcA2, writeN_heap_other hcpa,
                        writeN_heap_other hcla]
                    · rw [hsz2]
                      rfl
                    · rw [hnxt2]
                      rfl
                    · rw [hcm2]
                      rfl
                    · intro Au Aw hsplit2
                      obtain ⟨rfl, rfl⟩ :=
                        nodup_split_unique hrep.nodup hsplit2 hcanA
                      rw [hio2, hioA']
                      simp [List.filterMap_append, List.filterMap_cons,
                        hranone]
                  · have hblkF : na.isBlack = false := by
                      cases h2 : na.isBlack
                      · rfl
                      · exact absurd h2 hblk
                    have h0 : (Except.ok (writeN (writeN m la
                        { nla with parent := some pa }) pa
                        { pnn with right := some la }) :
                        Except Fault (Map κ ν)) = .ok m2 := by
                      rw [← heq]
                      simp only [eraseNode, readP_some hna, ok_bind, hal,
                        readP_some hnla, hlleafF, Bool.false_eq_true,
                        if_false, har, readP_some hnra, hrleaf, if_true,
                        hnp2, readP_some e1, hisl, hcLf, readP_some e2,
                        pure_eq_ok, readP_some e3, hblkF]
                    obtain rfl := Except.ok.inj h0
                    refine ⟨t', A', ?_, hsubA', ?_, rfl, rfl, rfl, ?_⟩
                    · have hx : Rep (writeN (writeN m la
                          { nla with parent := some pa }) pa
                          { pnn with right := some la }).heap
                          (some m.root) none t' A' := by
                        rw [hrootR]
                        exact hrepA'
                      exact hx
                    · intro c hc
                      have hcla : c ≠ la := fun e => hc (e ▸ hlaA)
                      have hcpa : c ≠ pa := fun e => hc (e ▸ hpamem)
                      rw [show (writeN (writeN m la
                          { nla with parent := some pa }) pa
                          { pnn with right := some la }).heap c =
                          m.heap c from by
                        rw [writeN_heap_other hcpa,
                          writeN_heap_other hcla]]
                    · intro Au Aw hsplit2
                      obtain ⟨rfl, rfl⟩ :=
                        nodup_split_unique hrep.nodup hsplit2 hcanA
                      rw [hioA']
                      simp [List.filterMap_append, List.filterMap_cons,
                        hranone]
        · -- both children live: copy the in-order predecessor and recurse
          have hrleafF : nra.isLeaf = false := by
            cases h2 : nra.isLeaf
            · rfl
            · exact absurd h2 hrleaf
          have htlane : tla ≠ .leaf := fun e =>
            hlleaf ((hlsub2.leaf_iff hnla).2 e)
          cases hloop : leftMostLoop m (fuel + 1) na.left with
          | error f =>
            have hglm : getLeftMostChild m (fuel + 1) a = .error f := by
              simp [getLeftMostChild, readP_some hna, hloop]
            have hbad : (Except.error f : Except Fault (Map κ ν)) =
                .ok m2 := by
              rw [← heq]
              simp only [eraseNode, readP_some hna, ok_bind, hal,
                readP_some hnla, hlleafF, Bool.false_eq_true, if_false,
                har, readP_some hnra, hrleafF, hglm, error_bind]
            cases hbad
          | ok v =>
            obtain ⟨-, hokr⟩ := leftMostLoop_ok hlsub (fuel + 1) v hloop
            obtain ⟨lm, nlm, sl, nsl, hv, hnlm, hlmmem, hlmr, hsl,
              hsleaf, Alpre, hAlpre⟩ := hokr htlane
            subst hv
            have hglm : getLeftMostChild m (fuel + 1) a =
                .ok (some lm) := by
              simp [getLeftMostChild, readP_some hna, hloop]
            have hlmA : lm ∈ A := by
              rw [hAaeq]
              simp [hlmmem]
            have hlma : lm ≠ a := fun e => haAla (e ▸ hlmmem)
            have hnlm2 : (writeN m a { na with key := nlm.key, val := nlm.val }).heap lm = some nlm := by
              rw [writeN_heap_other hlma]
              exact hnlm
            have hnlmlive : nlm.isLeaf = false := by
              simp [Node.isLeaf, hlmr]
            have hsetkv : ∃ tc, Rep (hset m.heap a { na with key := nlm.key, val := nlm.val }) (some R) none tc A :=
              hrep.setKV haA hna hlive
            obtain ⟨tc, hrepc0⟩ := hsetkv
            have hrepc : Rep (writeN m a { na with key := nlm.key, val := nlm.val }).heap (some R) none tc A := hrepc0
            have hRB2 : ∀ nR, (writeN m a { na with key := nlm.key, val := nlm.val }).heap R = some nR →
                nR.color = BLACK := by
              intro nR hnR
              by_cases hRa : R = a
              · subst hRa
                rw [writeN_heap_same] at hnR
                cases Option.some.inj hnR
                exact hRB na hna
              · rw [writeN_heap_other hRa] at hnR
                exact hRB nR hnR
            have heq3 : eraseNode (writeN m a { na with key := nlm.key, val := nlm.val }) fuel lm = .ok m2 := by
              rw [← heq]
              simp only [eraseNode, readP_some hna, ok_bind, hal,
                readP_some hnla, hlleafF, Bool.false_eq_true, if_false,
                har, readP_some hnra, hrleafF, hglm, readP_some hnlm,
                pure_eq_ok]
            obtain ⟨t2, A2, hrep2, hsub2, hframe2, hsz2, hnxt2, hcm2,
                hpos2⟩ :=
              ih (writeN m a { na with key := nlm.key, val := nlm.val })
                lm R tc A nlm m2 hrepc hrootR hRB2 hlmA hnlm2 hnlmlive
                heq3
            refine ⟨t2, A2, hrep2, hsub2, ?_, ?_, ?_, ?_, ?_⟩
            · intro c hc
              have hca : c ≠ a := fun e => hc (e ▸ haA)
              rw [hframe2 c hc, writeN_heap_other hca]
            · rw [hsz2]
              rfl
            · rw [hnxt2]
              rfl
            · rw [hcm2]
              rfl
            · intro Au Aw hsplit2
              have hcanA : A = (U ++ (Alpre ++ [lm, sl])) ++
                  a :: (Ara ++ V) := by
                rw [hAaeq, hAlpre]
                simp
              have hcanLm : A = (U ++ Alpre) ++
                  lm :: (sl :: a :: (Ara ++ V)) := by
                rw [hAaeq, hAlpre]
                simp
              obtain ⟨rfl, rfl⟩ :=
                nodup_split_unique hrep.nodup hsplit2 hcanA
              have hndA := hrep.nodup
              rw [hcanA] at hndA
              obtain ⟨haU, haW, -, -, -⟩ := nodup_split hndA
              have hsla2 : sl ≠ a := fun e => haU (by rw [← e]; simp)
              obtain ⟨hslL, hslR⟩ : nsl.left = none ∧
                  nsl.right = none := by
                have hx := hsleaf
                simp only [Node.isLeaf, Bool.and_eq_true,
                  Option.isNone_iff_eq_none] at hx
                exact hx
              have hslnone : liveKV m.heap sl = none := by
                simp [liveKV, hsl, hslL]
              obtain ⟨nbx, hnbx, hshx⟩ := hlsub2.mem_shape lm hlmmem
              rw [hnlm] at hnbx
              cases Option.some.inj hnbx
              have hlmleft : ∃ bl, nlm.left = some bl := by
                rcases hshx with ⟨-, e2, -⟩ | ⟨bl, br, e1, -, -, -⟩
                · rw [hlmr] at e2
                  cases e2
                · exact ⟨bl, e1⟩
              obtain ⟨bl, hlmleft2⟩ := hlmleft
              have hlmlive : liveKV m.heap lm =
                  some (nlm.key, nlm.val) := by
                simp [liveKV, hnlm, hlmleft2]
              have hcga : liveKV (writeN m a { na with key := nlm.key, val := nlm.val }).heap a =
                  some (nlm.key, nlm.val) := by
                simp [liveKV, writeN, hset, hal]
              have hcgne : ∀ b, b ≠ a → liveKV (writeN m a { na with key := nlm.key, val := nlm.val }).heap b =
                  liveKV m.heap b := by
                intro b hb
                simp [liveKV, writeN, hset, hb]
              rw [hpos2 (U ++ Alpre) (sl :: a :: (Ara ++ V)) hcanLm]
              rw [filterMap_ext_mem (fun b hb =>
                hcgne b (fun e => haU (by
                  rw [← e]
                  rcases List.mem_append.1 hb with h | h
                  · exact List.mem_append_left _ h
                  · exact List.mem_append_right _
                      (List.mem_append_left _ h))))]
              simp only [List.filterMap_cons, hcga]
              rw [show liveKV (writeN m a { na with key := nlm.key, val := nlm.val }).heap sl = none from by
                rw [hcgne sl hsla2]
                exact hslnone]
              rw [filterMap_ext_mem (fun b hb => hcgne b (fun e =>
                haW (by rw [← e]; exact hb)))]
              simp [List.filterMap_append, List.filterMap_cons,
                hlmlive, hslnone]

/-- Laws a comparator must satisfy for the map to behave as a search tree:
`1` behaves as a strict "less", `2` as a strict "greater", and anything
else as equality (the repository's `int` comparator satisfies them). -/
structure CmpLaws {κ : Type} (cmp : κ → κ → Nat) : Prop where
  irrefl1 : ∀ x, cmp x x ≠ 1
  irrefl2 : ∀ x, cmp x x ≠ 2
  asymm : ∀ x y, cmp x y = 1 → cmp y x ≠ 1
  eq_of : ∀ x y, cmp x y ≠ 1 → cmp x y ≠ 2 → x = y

/-- `findNode` on a represented, in-order-sorted region: whenever it
returns without a fault, it lands on a region member; a sentinel exactly
when the key is absent, and otherwise on the live node holding the key. -/
theorem findNode_ok {κ ν : Type} {m : Map κ ν} {p par : Option Nat}
    {t : Tree κ ν} {A : List Nat} (hrep : Rep m.heap p par t A) :
    ∀ (fuel : Nat) (key : κ) (a : Nat), CmpLaws m.compareFunc →
      t.inorder.Pairwise (fun x y => m.compareFunc x.1 y.1 = 1) →
      findNode m fuel p key = .ok a →
      a ∈ A ∧ ∃ n, m.heap a = some n ∧
        ((n.isLeaf = true ∧ ∀ q2 ∈ t.inorder, q2.1 ≠ key) ∨
         (n.isLeaf = false ∧ n.key = key ∧ (key, n.val) ∈ t.inorder)) := by
  induction hrep with
  | @leaf a0 par n ha h1 h2 h3 h4 =>
    intro fuel key a hlaws hsort heq
    match fuel with
    | 0 => simp [findNode] at heq
    | fuel + 1 =>
      have hleaf : n.isLeaf = true := by simp [Node.isLeaf, h1, h2]
      simp [findNode, readP_some ha, hleaf] at heq
      subst heq
      exact ⟨by simp, n, ha, Or.inl ⟨hleaf, by simp [Tree.inorder]⟩⟩
  | @node a0 par q tl tr Al Ar ha hp hl hrr hnd ihl ihr =>
    intro fuel key a hlaws hsort heq
    match fuel with
    | 0 => simp [findNode] at heq
    | fuel + 1 =>
      obtain ⟨la, hla⟩ := hl.p_some
      have hleaf : q.isLeaf = false := by simp [Node.isLeaf, hla]
      simp only [findNode, readP_some ha, ok_bind, hleaf,
        Bool.false_eq_true, if_false] at heq
      have hsortIO := hsort
      simp only [Tree.inorder] at hsortIO
      obtain ⟨hpw1, hpw2, hcross⟩ := List.pairwise_append.1 hsortIO
      obtain ⟨hhead, hpwr⟩ := List.pairwise_cons.1 hpw2
      by_cases hc1 : m.compareFunc key q.key = 1
      · rw [if_pos hc1] at heq
        obtain ⟨hmem, n2, hn2, hcase⟩ := ihl fuel key a hlaws hpw1 heq
        refine ⟨by simp [hmem], n2, hn2, ?_⟩
        rcases hcase with ⟨hlf, hnone⟩ | ⟨hlf, hkeq, hmemio⟩
        · refine Or.inl ⟨hlf, ?_⟩
          intro q2 hq2
          simp only [Tree.inorder] at hq2
          rcases List.mem_append.1 hq2 with hm | hm
          · exact hnone q2 hm
          · rcases List.mem_cons.1 hm with rfl | hm2
            · exact fun e => hlaws.irrefl1 key (e ▸ hc1)
            · exact fun e =>
                hlaws.asymm key q.key hc1 (e ▸ hhead q2 hm2)
        · refine Or.inr ⟨hlf, hkeq, ?_⟩
          simp only [Tree.inorder]
          exact List.mem_append_left _ hmemio
      · rw [if_neg hc1] at heq
        by_cases hc2 : m.compareFunc key q.key = 2
        · rw [if_pos hc2] at heq
          obtain ⟨hmem, n2, hn2, hcase⟩ := ihr fuel key a hlaws hpwr heq
          refine ⟨by simp [hmem], n2, hn2, ?_⟩
          rcases hcase with ⟨hlf, hnone⟩ | ⟨hlf, hkeq, hmemio⟩
          · refine Or.inl ⟨hlf, ?_⟩
            intro q2 hq2
            simp only [Tree.inorder] at hq2
            rcases List.mem_append.1 hq2 with hm | hm
            · intro e
              have h1 : m.compareFunc q2.1 q.key = 1 :=
                hcross q2 hm (q.key, q.val) (by simp)
              rw [e] at h1
              rw [h1] at hc2
              cases hc2
            · rcases List.mem_cons.1 hm with rfl | hm2
              · exact fun e => hlaws.irrefl2 key (e ▸ hc2)
              · exact hnone q2 hm2
          · refine Or.inr ⟨hlf, hkeq, ?_⟩
            simp only [Tree.inorder]
            exact List.mem_append_right _ (List.mem_cons_of_mem _ hmemio)
        · rw [if_neg hc2] at heq
          simp only [pure_eq_ok, Except.ok.injEq] at heq
          subst heq
          have hkq : key = q.key := hlaws.eq_of key q.key hc1 hc2
          refine ⟨by simp, q, ha, Or.inr ⟨hleaf, hkq.symm, ?_⟩⟩
          simp only [Tree.inorder]
          refine List.mem_append_right _ ?_
          rw [hkq]
          simp

/-- Claim C5: on a represented search tree (sorted in-order, BLACK root,
law-abiding comparator), deleting an absent key reports `notExists` and
changes nothing; and after a successful `Delete`, the key is gone — `Get`
misses and a second `Delete` reports `notExists` without changing the
map.  Conditioned on the runs returning without a fault. -/
theorem Delete_lookup {κ ν : Type} [Inhabited ν] {m : Map κ ν} {R : Nat}
    {t : Tree κ ν} {A : List Nat}
    (hrep : Rep m.heap (some R) none t A) (hrootR : m.root = R)
    (hRB : ∀ nR, m.heap R = some nR → nR.color = BLACK)
    (hlaws : CmpLaws m.compareFunc)
    (hsort : t.inorder.Pairwise (fun x y => m.compareFunc x.1 y.1 = 1)) :
    ∀ (fuel : Nat) (key : κ) (r : Option Err) (m2 : Map κ ν),
      Delete m fuel key = .ok (r, m2) →
      ((∀ q2 ∈ t.inorder, q2.1 ≠ key) →
        r = some .notExists ∧ m2 = m) ∧
      (r = none →
        ∀ (fuel2 : Nat) (g : Bool) (gv : ν),
          Get m2 fuel2 key = .ok (g, gv) → g = false) ∧
      (r = none →
        ∀ (fuel2 : Nat) (r2 : Option Err) (m3 : Map κ ν),
          Delete m2 fuel2 key = .ok (r2, m3) →
          r2 = some .notExists ∧ m3 = m2) := by
  intro fuel key r m2 heq
  cases hf : findNode m fuel (some m.root) key with
  | error f =>
    rw [show Delete m fuel key = .error f from by simp [Delete, hf]] at heq
    cases heq
  | ok a =>
    have hfR := hf
    rw [hrootR] at hfR
    cases hha : m.heap a with
    | none =>
      rw [show Delete m fuel key = .error .dangling from by
        simp [Delete, hf, readP, hha]] at heq
      cases heq
    | some n =>
      obtain ⟨haA, n2, hn2, hcase⟩ :=
        findNode_ok hrep fuel key a hlaws hsort hfR
      obtain rfl : n = n2 := Option.some.inj (hha.symm.trans hn2)
      by_cases hleaf : n.isLeaf = true
      · -- the search ended on a sentinel: the key is absent
        rw [show Delete m fuel key = .ok (some .notExists, m) from by
          simp [Delete, hf, readP_some hha, hleaf]] at heq
        obtain ⟨rfl, rfl⟩ := Prod.mk.inj (Except.ok.inj heq)
        refine ⟨fun _ => ⟨rfl, rfl⟩, ?_, ?_⟩
        · intro hr
          cases hr
        · intro hr
          cases hr
      · have hleafF : n.isLeaf = false := by
          cases h2 : n.isLeaf
          · rfl
          · exact absurd h2 hleaf
        rcases hcase with ⟨hl2, -⟩ | ⟨-, hkeq, hmemio⟩
        · rw [hl2] at hleafF
          cases hleafF
        cases her : eraseNode m fuel a with
        | error f =>
          rw [show Delete m fuel key = .error f from by
            simp [Delete, hf, readP_some hha, hleafF, her]] at heq
          cases heq
        | ok mE =>
          rw [show Delete m fuel key = .ok (none, mE) from by
            simp [Delete, hf, readP_some hha, hleafF, her]] at heq
          obtain ⟨rfl, rfl⟩ := Prod.mk.inj (Except.ok.inj heq)
          obtain ⟨t2, A2, hrep2, hsub2, hframe2, hsz2, hnxt2, hcm2,
              hpos2⟩ :=
            eraseNode_rep fuel m a R t A n mE hrep hrootR hRB haA hha
              hleafF her
          obtain ⟨Au, Aw, hAeqs⟩ := List.append_of_mem haA
          have hio2 := hpos2 Au Aw hAeqs
          obtain ⟨nb, hnb, hshape⟩ := hrep.mem_shape a haA
          rw [hha] at hnb
          obtain rfl : n = nb := Option.some.inj hnb
          have hbl : ∃ blx, n.left = some blx := by
            rcases hshape with ⟨e1, e2, -⟩ | ⟨blx, brx, e1, -, -, -⟩
            · rw [show n.isLeaf = true from by
                simp [Node.isLeaf, e1, e2]] at hleafF
              cases hleafF
            · exact ⟨blx, e1⟩
          obtain ⟨blx, hbl2⟩ := hbl
          have hliveA : liveKV m.heap a = some (n.key, n.val) := by
            simp [liveKV, hha, hbl2]
          have hioT : t.inorder = Au.filterMap (liveKV m.heap) ++
              (n.key, n.val) :: Aw.filterMap (liveKV m.heap) := by
            rw [hrep.inorder_filterMap, hAeqs]
            simp [List.filterMap_append, List.filterMap_cons, hliveA]
          have hsortIO := hsort
          rw [hioT] at hsortIO
          obtain ⟨hpw1, hpw2, hcross⟩ := List.pairwise_append.1 hsortIO
          obtain ⟨hhead, hpwr⟩ := List.pairwise_cons.1 hpw2
          have hnokey : ∀ q2 ∈ Au.filterMap (liveKV m.heap) ++
              Aw.filterMap (liveKV m.heap), q2.1 ≠ key := by
            intro q2 hm e
            rcases List.mem_append.1 hm with hm2 | hm2
            · have h1 : m.compareFunc q2.1 n.key = 1 :=
                hcross q2 hm2 (n.key, n.val) (by simp)
              rw [e, hkeq] at h1
              exact hlaws.irrefl1 key h1
            · have h1 : m.compareFunc n.key q2.1 = 1 := hhead q2 hm2
              rw [e, hkeq] at h1
              exact hlaws.irrefl1 key h1
          have hsort2 : t2.inorder.Pairwise
              (fun x y => m.compareFunc x.1 y.1 = 1) := by
            rw [hio2]
            exact hsortIO.sublist
              (List.Sublist.append (List.Sublist.refl _)
                (List.sublist_cons_self _ _))
          refine ⟨?_, ?_, ?_⟩
          · intro habs
            exact absurd hkeq (fun e =>
              (habs (key, n.val) hmemio) rfl)
          · intro _ fuel2 g gv heqget
            cases hf2 : findNode mE fuel2 (some mE.root) key with
            | error f =>
              rw [show Get mE fuel2 key = .error f from by
                simp [Get, hf2]] at heqget
              cases heqget
            | ok a2 =>
              have hlaws2 : CmpLaws mE.compareFunc := by
                rw [hcm2]
                exact hlaws
              have hsort2m : t2.inorder.Pairwise
                  (fun x y => mE.compareFunc x.1 y.1 = 1) := by
                rw [hcm2]
                exact hsort2
              obtain ⟨ha2A, nn2, hn22, hcase2⟩ :=
                findNode_ok hrep2 fuel2 key a2 hlaws2 hsort2m hf2
              rcases hcase2 with ⟨hlf2, -⟩ | ⟨-, hk2, hmem2⟩
              · rw [show Get mE fuel2 key =
                    .ok (false, (default : ν)) from by
                  simp [Get, hf2, readP_some hn22, hlf2]] at heqget
                exact ((Prod.mk.inj (Except.ok.inj heqget)).1).symm
              · exfalso
                rw [hio2] at hmem2
                exact hnokey _ hmem2 rfl
          · intro _ fuel2 r2 m3 heqdel
            cases hf3 : findNode mE fuel2 (some mE.root) key with
            | error f =>
              rw [show Delete mE fuel2 key = .error f from by
                simp [Delete, hf3]] at heqdel
              cases heqdel
            | ok a3 =>
              have hlaws2 : CmpLaws mE.compareFunc := by
                rw [hcm2]
                exact hlaws
              have hsort2m : t2.inorder.Pairwise
                  (fun x y => mE.compareFunc x.1 y.1 = 1) := by
                rw [hcm2]
                exact hsort2
              obtain ⟨ha3A, nn3, hn33, hcase3⟩ :=
                findNode_ok hrep2 fuel2 key a3 hlaws2 hsort2m hf3
              rcases hcase3 with ⟨hlf3, -⟩ | ⟨-, hk3, hmem3⟩
              · rw [show Delete mE fuel2 key =
                    .ok (some .notExists, mE) from by
                  simp [Delete, hf3, readP_some hn33, hlf3]] at heqdel
                obtain ⟨rfl, rfl⟩ := Prod.mk.inj (Except.ok.inj heqdel)
                exact ⟨rfl, rfl⟩
              · exfalso
                rw [hio2] at hmem3
                exact hnokey _ hmem3 rfl

/-! ## Claims -/
/-- Claim C6: a tree satisfying the red-black invariants of the data model
(properties 1–5: colors, BLACK root and sentinels, no red-red edge, equal
black-height) with `n` live nodes has height at most `2·log₂(n + 1)` —
the bound the spec states for every tree the public operations produce. -/
theorem height_le_two_log {κ ν : Type} {t : Tree κ ν} {h : Nat}
    (hrb : IsRB t h) (hroot : t.rootBlack = true) :
    t.height ≤ 2 * Nat.log 2 (t.size + 1) := by
  have h1 := hrb.height_le.2 hroot
  have h2 := hrb.size_lower
  have h3 : h ≤ Nat.log 2 (t.size + 1) :=
    (Nat.pow_le_iff_le_log (by norm_num) (by omega)).mp h2
  omega

/-- Witness for C6 on the two-entry tree of `exMap2`: black-height 1,
height 2, two live nodes, and indeed 2 ≤ 2·log₂ 3 = 2. -/
theorem height_le_two_log_witness :
    IsRB (.node BLACK .leaf (5 : Nat) (50 : Nat)
        (.node RED .leaf 8 80 .leaf)) 1 ∧
    Tree.height (κ := Nat) (ν := Nat)
        (.node BLACK .leaf 5 50 (.node RED .leaf 8 80 .leaf)) ≤
      2 * Nat.log 2 (Tree.size (κ := Nat) (ν := Nat)
        (.node BLACK .leaf 5 50 (.node RED .leaf 8 80 .leaf)) + 1) := by
  have hrb : IsRB (.node BLACK .leaf (5 : Nat) (50 : Nat)
      (.node RED .leaf 8 80 .leaf)) 1 :=
    IsRB.black IsRB.leaf (IsRB.red IsRB.leaf IsRB.leaf rfl rfl)
  exact ⟨hrb, height_le_two_log hrb rfl⟩


/-- A two-entry map: BLACK root (5 ↦ 50) at address 0 with a RED right
child (8 ↦ 80) at address 1; sentinels at 2, 3, 4. -/
def exMap2 : Map Nat Nat :=
  { heap :=
      hset (hset (hset (hset (hset (fun _ => none) 0
          { key := 5, val := 50, left := some 2, right := some 1,
            parent := none, color := BLACK })
        1 { key := 8, val := 80, left := some 3, right := some 4,
            parent := some 0, color := RED })
        2 { key := 0, val := 0, left := none, right := none,
            parent := some 0, color := BLACK })
        3 { key := 0, val := 0, left := none, right := none,
            parent := some 1, color := BLACK })
        4 { key := 0, val := 0, left := none, right := none,
            parent := some 1, color := BLACK },
    root := 0, size := 2, compareFunc := natCmp, next := 5 }

/-- The two-entry map is a well-formed region. -/
theorem exMap2_rep : Rep exMap2.heap (some 0) none
    (.node BLACK .leaf 5 50 (.node RED .leaf 8 80 .leaf))
    ([2] ++ 0 :: ([3] ++ 1 :: [4])) := by
  refine Rep.node
    (n := { key := 5, val := 50, left := some 2, right := some 1,
            parent := none, color := BLACK }) rfl rfl ?_ ?_ (by decide)
  · exact Rep.leaf
      (n := { key := 0, val := 0, left := none, right := none,
              parent := some 0, color := BLACK }) rfl rfl rfl rfl rfl
  · refine Rep.node
      (n := { key := 8, val := 80, left := some 3, right := some 4,
              parent := some 0, color := RED }) rfl rfl ?_ ?_ (by decide)
    · exact Rep.leaf
        (n := { key := 0, val := 0, left := none, right := none,
                parent := some 1, color := BLACK }) rfl rfl rfl rfl rfl
    · exact Rep.leaf
        (n := { key := 0, val := 0, left := none, right := none,
                parent := some 1, color := BLACK }) rfl rfl rfl rfl rfl

/-- Claim C7: on a well-formed tree, `rotateLeft` at any node whose right
child is live — and symmetrically `rotateRight` at any node whose left
child is live — succeeds (no fault) and leaves the in-order (key, value)
sequence of the whole tree unchanged. -/
theorem rotate_preserves_inorder {κ ν : Type} {m : Map κ ν}
    {t : Tree κ ν} {A : List Nat}
    (hrep : Rep m.heap (some m.root) none t A)
    {a b : Nat} {n nb : Node κ ν} (ha : a ∈ A)
    (hn : m.heap a = some n) (hb : m.heap b = some nb)
    (hbl : nb.isLeaf = false) :
    (n.right = some b →
      ∃ m' t', rotateLeft m (some a) = .ok m' ∧
        Rep m'.heap (some m'.root) none t' A ∧ t'.inorder = t.inorder) ∧
    (n.left = some b →
      ∃ m' t', rotateRight m (some a) = .ok m' ∧
        Rep m'.heap (some m'.root) none t' A ∧ t'.inorder = t.inorder) := by
  constructor
  · intro hnr
    obtain ⟨m', r', t', heq, hrep', hio, -, hroot, -, -, -, -⟩ :=
      rotateLeft_rep hrep rfl (Or.inl ⟨rfl, rfl⟩) ha hn hnr hb hbl
    refine ⟨m', t', heq, ?_, hio⟩
    rw [hroot rfl]
    exact hrep'
  · intro hnl
    obtain ⟨m', r', t', heq, hrep', hio, -, hroot, -, -, -, -⟩ :=
      rotateRight_rep hrep rfl (Or.inl ⟨rfl, rfl⟩) ha hn hnl hb hbl
    refine ⟨m', t', heq, ?_, hio⟩
    rw [hroot rfl]
    exact hrep'

/-- Claim C8: when deletion reaches a node whose two children are both
live, `eraseNode` finds the in-order predecessor — the rightmost node `p`
of the left subtree, the last entry of that subtree's in-order sequence,
whose own right child is a sentinel (so `p` has at most one live child) —
copies `p`'s key and value into the target node, and recurses deletion on
`p`. -/
theorem eraseNode_two_children {κ ν : Type} {m : Map κ ν} {a : Nat}
    {n nl nr : Node κ ν} {la ra : Nat} {tl : Tree κ ν} {Al : List Nat}
    {fuel : Nat}
    (hn : m.heap a = some n)
    (hnleft : n.left = some la) (hl : m.heap la = some nl)
    (hll : nl.isLeaf = false)
    (hnright : n.right = some ra) (hr : m.heap ra = some nr)
    (hrl : nr.isLeaf = false)
    (hrep : Rep m.heap n.left (some a) tl Al)
    (hfuel : tl.size < fuel + 1) :
    ∃ p np sl nsl,
      getLeftMostChild m (fuel + 1) a = .ok (some p) ∧
      m.heap p = some np ∧ p ∈ Al ∧
      tl.inorder.getLast? = some (np.key, np.val) ∧
      np.right = some sl ∧ m.heap sl = some nsl ∧ nsl.isLeaf = true ∧
      eraseNode m (fuel + 1) a =
        eraseNode (writeN m a { n with key := np.key, val := np.val })
          fuel p := by
  have hne : tl ≠ .leaf := by
    intro h
    subst h
    have hrep2 := hrep
    rw [hnleft] at hrep2
    cases hrep2 with
    | leaf hb k1 k2 =>
      rw [hb] at hl
      obtain rfl : nl = _ := Option.some.inj hl.symm
      rw [Node.isLeaf, k1, k2] at hll
      simp at hll
  obtain ⟨-, hloop⟩ := leftMostLoop_rep hrep (fuel + 1) hfuel
  obtain ⟨p, np, sl, nsl, hlp, hnp, hpmem, hlast, hnpr, hsl, hsleaf, -⟩ :=
    hloop hne
  have hglm : getLeftMostChild m (fuel + 1) a = .ok (some p) := by
    simp [getLeftMostChild, readP_some hn, hlp]
  refine ⟨p, np, sl, nsl, hglm, hnp, hpmem, hlast, hnpr, hsl, hsleaf, ?_⟩
  simp only [eraseNode, readP_some hn, ok_bind, pure_eq_ok, hnleft,
    readP_some hl, hll, hnright, readP_some hr, hrl, hglm, readP_some hnp,
    Bool.false_eq_true, if_false]

/-- A three-entry map: BLACK root (5 ↦ 50) at address 0, RED children
(3 ↦ 30) at 1 and (8 ↦ 80) at 2, sentinels at 3..6. -/
def exMap3 : Map Nat Nat :=
  { heap :=
      hset (hset (hset (hset (hset (hset (hset (fun _ => none) 0
          { key := 5, val := 50, left := some 1, right := some 2,
            parent := none, color := BLACK })
        1 { key := 3, val := 30, left := some 3, right := some 4,
            parent := some 0, color := RED })
        2 { key := 8, val := 80, left := some 5, right := some 6,
            parent := some 0, color := RED })
        3 { key := 0, val := 0, left := none, right := none,
            parent := some 1, color := BLACK })
        4 { key := 0, val := 0, left := none, right := none,
            parent := some 1, color := BLACK })
        5 { key := 0, val := 0, left := none, right := none,
            parent := some 2, color := BLACK })
        6 { key := 0, val := 0, left := none, right := none,
            parent := some 2, color := BLACK },
    root := 0, size := 3, compareFunc := natCmp, next := 7 }

/-- The left subtree of `exMap3` is a represented region under the root. -/
theorem exMap3_repL : Rep exMap3.heap (some 1) (some 0)
    (.node RED .leaf 3 30 .leaf) ([3] ++ 1 :: [4]) := by
  refine Rep.node
    (n := { key := 3, val := 30, left := some 3, right := some 4,
            parent := some 0, color := RED }) rfl rfl ?_ ?_ (by decide)
  · exact Rep.leaf
      (n := { key := 0, val := 0, left := none, right := none,
              parent := some 1, color := BLACK }) rfl rfl rfl rfl rfl
  · exact Rep.leaf
      (n := { key := 0, val := 0, left := none, right := none,
              parent := some 1, color := BLACK }) rfl rfl rfl rfl rfl

/-- Witness for C8: deleting the root of the three-entry map locates the
predecessor (3 ↦ 30) at address 1, copies its key/value into the root, and
recurses deletion on address 1. -/
theorem eraseNode_two_children_witness :
    getLeftMostChild exMap3 4 0 = .ok (some 1) ∧
    eraseNode exMap3 4 0 =
      eraseNode (writeN exMap3 0
        { key := 3, val := 30, left := some 1, right := some 2,
          parent := none, color := BLACK }) 3 1 := by
  obtain ⟨p, np, sl, nsl, hglm, hnp, -, -, -, -, -, herase⟩ :=
    @eraseNode_two_children Nat Nat exMap3 0
      { key := 5, val := 50, left := some 1, right := some 2,
        parent := none, color := BLACK }
      { key := 3, val := 30, left := some 3, right := some 4,
        parent := some 0, color := RED }
      { key := 8, val := 80, left := some 5, right := some 6,
        parent := some 0, color := RED }
      1 2 (.node RED .leaf 3 30 .leaf) ([3] ++ 1 :: [4]) 3
      rfl rfl rfl rfl rfl rfl rfl exMap3_repL (by decide)
  have hcomp : getLeftMostChild exMap3 4 0 = .ok (some 1) := rfl
  obtain rfl : p = 1 :=
    Option.some.inj (Except.ok.inj (hglm.symm.trans hcomp))
  obtain rfl : np =
      { key := 3, val := 30, left := some 3, right := some 4,
        parent := some 0, color := RED } :=
    Option.some.inj (hnp.symm.trans rfl)
  exact ⟨hcomp, herase⟩

/-- Witness for C7: rotating the two-entry map left at its root succeeds
and the traversal still yields the same ascending sequence. -/
theorem rotate_preserves_inorder_witness :
    (rotateLeft exMap2 (some 0)).map
        (fun m2 => ran m2 9 (some m2.root)) =
      .ok (.ok [(5, 50), (8, 80)]) := by
  obtain ⟨hleft, -⟩ := rotate_preserves_inorder exMap2_rep
    (a := 0) (b := 1)
    (n := { key := 5, val := 50, left := some 2, right := some 1,
            parent := none, color := BLACK })
    (by decide) rfl rfl rfl
  obtain ⟨m', t', heq, hrep', hio⟩ := hleft rfl
  rw [heq, exmap_ok]
  have hlen : t'.inorder.length = 2 := by rw [hio]; rfl
  have hsz : t'.size < 9 := by
    rw [Tree.size_eq_inorder_length, hlen]
    omega
  rw [ran_rep hrep' 9 hsz, hio]
  rfl



/-- Claim C2 (code bug): in the concrete scenario of the spec and of the
repository's own test — insert keys 1..10 with values i+1, then delete keys
1..9 — the tree really ends with exactly one live node (the traversal yields
just the pair (10, 11)), but `Len` still returns 10: `Delete` never
decrements the `size` counter, while `Len`'s own doc comment and the spec
say it counts the value-holding nodes. -/
theorem delete_does_not_decrement_size :
    testAfterAdds.map Len = .ok 10 ∧
    testAfterDeletes.map Len = .ok 10 ∧
    testAfterDeletes.map (fun m => (RangeList m 64).toOption) =
      .ok (some [(10, 11)]) :=
  ⟨rfl, rfl, rfl⟩

/-- Claim C10: at a live node, the lookup used by `Add`, `Delete`, `Set` and
`Get` calls the comparator with the searched-for key first and the stored
key second, descends left exactly on result 1, descends right exactly on
result 2, and stops declaring a match on every other result. -/
theorem findNode_step {κ ν : Type} (m : Map κ ν) (fuel a : Nat)
    (n : Node κ ν) (key : κ) (hget : m.heap a = some n)
    (hlive : n.isLeaf = false) :
    findNode m (fuel + 1) (some a) key =
      (if m.compareFunc key n.key = 1 then findNode m fuel n.left key
       else if m.compareFunc key n.key = 2 then findNode m fuel n.right key
       else .ok a) := by
  simp [findNode, readP_some hget, hlive]

/-- Witness for C10, exercising the catch-all branch: with a comparator that
always answers 3 (neither 0, 1 nor 2), the lookup stops at the root and
declares a match even though the searched key 42 is not the stored key 5. -/
theorem findNode_step_witness :
    cmp3Map.heap 0 =
      some { key := 5, val := 7, left := some 1, right := some 2,
             parent := none, color := BLACK } ∧
    findNode cmp3Map 4 (some 0) 42 = .ok 0 := by
  refine ⟨rfl, ?_⟩
  have h := findNode_step cmp3Map 3 0
    { key := 5, val := 7, left := some 1, right := some 2, parent := none,
      color := BLACK } 42 rfl rfl
  simpa [cmp3Map, exMap] using h

/-- Claim C4: when the lookup for `key` lands on a live node, `Add`
overwrites that node's value, returns the already-exists error, and leaves
everything else untouched: every other heap cell, the found node's key,
children, parent and color, the root, and the size counter are unchanged,
so the tree still holds exactly one entry for that key, now with the new
value. -/
theorem Add_existing_overwrites {κ ν : Type} [Inhabited κ] [Inhabited ν]
    (m : Map κ ν) (fuel a : Nat) (n : Node κ ν) (key : κ) (val : ν)
    (hfind : findNode m fuel (some m.root) key = .ok a)
    (hget : m.heap a = some n) (hlive : n.isLeaf = false) :
    ∃ m', Add m fuel key val = .ok (some Err.alreadyExists, m') ∧
      m'.heap a = some { key := n.key, val := val, left := n.left,
                         right := n.right, parent := n.parent,
                         color := n.color } ∧
      (∀ b, b ≠ a → m'.heap b = m.heap b) ∧
      m'.size = m.size ∧ m'.root = m.root ∧ m'.next = m.next ∧
      m'.compareFunc = m.compareFunc := by
  refine ⟨writeN m a { n with val := val }, ?_, ?_, ?_, rfl, rfl, rfl, rfl⟩
  · simp [Add, hfind, readP_some hget, hlive]
  · simp
  · intro b hb
    exact writeN_heap_other hb

/-- Witness for C4: on the one-entry map, re-adding key 5 with value 99
returns the already-exists error, stores 99, and keeps size 1. -/
theorem Add_existing_overwrites_witness :
    (Add exMap 4 5 99).map
        (fun r => (r.1, (r.2.heap 0).map Node.val, r.2.size)) =
      .ok (some Err.alreadyExists, some 99, 1) := by
  obtain ⟨m', h1, h2, -, h4, -⟩ := Add_existing_overwrites exMap 4 0
    { key := 5, val := 7, left := some 1, right := some 2, parent := none,
      color := BLACK } 5 99 rfl rfl rfl
  rw [h1]
  simp [h2, h4, exMap]

/-- The test comparator satisfies the comparator laws. -/
theorem natCmp_laws : CmpLaws natCmp := by
  refine ⟨?_, ?_, ?_, ?_⟩
  · intro x
    simp [natCmp]
  · intro x
    simp [natCmp]
  · intro x y h1
    simp only [natCmp] at h1 ⊢
    split_ifs at h1 ⊢ <;> omega
  · intro x y h1 h2
    simp only [natCmp] at h1 h2
    split_ifs at h1 h2 <;> omega

/-- The one-entry map is a represented region. -/
theorem exMap_rep : Rep exMap.heap (some 0) none
    (.node BLACK .leaf 5 7 .leaf) ([1] ++ 0 :: [2]) := by
  refine Rep.node
    (n := { key := 5, val := 7, left := some 1, right := some 2,
            parent := none, color := BLACK }) rfl rfl ?_ ?_ (by decide)
  · exact Rep.leaf rfl rfl rfl rfl rfl
  · exact Rep.leaf rfl rfl rfl rfl rfl

/-- The one-entry map's root record is BLACK. -/
theorem exMap_rootBlack :
    ∀ nR : Node Nat Nat, exMap.heap 0 = some nR → nR.color = BLACK := by
  intro nR h
  obtain rfl := Option.some.inj h
  rfl

/-- Witness for C5: deleting the absent key 9 from the one-entry map
reports `notExists` and returns the map unchanged. -/
theorem Delete_lookup_witness :
    (some Err.notExists = some Err.notExists ∧ exMap = exMap) :=
  (Delete_lookup exMap_rep rfl exMap_rootBlack natCmp_laws
    (by simp [Tree.inorder]) 8 9 (some .notExists) exMap rfl).1
    (by decide)

end RBGo
